import Mathlib

/-!
# HeapStat: the heap walker of `heapstat.cpp`

A shallow embedding of the heap walker (`src/heapstat.cpp`) and the properties
of its specification.

Conventions of the embedding.

* Machine integers are natural numbers; every C operation that can wrap is
  reduced explicitly (`u32`, `u64`, `sub32`, `sub64`).  `ULONG`, `ULONG32` and
  `int` are 32 bits wide, `USHORT` 16, `UCHAR` 8, `ULONG64` 64 (Windows LLP64).
* A structure that the code fills with `READMEMORY` is the list of its bytes,
  read little-endian by field accessors at the offsets of the `typedef`.
* A `BOOL`-returning function that appends to a `std::list` returns the pair
  of its `BOOL` and the list; the calls made on the `IProcessor` are returned
  as a trace (`List Call`).
* Loops whose termination depends on the contents of the target's memory take
  a fuel argument.  When the fuel runs out a walker that only collects records
  gives `none`, and a walker that calls the consumer ends with
  `Status.outOfFuel` and the calls made so far; neither means that the code
  returned.
-/

namespace HeapStat

/-! ## Machine integers -/

/-- Truncation to `USHORT`. -/
def u16 (x : Nat) : Nat := x % 2 ^ 16

/-- Truncation to `ULONG` / `ULONG32`. -/
def u32 (x : Nat) : Nat := x % 2 ^ 32

/-- Truncation to `ULONG64`. -/
def u64 (x : Nat) : Nat := x % 2 ^ 64

/-- Subtraction of 32-bit unsigned values, as C computes it. -/
def sub32 (a b : Nat) : Nat := (u32 a + 2 ^ 32 - u32 b) % 2 ^ 32

/-- Subtraction of 64-bit unsigned values, as C computes it. -/
def sub64 (a b : Nat) : Nat := (u64 a + 2 ^ 64 - u64 b) % 2 ^ 64

/-- Little-endian value of a list of bytes. -/
def leValue : List Nat → Nat
  | [] => 0
  | b :: bs => b + 256 * leValue bs

/-- The `n` bytes of a structure that start at byte offset `off`, as a
little-endian number (a field of width `n` at offset `off`). -/
def field (bytes : List Nat) (off n : Nat) : Nat :=
  leValue ((bytes.drop off).take n)

/-! ## Heap entries and their decoding -/

/-- The loop `for (i = 0; i < n; i++) entry_[i] ^= encoding_[i]` over the
first `n` bytes of the two structures. -/
def xorBytes (n : Nat) (entry encoding : List Nat) : List Nat :=
  (List.range n).map (fun i => entry.getD i 0 ^^^ encoding.getD i 0)

/-- `DecodeHeapEntry`: the unmasked 8 bytes and the returned `BOOL`. -/
def DecodeHeapEntry (entry encoding : List Nat) : List Nat × Bool :=
  let entry_ := xorBytes 8 entry encoding
  (entry_, (entry_.getD 0 0 ^^^ entry_.getD 1 0 ^^^ entry_.getD 2 0 ^^^ entry_.getD 3 0) == 0)

/-- `DecodeHeap64Entry`: the unmasked 16 bytes and the returned `BOOL`. -/
def DecodeHeap64Entry (entry encoding : List Nat) : List Nat × Bool :=
  let entry_ := xorBytes 16 entry encoding
  (entry_,
    (entry_.getD 0x8 0 ^^^ entry_.getD 0x9 0 ^^^ entry_.getD 0xa 0 ^^^ entry_.getD 0xb 0) == 0)

/-- `HeapEntry`, the 8-byte header of a block on a 32-bit target. -/
structure HeapEntry where
  Size : Nat
  Flags : Nat
  SmallTagIndex : Nat
  PreviousSize : Nat
  SegmentOffset : Nat
  ExtendedBlockSignature : Nat
  deriving DecidableEq, Repr

/-- The fields of a `HeapEntry` held in its 8 bytes. -/
def HeapEntry.ofBytes (b : List Nat) : HeapEntry :=
  { Size := field b 0 2, Flags := field b 2 1, SmallTagIndex := field b 3 1,
    PreviousSize := field b 4 2, SegmentOffset := field b 6 1,
    ExtendedBlockSignature := field b 7 1 }

/-- `Heap64Entry`, the 16-byte header of a block on a 64-bit target. -/
structure Heap64Entry where
  PreviousBlockPrivateData : Nat
  Size : Nat
  Flags : Nat
  SmallTagIndex : Nat
  PreviousSize : Nat
  SegmentOffset : Nat
  ExtendedBlockSignature : Nat
  deriving DecidableEq, Repr

/-- The fields of a `Heap64Entry` held in its 16 bytes. -/
def Heap64Entry.ofBytes (b : List Nat) : Heap64Entry :=
  { PreviousBlockPrivateData := field b 0 8,
    Size := field b 8 2, Flags := field b 10 1, SmallTagIndex := field b 11 1,
    PreviousSize := field b 12 2, SegmentOffset := field b 14 1,
    ExtendedBlockSignature := field b 15 1 }

/-- The fields of `HeapSegment` (64 bytes) that the walker uses. -/
structure HeapSegment where
  Flink : Nat
  FirstEntry : Nat
  LastValidEntry : Nat
  NumberOfUnCommittedPages : Nat
  deriving DecidableEq, Repr

/-- `HeapSegment`: `SegmentListEntry.Flink` at 0x10, `FirstEntry` at 0x24,
`LastValidEntry` at 0x28, `NumberOfUnCommittedPages` at 0x2c. -/
def HeapSegment.ofBytes (b : List Nat) : HeapSegment :=
  { Flink := field b 0x10 4, FirstEntry := field b 0x24 4,
    LastValidEntry := field b 0x28 4, NumberOfUnCommittedPages := field b 0x2c 4 }

/-- The fields of `Heap64Segment` (112 bytes) that the walker uses. -/
structure Heap64Segment where
  Flink : Nat
  FirstEntry : Nat
  LastValidEntry : Nat
  NumberOfUnCommittedPages : Nat
  deriving DecidableEq, Repr

/-- `Heap64Segment`: `SegmentListEntry.Flink` at 0x18, `FirstEntry` at 0x40,
`LastValidEntry` at 0x48, `NumberOfUnCommittedPages` at 0x50. -/
def Heap64Segment.ofBytes (b : List Nat) : Heap64Segment :=
  { Flink := field b 0x18 8, FirstEntry := field b 0x40 8,
    LastValidEntry := field b 0x48 8, NumberOfUnCommittedPages := field b 0x50 4 }

/-- `HeapRecord`, the representation of a busy block. -/
structure HeapRecord where
  ustAddress : Nat
  size : Nat
  address : Nat
  userSize : Nat
  userAddress : Nat
  deriving DecidableEq, Repr

/-- `CommonParams` without `verbose`, which only switches tracing on. -/
structure CommonParams where
  ntGlobalFlag : Nat
  osVersion : Nat
  deriving DecidableEq, Repr

/-! ## The target access layer -/

/-- The structure fields that the 64-bit path reads by symbol. -/
inductive FieldName
  | PEB_NumberOfHeaps
  | PEB_ProcessHeaps
  | HEAP_FrontEndHeapType
  | HEAP_FrontEndHeap
  | HEAP_Encoding
  | HEAP_VirtualAllocdBlocks
  | LFH_HEAP_SubSegmentZones
  | LFH_BLOCK_ZONE_FreePointer
  | HEAP_SUBSEGMENT_BlockSize
  | HEAP_SUBSEGMENT_BlockCount
  | HEAP_SUBSEGMENT_UserBlocks
  | HEAP_USERDATA_HEADER_FirstAllocationOffset
  | LIST_ENTRY_Flink
  deriving DecidableEq, Repr

/-- The types whose size the 64-bit path asks for. -/
inductive TypeName
  | LFH_BLOCK_ZONE
  | HEAP_SUBSEGMENT
  deriving DecidableEq, Repr

/-- The debugger target: its memory (a byte or nothing at each address), the
answers of the debugger API (`IsTarget64`, `IsPtr64`, `GetPebAddress`,
`GetOSVersion`, `GetNtGlobalFlag`, `GetFieldOffset`, `GetTypeSize`) and the
constants of the headers that are not part of the sources (`PAGE_SIZE`,
`OS_VERSION_WIN8`, `PEB32_OFFSET`).  `PAGE_SIZE` is taken to be a constant of
type `int`, so that `NumberOfUnCommittedPages * PAGE_SIZE` is a 32-bit
product. -/
structure Target where
  mem : Nat → Option Nat
  isTarget64 : Bool
  isPtr64 : Bool
  pebAddress : Nat
  osVersion : Nat
  ntGlobalFlag : Nat
  fieldOffset : FieldName → Option Nat
  typeSize : TypeName → Nat
  PAGE_SIZE : Nat
  OS_VERSION_WIN8 : Nat
  PEB32_OFFSET : Nat

/-- Modelled from the spec: the `UST` bit of `NtGlobalFlag` (`UST = 0x1000`,
section 6); the macro `NT_GLOBAL_FLAG_UST` is declared in a header that is not
part of the sources. -/
def NT_GLOBAL_FLAG_UST : Nat := 0x1000

/-- Modelled from the spec: the `HPA` bit of `NtGlobalFlag`
(`HPA = 0x02000000`, section 6); the macro `NT_GLOBAL_FLAG_HPA` is declared in
a header that is not part of the sources. -/
def NT_GLOBAL_FLAG_HPA : Nat := 0x02000000

/-- One byte of the target at a 64-bit address. -/
def readByte (t : Target) (a : Nat) : Option Nat :=
  (t.mem (u64 a)).map (fun b => b % 256)

/-- The `n` bytes at `a`, or nothing when one of them cannot be read. -/
def readBytes (t : Target) (a : Nat) : Nat → Option (List Nat)
  | 0 => some []
  | n + 1 =>
    match readByte t a, readBytes t (a + 1) n with
    | some b, some bs => some (b :: bs)
    | _, _ => none

/-- Modelled from the spec: `read-memory(address, width)` of section 4.1, a
read that fails unless the whole width can be read; the macro `READMEMORY` is
declared in a header that is not part of the sources.  The value is the
little-endian number held in the `width` bytes. -/
def READMEMORY (t : Target) (address width : Nat) : Option Nat :=
  (readBytes t address width).map leValue

/-- Modelled from the spec: `read-field(address, type-name, field-name)` of
section 4.1; `GetFieldValue` belongs to the debugger API.  The bytes of the
field are read at the offset the symbols give for it; the read fails when the
symbol is unknown or the bytes cannot be read. -/
def GetFieldBytes (t : Target) (address : Nat) (f : FieldName) (width : Nat) :
    Option (List Nat) :=
  match t.fieldOffset f with
  | none => none
  | some off => readBytes t (address + off) width

/-- The value of a field read by `GetFieldValue` into a variable of `width`
bytes. -/
def GetFieldValue (t : Target) (address : Nat) (f : FieldName) (width : Nat) : Option Nat :=
  (GetFieldBytes t address f width).map leValue

/-! ## The consumer -/

/-- A call on the `IProcessor`. -/
inductive Call
  | StartHeap (heapAddress : Nat)
  | StartSegment (base last : Nat)
  | Register (record : HeapRecord)
  | FinishSegment (base last : Nat)
  | FinishHeap (heapAddress : Nat)
  deriving DecidableEq, Repr

/-- How a walk ended: `ok` when it returned `TRUE`, `outOfFuel` when it had not
returned within the fuel, otherwise it returned `FALSE` and the constructor
tells the diagnostic the code prints before it returns. -/
inductive Status
  | ok
  | outOfFuel
  | readEncodingFailed
  | readSegmentFailed (address : Nat)
  | readEntryFailed (address : Nat)
  | decodeFailed (address : Nat)
  deriving DecidableEq, Repr

/-- The `BOOL` that was returned, if the walk returned. -/
def Status.returned : Status → Option Bool
  | Status.ok => some true
  | Status.outOfFuel => none
  | _ => some false

/-- A run: how it ended and the calls made on the consumer, in order (for
`outOfFuel`, the calls made so far). -/
structure Run where
  status : Status
  trace : List Call
  deriving DecidableEq, Repr

/-! ## `GetHeapAddress` -/

/-- `GetHeapAddress`: the address of the heap of the given index, or 0. -/
def GetHeapAddress (t : Target) (index : Nat) : Nat :=
  let address :=
    if !t.isTarget64 && t.isPtr64 then sub64 t.pebAddress t.PEB32_OFFSET else u64 t.pebAddress
  let numberOfHeaps :=
    if t.isTarget64 then GetFieldValue t address FieldName.PEB_NumberOfHeaps 4
    else READMEMORY t (address + 0x88) 4
  match numberOfHeaps with
  | none => 0
  | some numberOfHeaps =>
    if index ≥ numberOfHeaps then 0
    else
      let processHeaps :=
        if t.isTarget64 then GetFieldValue t address FieldName.PEB_ProcessHeaps 8
        else READMEMORY t (address + 0x90) 4
      match processHeaps with
      | none => 0
      | some processHeaps =>
        if t.isTarget64 then
          match READMEMORY t (processHeaps + u32 (8 * index)) 8 with
          | none => 0
          | some heap => heap
        else
          match READMEMORY t (processHeaps + u32 (4 * index)) 4 with
          | none => 0
          | some heap => heap

/-! ## The record parser -/

/-- `ParseHeapRecord32`; `none` is `FALSE`. -/
def ParseHeapRecord32 (t : Target) (address : Nat) (entry : HeapEntry) (ntGlobalFlag : Nat) :
    Option HeapRecord :=
  let blockUnit := 8
  if ntGlobalFlag &&& (NT_GLOBAL_FLAG_UST ||| NT_GLOBAL_FLAG_HPA) ≠ 0 then
    let offset := if ntGlobalFlag &&& NT_GLOBAL_FLAG_HPA ≠ 0 then 0x18 else 0
    match READMEMORY t (address + 8 + offset) 4 with
    | none => none
    | some ustAddress =>
      if ntGlobalFlag &&& NT_GLOBAL_FLAG_HPA ≠ 0 then
        match READMEMORY t (address + 8 + 0x8) 2 with
        | some userSize_ =>
          if u32 (entry.Size * blockUnit) > userSize_ then
            some { ustAddress := ustAddress, size := u32 (entry.Size * blockUnit),
                   address := address, userSize := userSize_,
                   userAddress := u64 (address + 8 + 0x20) }
          else none
        | none => none
      else
        match READMEMORY t (address + 8 + 0xc) 2 with
        | some extra =>
          if u32 (entry.Size * blockUnit) ≥ extra then
            some { ustAddress := ustAddress, size := u32 (entry.Size * blockUnit),
                   address := address, userSize := sub32 (entry.Size * blockUnit) extra,
                   userAddress := u64 (address + 8 + 0x10) }
          else none
        | none => none
  else
    some { ustAddress := 0, size := u32 (entry.Size * blockUnit), address := address,
           userSize := sub32 (entry.Size * blockUnit) entry.ExtendedBlockSignature,
           userAddress := u64 (address + 8) }

/-- `ParseHeapRecord64`; `none` is `FALSE`. -/
def ParseHeapRecord64 (t : Target) (address : Nat) (entry : Heap64Entry) (ntGlobalFlag : Nat) :
    Option HeapRecord :=
  let blockUnit := 16
  if ntGlobalFlag &&& (NT_GLOBAL_FLAG_UST ||| NT_GLOBAL_FLAG_HPA) ≠ 0 then
    let offset := if ntGlobalFlag &&& NT_GLOBAL_FLAG_HPA ≠ 0 then 0x30 else 0
    match READMEMORY t (address + 16 + offset) 8 with
    | none => none
    | some ustAddress =>
      if ntGlobalFlag &&& NT_GLOBAL_FLAG_HPA ≠ 0 then
        match READMEMORY t (address + 16 + 0x10) 2 with
        | some userSize_ =>
          if u32 (entry.Size * blockUnit) > userSize_ then
            some { ustAddress := ustAddress, size := u32 (entry.Size * blockUnit),
                   address := address, userSize := userSize_,
                   userAddress := u64 (address + 16 + 0x40) }
          else none
        | none => none
      else
        match READMEMORY t (address + 16 + 0x1c) 2 with
        | some extra =>
          if u32 (entry.Size * blockUnit) ≥ extra then
            some { ustAddress := ustAddress, size := u32 (entry.Size * blockUnit),
                   address := address, userSize := sub32 (entry.Size * blockUnit) extra,
                   userAddress := u64 (address + 16 + 0x20) }
          else none
        | none => none
  else
    some { ustAddress := 0, size := u32 (entry.Size * blockUnit), address := address,
           userSize := sub32 (entry.Size * blockUnit) entry.ExtendedBlockSignature,
           userAddress := u64 (address + 16) }

/-! ## The LFH walker -/

/-- The `for (USHORT i = 0; i < blockCount; i++)` loop of `AnalyzeLFHZone32`,
with `n` blocks left to visit. -/
def lfhBlocks32 (t : Target) (params : CommonParams) (blockSize : Nat) :
    Nat → Nat → List HeapRecord → Bool × List HeapRecord
  | 0, _, lfhRecords => (true, lfhRecords)
  | n + 1, address, lfhRecords =>
    match readBytes t address 8 with
    | none => (false, lfhRecords)
    | some raw =>
      let entry := { HeapEntry.ofBytes raw with Size := blockSize }
      let busy := if params.ntGlobalFlag &&& NT_GLOBAL_FLAG_UST ≠ 0 then 0xc2 else 0x88
      if entry.ExtendedBlockSignature = busy then
        match ParseHeapRecord32 t address entry params.ntGlobalFlag with
        | some record =>
          lfhBlocks32 t params blockSize n (u64 (address + u32 (blockSize * 8)))
            (lfhRecords ++ [record])
        | none => (false, lfhRecords)
      else
        lfhBlocks32 t params blockSize n (u64 (address + u32 (blockSize * 8))) lfhRecords

/-- The `while (subsegment + subsegmentSize <= freePointer)` loop of
`AnalyzeLFHZone32`. -/
def lfhSubsegments32 (t : Target) (params : CommonParams) (freePointer : Nat) :
    Nat → Nat → List HeapRecord → Option (Bool × List HeapRecord)
  | 0, _, _ => none
  | fuel + 1, subsegment, lfhRecords =>
    let subsegmentSize := if params.osVersion ≥ t.OS_VERSION_WIN8 then 0x28 else 0x20
    if u64 (subsegment + subsegmentSize) ≤ freePointer then
      match READMEMORY t
          (subsegment + (if params.osVersion ≥ t.OS_VERSION_WIN8 then 0x14 else 0x10)) 2 with
      | none => some (false, lfhRecords)
      | some blockSize =>
        if blockSize = 0 then some (true, lfhRecords)
        else
          match READMEMORY t
              (subsegment + (if params.osVersion ≥ t.OS_VERSION_WIN8 then 0x18 else 0x14)) 2 with
          | none => some (false, lfhRecords)
          | some blockCount =>
            match READMEMORY t (subsegment + 0x4) 4 with
            | none => some (false, lfhRecords)
            | some userBlocks =>
              if userBlocks ≠ 0 then
                let first : Option Nat :=
                  if params.osVersion ≥ t.OS_VERSION_WIN8 then
                    match READMEMORY t (u32 (userBlocks + 0x10)) 2 with
                    | none => none
                    | some firstAllocationOffset => some (u32 (userBlocks + firstAllocationOffset))
                  else some (u32 (userBlocks + 0x10))
                match first with
                | none => some (false, lfhRecords)
                | some address =>
                  match lfhBlocks32 t params blockSize blockCount address lfhRecords with
                  | (false, lfhRecords') => some (false, lfhRecords')
                  | (true, lfhRecords') =>
                    lfhSubsegments32 t params freePointer fuel
                      (u64 (subsegment + subsegmentSize)) lfhRecords'
              else
                lfhSubsegments32 t params freePointer fuel
                  (u64 (subsegment + subsegmentSize)) lfhRecords
    else some (true, lfhRecords)

/-- `AnalyzeLFHZone32`: the `BOOL` and the list `lfhRecords` as it leaves it. -/
def AnalyzeLFHZone32 (fuel : Nat) (t : Target) (zone : Nat) (params : CommonParams)
    (lfhRecords : List HeapRecord) : Option (Bool × List HeapRecord) :=
  match READMEMORY t (zone + 0x8) 4 with
  | none => some (false, lfhRecords)
  | some freePointer =>
    lfhSubsegments32 t params freePointer fuel (u64 (zone + 0x10)) lfhRecords

/-- The block loop of `AnalyzeLFHZone64`, with `n` blocks left to visit. -/
def lfhBlocks64 (t : Target) (params : CommonParams) (blockSize : Nat) :
    Nat → Nat → List HeapRecord → Bool × List HeapRecord
  | 0, _, lfhRecords => (true, lfhRecords)
  | n + 1, address, lfhRecords =>
    match readBytes t address 16 with
    | none => (false, lfhRecords)
    | some raw =>
      let entry := { Heap64Entry.ofBytes raw with Size := blockSize }
      let busy := if params.ntGlobalFlag &&& NT_GLOBAL_FLAG_UST ≠ 0 then 0xc2 else 0x88
      if entry.ExtendedBlockSignature = busy then
        match ParseHeapRecord64 t address entry params.ntGlobalFlag with
        | some record =>
          lfhBlocks64 t params blockSize n (u64 (address + u32 (blockSize * 16)))
            (lfhRecords ++ [record])
        | none => (false, lfhRecords)
      else
        lfhBlocks64 t params blockSize n (u64 (address + u32 (blockSize * 16))) lfhRecords

/-- The subsegment loop of `AnalyzeLFHZone64`. -/
def lfhSubsegments64 (t : Target) (params : CommonParams) (freePointer : Nat) :
    Nat → Nat → List HeapRecord → Option (Bool × List HeapRecord)
  | 0, _, _ => none
  | fuel + 1, subsegment, lfhRecords =>
    let subsegmentSize := u32 (t.typeSize TypeName.HEAP_SUBSEGMENT)
    if u64 (subsegment + subsegmentSize) ≤ freePointer then
      match GetFieldValue t subsegment FieldName.HEAP_SUBSEGMENT_BlockSize 2 with
      | none => some (false, lfhRecords)
      | some blockSize =>
        if blockSize = 0 then some (true, lfhRecords)
        else
          match GetFieldValue t subsegment FieldName.HEAP_SUBSEGMENT_BlockCount 2 with
          | none => some (false, lfhRecords)
          | some blockCount =>
            match GetFieldValue t subsegment FieldName.HEAP_SUBSEGMENT_UserBlocks 8 with
            | none => some (false, lfhRecords)
            | some userBlocks =>
              if userBlocks ≠ 0 then
                let first : Option Nat :=
                  if params.osVersion ≥ t.OS_VERSION_WIN8 then
                    match GetFieldValue t userBlocks
                        FieldName.HEAP_USERDATA_HEADER_FirstAllocationOffset 2 with
                    | none => none
                    | some firstAllocationOffset => some (u64 (userBlocks + firstAllocationOffset))
                  else some (u64 (userBlocks + u32 (t.typeSize TypeName.LFH_BLOCK_ZONE)))
                match first with
                | none => some (false, lfhRecords)
                | some address =>
                  match lfhBlocks64 t params blockSize blockCount address lfhRecords with
                  | (false, lfhRecords') => some (false, lfhRecords')
                  | (true, lfhRecords') =>
                    lfhSubsegments64 t params freePointer fuel
                      (u64 (subsegment + subsegmentSize)) lfhRecords'
              else
                lfhSubsegments64 t params freePointer fuel
                  (u64 (subsegment + subsegmentSize)) lfhRecords
    else some (true, lfhRecords)

/-- `AnalyzeLFHZone64`: the `BOOL` and the list `lfhRecords` as it leaves it. -/
def AnalyzeLFHZone64 (fuel : Nat) (t : Target) (zone : Nat) (params : CommonParams)
    (lfhRecords : List HeapRecord) : Option (Bool × List HeapRecord) :=
  match GetFieldValue t zone FieldName.LFH_BLOCK_ZONE_FreePointer 8 with
  | none => some (false, lfhRecords)
  | some freePointer =>
    lfhSubsegments64 t params freePointer fuel
      (u64 (zone + u32 (t.typeSize TypeName.LFH_BLOCK_ZONE))) lfhRecords

/-- The `while (true)` loop of `AnalyzeLFH32` over the zone list. -/
def lfhZones32 (t : Target) (params : CommonParams) (start : Nat) :
    Nat → Nat → List HeapRecord → Option (Bool × List HeapRecord)
  | 0, _, _ => none
  | fuel + 1, zone, lfhRecords =>
    match readBytes t zone 8 with
    | none => some (false, lfhRecords)
    | some listEntry =>
      let zone' := field listEntry 0 4
      if zone' = start then some (true, lfhRecords)
      else
        match AnalyzeLFHZone32 fuel t zone' params lfhRecords with
        | none => none
        | some (false, lfhRecords') => some (false, lfhRecords')
        | some (true, lfhRecords') => lfhZones32 t params start fuel zone' lfhRecords'

/-- `AnalyzeLFH32`: the `BOOL` and the list `lfhRecords` as it leaves it. -/
def AnalyzeLFH32 (fuel : Nat) (t : Target) (heapAddress : Nat) (params : CommonParams)
    (lfhRecords : List HeapRecord) : Option (Bool × List HeapRecord) :=
  match READMEMORY t
      (heapAddress + (if params.osVersion ≥ t.OS_VERSION_WIN8 then 0xd6 else 0xda)) 1 with
  | none => some (false, lfhRecords)
  | some type =>
    if type ≠ 0x02 then some (true, lfhRecords)
    else
      match READMEMORY t
          (heapAddress + (if params.osVersion ≥ t.OS_VERSION_WIN8 then 0xd0 else 0xd4)) 4 with
      | none => some (false, lfhRecords)
      | some frontEndHeap =>
        if frontEndHeap = 0 then some (true, lfhRecords)
        else
          let start :=
            u32 (frontEndHeap + (if params.osVersion ≥ t.OS_VERSION_WIN8 then 0x4 else 0x18))
          lfhZones32 t params start fuel start lfhRecords

/-- The `while (true)` loop of `AnalyzeLFH64` over the zone list. -/
def lfhZones64 (t : Target) (params : CommonParams) (start : Nat) :
    Nat → Nat → List HeapRecord → Option (Bool × List HeapRecord)
  | 0, _, _ => none
  | fuel + 1, zone, lfhRecords =>
    match readBytes t zone 16 with
    | none => some (false, lfhRecords)
    | some listEntry =>
      let zone' := field listEntry 0 8
      if zone' = start then some (true, lfhRecords)
      else
        match AnalyzeLFHZone64 fuel t zone' params lfhRecords with
        | none => none
        | some (false, lfhRecords') => some (false, lfhRecords')
        | some (true, lfhRecords') => lfhZones64 t params start fuel zone' lfhRecords'

/-- `AnalyzeLFH64`: the `BOOL` and the list `lfhRecords` as it leaves it. -/
def AnalyzeLFH64 (fuel : Nat) (t : Target) (heapAddress : Nat) (params : CommonParams)
    (lfhRecords : List HeapRecord) : Option (Bool × List HeapRecord) :=
  match GetFieldValue t heapAddress FieldName.HEAP_FrontEndHeapType 1 with
  | none => some (false, lfhRecords)
  | some type =>
    if type ≠ 0x02 then some (true, lfhRecords)
    else
      match GetFieldValue t heapAddress FieldName.HEAP_FrontEndHeap 8 with
      | none => some (false, lfhRecords)
      | some frontEndHeap =>
        if frontEndHeap = 0 then some (true, lfhRecords)
        else
          match t.fieldOffset FieldName.LFH_HEAP_SubSegmentZones with
          | none => some (false, lfhRecords)
          | some offset =>
            let start := u64 (frontEndHeap + u32 offset)
            lfhZones64 t params start fuel start lfhRecords

/-! ## The VirtualAlloc walker -/

/-- The record that `AnalyzeVirtualAllocd32` fills for the list element at
`address` once it has its `size` and `extra`; nothing when `ustAddress` cannot
be read. -/
def vallocRecord32 (t : Target) (params : CommonParams) (address size extra : Nat) :
    Option HeapRecord :=
  if params.ntGlobalFlag &&& NT_GLOBAL_FLAG_UST ≠ 0 then
    match READMEMORY t (address + 0x20) 4 with
    | none => none
    | some ustAddress =>
      some { ustAddress := ustAddress, size := size, address := address,
             userSize := sub64 size extra, userAddress := u64 (address + 0x30) }
  else
    some { ustAddress := 0, size := size, address := address,
           userSize := sub64 size extra, userAddress := u64 (address + 0x20) }

/-- The `while (listEntry.Flink != heapAddress + offset)` loop of
`AnalyzeVirtualAllocd32`; `flink` is `listEntry.Flink`, `head` is
`heapAddress + offset`. -/
def vallocLoop32 (t : Target) (encoding : List Nat) (params : CommonParams) (head : Nat) :
    Nat → Nat → List HeapRecord → Option (Bool × List HeapRecord)
  | 0, _, _ => none
  | fuel + 1, flink, records =>
    if flink ≠ head then
      match READMEMORY t (flink + 0x10) 4 with
      | none => some (false, records)
      | some size =>
        match readBytes t (flink + 0x18) 8 with
        | none => some (false, records)
        | some raw =>
          if (DecodeHeapEntry raw encoding).2 = false then some (false, records)
          else if field (DecodeHeapEntry raw encoding).1 0 2 ≥ size then some (false, records)
          else
            match vallocRecord32 t params flink size
                (field (DecodeHeapEntry raw encoding).1 0 2) with
            | none => some (false, records)
            | some record =>
              match readBytes t flink 8 with
              | none => some (false, records ++ [record])
              | some listEntry =>
                vallocLoop32 t encoding params head fuel (field listEntry 0 4)
                  (records ++ [record])
    else some (true, records)

/-- `AnalyzeVirtualAllocd32`: the `BOOL` and the list `records` as it leaves
it. -/
def AnalyzeVirtualAllocd32 (fuel : Nat) (t : Target) (heapAddress : Nat) (encoding : List Nat)
    (params : CommonParams) (records : List HeapRecord) : Option (Bool × List HeapRecord) :=
  let offset := if params.osVersion ≥ t.OS_VERSION_WIN8 then 0x9c else 0xa0
  match readBytes t (heapAddress + offset) 8 with
  | none => some (false, records)
  | some listEntry =>
    vallocLoop32 t encoding params (u64 (heapAddress + offset)) fuel (field listEntry 0 4) records

/-- The record that `AnalyzeVirtualAllocd64` fills for the list element at
`address` once it has its `size` and `extra`; nothing when `ustAddress` cannot
be read. -/
def vallocRecord64 (t : Target) (params : CommonParams) (address size extra : Nat) :
    Option HeapRecord :=
  if params.ntGlobalFlag &&& NT_GLOBAL_FLAG_UST ≠ 0 then
    match READMEMORY t (address + 0x40) 8 with
    | none => none
    | some ustAddress =>
      some { ustAddress := ustAddress, size := size, address := address,
             userSize := sub64 size extra, userAddress := u64 (address + 0x60) }
  else
    some { ustAddress := 0, size := size, address := address,
           userSize := sub64 size extra, userAddress := u64 (address + 0x40) }

/-- The list loop of `AnalyzeVirtualAllocd64`. -/
def vallocLoop64 (t : Target) (encoding : List Nat) (params : CommonParams) (head : Nat) :
    Nat → Nat → List HeapRecord → Option (Bool × List HeapRecord)
  | 0, _, _ => none
  | fuel + 1, flink, records =>
    if flink ≠ head then
      match READMEMORY t (flink + 0x20) 8 with
      | none => some (false, records)
      | some size =>
        match readBytes t (flink + 0x30) 16 with
        | none => some (false, records)
        | some raw =>
          if (DecodeHeap64Entry raw encoding).2 = false then some (false, records)
          else if field (DecodeHeap64Entry raw encoding).1 8 2 ≥ size then some (false, records)
          else
            match vallocRecord64 t params flink size
                (field (DecodeHeap64Entry raw encoding).1 8 2) with
            | none => some (false, records)
            | some record =>
              match GetFieldValue t flink FieldName.LIST_ENTRY_Flink 8 with
              | none => some (false, records ++ [record])
              | some flink' =>
                vallocLoop64 t encoding params head fuel flink' (records ++ [record])
    else some (true, records)

/-- `AnalyzeVirtualAllocd64`: the `BOOL` and the list `records` as it leaves
it. -/
def AnalyzeVirtualAllocd64 (fuel : Nat) (t : Target) (heapAddress : Nat) (encoding : List Nat)
    (params : CommonParams) (records : List HeapRecord) : Option (Bool × List HeapRecord) :=
  match t.fieldOffset FieldName.HEAP_VirtualAllocdBlocks with
  | none => some (false, records)
  | some offset =>
    match readBytes t (heapAddress + offset) 16 with
    | none => some (false, records)
    | some listEntry =>
      vallocLoop64 t encoding params (u64 (heapAddress + u32 offset)) fuel
        (field listEntry 0 8) records

/-! ## The segment walker -/

/-- `Register`: the records it passes to `processor->Register`, in order, and
the list `lfhRecords` as it leaves it. -/
def Register (record : HeapRecord) : List HeapRecord → List HeapRecord × List HeapRecord
  | [] => ([record], [])
  | first :: rest =>
    if first.address < record.address then
      ((first :: (Register record rest).1), (Register record rest).2)
    else ([record], first :: rest)

/-- `predicate`, the order of the sorts. -/
def predicate (record1 record2 : HeapRecord) : Bool :=
  record1.address < record2.address

/-- A record may stay before another in a sorted list: the second is not
strictly before the first by `predicate`. -/
def notAfter (record1 record2 : HeapRecord) : Prop :=
  predicate record2 record1 = false

instance : DecidableRel notAfter := fun a b =>
  inferInstanceAs (Decidable (predicate b a = false))

instance : IsTotal HeapRecord notAfter :=
  ⟨fun a b => by simp only [notAfter, predicate, decide_eq_false_iff_not, Nat.not_lt]
                 exact Nat.le_total _ _⟩

instance : IsTrans HeapRecord notAfter :=
  ⟨fun a b c => by simp only [notAfter, predicate, decide_eq_false_iff_not, Nat.not_lt]
                   exact Nat.le_trans⟩

/-- `std::list::sort(predicate)`: a stable sort by `predicate`. -/
def sortRecords (records : List HeapRecord) : List HeapRecord :=
  records.insertionSort notAfter

/-- What the scan of one segment left: how it ended, the records it passed to
`processor->Register`, in order, and the list `lfhRecordsInSegment` as it
leaves it. -/
structure ScanOut where
  status : Status
  registered : List HeapRecord
  lfhRecordsInSegment : List HeapRecord
  deriving DecidableEq, Repr

/-- What the scan does with the entry under its cursor, up to the call of
`Register`: it stops (`break`, or `return FALSE` with a diagnostic), or it goes
on to the address `next`, with a record to register when the entry is busy and
its record could be parsed. -/
inductive EntryStep
  | stop (status : Status)
  | advance (record : Option HeapRecord) (next : Nat)
  deriving DecidableEq, Repr

/-- The body of the `while (address < segment.LastValidEntry)` loop of
`AnalyzeHeap32`, up to the call of `Register`. -/
def entryStep32 (t : Target) (params : CommonParams) (encoding : List Nat)
    (segment : HeapSegment) (address : Nat) : EntryStep :=
  match readBytes t address 8 with
  | none => EntryStep.stop (Status.readEntryFailed address)
  | some raw =>
    if (DecodeHeapEntry raw encoding).2 = false then
      EntryStep.stop (Status.decodeFailed address)
    else
      let entry := HeapEntry.ofBytes (DecodeHeapEntry raw encoding).1
      if u64 (address + u32 (entry.Size * 8)) ≥
          sub32 segment.LastValidEntry
            (u32 (segment.NumberOfUnCommittedPages * t.PAGE_SIZE)) then
        EntryStep.stop Status.ok
      else if params.ntGlobalFlag &&& (NT_GLOBAL_FLAG_UST ||| NT_GLOBAL_FLAG_HPA) ≠ 0
          ∧ entry.ExtendedBlockSignature = 0x03 then
        EntryStep.stop Status.ok
      else
        let busy := if params.ntGlobalFlag &&& NT_GLOBAL_FLAG_HPA ≠ 0 then 0x03 else 0x01
        if entry.Flags = busy then
          EntryStep.advance (ParseHeapRecord32 t address entry params.ntGlobalFlag)
            (u64 (address + u32 (entry.Size * 8)))
        else EntryStep.advance none (u64 (address + u32 (entry.Size * 8)))

/-- The loop `while (address < segment.LastValidEntry)` that `AnalyzeHeap32`
and `AnalyzeHeap64` share: `step` is its body up to the call of `Register`,
`last` is `segment.LastValidEntry`. -/
def scanLoop (step : Nat → EntryStep) (last : Nat) : Nat → Nat → List HeapRecord → ScanOut
  | 0, _, lfhRecordsInSegment => ⟨Status.outOfFuel, [], lfhRecordsInSegment⟩
  | fuel + 1, address, lfhRecordsInSegment =>
    if address < last then
      match step address with
      | EntryStep.stop status => ⟨status, [], lfhRecordsInSegment⟩
      | EntryStep.advance none next => scanLoop step last fuel next lfhRecordsInSegment
      | EntryStep.advance (some record) next =>
        let out := scanLoop step last fuel next (Register record lfhRecordsInSegment).2
        { out with registered := (Register record lfhRecordsInSegment).1 ++ out.registered }
    else ⟨Status.ok, [], lfhRecordsInSegment⟩

/-- The `while (address < segment.LastValidEntry)` loop of `AnalyzeHeap32`. -/
def scan32 (t : Target) (params : CommonParams) (encoding : List Nat) (segment : HeapSegment)
    (fuel address : Nat) (lfhRecordsInSegment : List HeapRecord) : ScanOut :=
  scanLoop (entryStep32 t params encoding segment) segment.LastValidEntry fuel address
    lfhRecordsInSegment

/-- The loop over `lfhRecords` that fills `lfhRecordsInSegment`: the records
with `segment.FirstEntry < address` and `address < segment.LastValidEntry`, in
the order of `lfhRecords`. -/
def lfhInSegment (first last : Nat) (lfhRecords : List HeapRecord) : List HeapRecord :=
  lfhRecords.filter (fun r => first < r.address ∧ r.address < last)

/-- What one turn of the segment loop left: how it ended, the calls it made on
the consumer and the value of `heapAddress` for the next turn. -/
structure SegmentOut where
  status : Status
  calls : List Call
  next : Nat
  deriving DecidableEq, Repr

/-- The body of the `while ((heapAddress & 0xffff) == 0)` loop of
`AnalyzeHeap32`: the walk of one segment. -/
def segment32 (t : Target) (params : CommonParams) (encoding : List Nat)
    (lfhRecords : List HeapRecord) (fuel heapAddress : Nat) : SegmentOut :=
  match readBytes t heapAddress 64 with
  | none => ⟨Status.readSegmentFailed heapAddress, [], heapAddress⟩
  | some raw =>
    let segment := HeapSegment.ofBytes raw
    let lfhRecordsInSegment := lfhInSegment segment.FirstEntry segment.LastValidEntry lfhRecords
    let out := scan32 t params encoding segment fuel segment.FirstEntry lfhRecordsInSegment
    if out.status = Status.ok then
      ⟨Status.ok,
        Call.StartSegment heapAddress segment.LastValidEntry ::
          ((out.registered ++ out.lfhRecordsInSegment).map Call.Register ++
            [Call.FinishSegment heapAddress segment.LastValidEntry]),
        sub32 segment.Flink 0x10⟩
    else
      ⟨out.status,
        Call.StartSegment heapAddress segment.LastValidEntry :: out.registered.map Call.Register,
        heapAddress⟩

/-- The loop `while ((heapAddress & 0xffff) == 0)` that `AnalyzeHeap32` and
`AnalyzeHeap64` share: `walk fuel heapAddress` is its body, the walk of the
segment at `heapAddress`. -/
def segmentsLoop (walk : Nat → Nat → SegmentOut) : Nat → Nat → Run
  | 0, _ => ⟨Status.outOfFuel, []⟩
  | fuel + 1, heapAddress =>
    if heapAddress &&& 0xffff = 0 then
      let walked := walk fuel heapAddress
      if walked.status = Status.ok then
        let rest := segmentsLoop walk fuel walked.next
        ⟨rest.status, walked.calls ++ rest.trace⟩
      else ⟨walked.status, walked.calls⟩
    else ⟨Status.ok, []⟩

/-- The `while ((heapAddress & 0xffff) == 0)` loop of `AnalyzeHeap32`. -/
def segments32 (t : Target) (params : CommonParams) (encoding : List Nat)
    (lfhRecords : List HeapRecord) (fuel heapAddress : Nat) : Run :=
  segmentsLoop (segment32 t params encoding lfhRecords) fuel heapAddress

/-- `AnalyzeHeap32`. -/
def AnalyzeHeap32 (fuel : Nat) (t : Target) (heapAddress : Nat) (params : CommonParams) : Run :=
  match AnalyzeLFH32 fuel t heapAddress params [] with
  | none => ⟨Status.outOfFuel, []⟩
  | some (_, lfh) =>
    let lfhRecords := sortRecords lfh
    match readBytes t (heapAddress + 0x50) 8 with
    | none => ⟨Status.readEncodingFailed, []⟩
    | some encoding =>
      match AnalyzeVirtualAllocd32 fuel t heapAddress encoding params [] with
      | none => ⟨Status.outOfFuel, []⟩
      | some (_, valloc) =>
        let vallocRecords := sortRecords valloc
        let walked := segments32 t params encoding lfhRecords fuel heapAddress
        if walked.status = Status.ok then
          ⟨Status.ok, walked.trace ++ vallocRecords.map Call.Register⟩
        else walked

/-- The body of the `while (address < segment.LastValidEntry)` loop of
`AnalyzeHeap64`, up to the call of `Register`. -/
def entryStep64 (t : Target) (params : CommonParams) (encoding : List Nat)
    (segment : Heap64Segment) (address : Nat) : EntryStep :=
  match readBytes t address 16 with
  | none => EntryStep.stop (Status.readEntryFailed address)
  | some raw =>
    if (DecodeHeap64Entry raw encoding).2 = false then
      EntryStep.stop (Status.decodeFailed address)
    else
      let entry := Heap64Entry.ofBytes (DecodeHeap64Entry raw encoding).1
      if u64 (address + u32 (entry.Size * 16)) ≥
          sub64 segment.LastValidEntry
            (u32 (segment.NumberOfUnCommittedPages * t.PAGE_SIZE)) then
        EntryStep.stop Status.ok
      else if params.ntGlobalFlag &&& (NT_GLOBAL_FLAG_UST ||| NT_GLOBAL_FLAG_HPA) ≠ 0
          ∧ entry.ExtendedBlockSignature = 0x03 then
        EntryStep.stop Status.ok
      else
        let busy := if params.ntGlobalFlag &&& NT_GLOBAL_FLAG_HPA ≠ 0 then 0x03 else 0x01
        if entry.Flags = busy then
          EntryStep.advance (ParseHeapRecord64 t address entry params.ntGlobalFlag)
            (u64 (address + u32 (entry.Size * 16)))
        else EntryStep.advance none (u64 (address + u32 (entry.Size * 16)))

/-- The `while (address < segment.LastValidEntry)` loop of `AnalyzeHeap64`. -/
def scan64 (t : Target) (params : CommonParams) (encoding : List Nat)
    (segment : Heap64Segment) (fuel address : Nat) (lfhRecordsInSegment : List HeapRecord) :
    ScanOut :=
  scanLoop (entryStep64 t params encoding segment) segment.LastValidEntry fuel address
    lfhRecordsInSegment

/-- The body of the `while ((heapAddress & 0xffff) == 0)` loop of
`AnalyzeHeap64`: the walk of one segment. -/
def segment64 (t : Target) (params : CommonParams) (encoding : List Nat)
    (lfhRecords : List HeapRecord) (fuel heapAddress : Nat) : SegmentOut :=
  match readBytes t heapAddress 112 with
  | none => ⟨Status.readSegmentFailed heapAddress, [], heapAddress⟩
  | some raw =>
    let segment := Heap64Segment.ofBytes raw
    let lfhRecordsInSegment := lfhInSegment segment.FirstEntry segment.LastValidEntry lfhRecords
    let out := scan64 t params encoding segment fuel segment.FirstEntry lfhRecordsInSegment
    if out.status = Status.ok then
      ⟨Status.ok,
        Call.StartSegment heapAddress segment.LastValidEntry ::
          ((out.registered ++ out.lfhRecordsInSegment).map Call.Register ++
            [Call.FinishSegment heapAddress segment.LastValidEntry]),
        sub64 segment.Flink 0x18⟩
    else
      ⟨out.status,
        Call.StartSegment heapAddress segment.LastValidEntry :: out.registered.map Call.Register,
        heapAddress⟩

/-- The `while ((heapAddress & 0xffff) == 0)` loop of `AnalyzeHeap64`. -/
def segments64 (t : Target) (params : CommonParams) (encoding : List Nat)
    (lfhRecords : List HeapRecord) (fuel heapAddress : Nat) : Run :=
  segmentsLoop (segment64 t params encoding lfhRecords) fuel heapAddress

/-- `AnalyzeHeap64`. -/
def AnalyzeHeap64 (fuel : Nat) (t : Target) (heapAddress : Nat) (params : CommonParams) : Run :=
  match AnalyzeLFH64 fuel t heapAddress params [] with
  | none => ⟨Status.outOfFuel, []⟩
  | some (_, lfh) =>
    let lfhRecords := sortRecords lfh
    match GetFieldBytes t heapAddress FieldName.HEAP_Encoding 16 with
    | none => ⟨Status.readEncodingFailed, []⟩
    | some encoding =>
      match AnalyzeVirtualAllocd64 fuel t heapAddress encoding params [] with
      | none => ⟨Status.outOfFuel, []⟩
      | some (_, valloc) =>
        let vallocRecords := sortRecords valloc
        let walked := segments64 t params encoding lfhRecords fuel heapAddress
        if walked.status = Status.ok then
          ⟨Status.ok, walked.trace ++ vallocRecords.map Call.Register⟩
        else walked

/-! ## The orchestrator -/

/-- The `for (heapIndex = 0; (heapAddress = GetHeapAddress(heapIndex)) != 0;
heapIndex++)` loop of `AnalyzeHeap`. -/
def heapLoop (t : Target) (params : CommonParams) : Nat → Nat → Run
  | 0, _ => ⟨Status.outOfFuel, []⟩
  | fuel + 1, heapIndex =>
    let heapAddress := GetHeapAddress t heapIndex
    if heapAddress ≠ 0 then
      let walked :=
        if t.isTarget64 then AnalyzeHeap64 fuel t heapAddress params
        else AnalyzeHeap32 fuel t heapAddress params
      if walked.status = Status.ok then
        let rest := heapLoop t params fuel (u32 (heapIndex + 1))
        ⟨rest.status,
          Call.StartHeap heapAddress :: (walked.trace ++ Call.FinishHeap heapAddress :: rest.trace)⟩
      else ⟨walked.status, Call.StartHeap heapAddress :: walked.trace⟩
    else ⟨Status.ok, []⟩

/-- `AnalyzeHeap`: the parameters are read from the target, then the heaps are
walked in index order. -/
def AnalyzeHeap (fuel : Nat) (t : Target) : Run :=
  heapLoop t { ntGlobalFlag := u32 t.ntGlobalFlag, osVersion := u64 t.osVersion } fuel 0

/-! ## Notions of the specification -/

/-- The records passed to `Register` in a trace, in order. -/
def registeredRecords : List Call → List HeapRecord
  | [] => []
  | Call.Register r :: rest => r :: registeredRecords rest
  | _ :: rest => registeredRecords rest

/-- The records of the `Register` calls that a trace starts with. -/
def registersPrefix : List Call → List HeapRecord
  | Call.Register r :: rest => r :: registersPrefix rest
  | _ => []

/-- For every `StartSegment` of a trace, in order, the records registered
between it and the next call that is not a `Register` (its `FinishSegment`,
when the walk of the segment came to its end). -/
def segmentGroups : List Call → List (List HeapRecord)
  | [] => []
  | Call.StartSegment _ _ :: rest => registersPrefix rest :: segmentGroups rest
  | _ :: rest => segmentGroups rest

/-- The calls of one walked segment: `StartSegment`, its `Register` calls,
`FinishSegment` with the arguments of the `StartSegment`. -/
structure SegmentGroup where
  base : Nat
  last : Nat
  records : List HeapRecord
  deriving DecidableEq, Repr

/-- The trace of a walked segment. -/
def SegmentGroup.calls (g : SegmentGroup) : List Call :=
  Call.StartSegment g.base g.last ::
    (g.records.map Call.Register ++ [Call.FinishSegment g.base g.last])

/-- The traces of walked segments, one after the other. -/
def segmentsTrace : List SegmentGroup → List Call
  | [] => []
  | g :: gs => g.calls ++ segmentsTrace gs

/-- The calls of one walked heap: `StartHeap`, its segments, the `Register`
calls of its VirtualAlloc records, `FinishHeap` with the same address. -/
structure HeapBlock where
  heapAddress : Nat
  segments : List SegmentGroup
  valloc : List HeapRecord
  deriving DecidableEq, Repr

/-- The trace of a walked heap. -/
def HeapBlock.calls (b : HeapBlock) : List Call :=
  Call.StartHeap b.heapAddress ::
    (segmentsTrace b.segments ++ b.valloc.map Call.Register ++ [Call.FinishHeap b.heapAddress])

/-- The traces of walked heaps, one after the other. -/
def blocksTrace : List HeapBlock → List Call
  | [] => []
  | b :: bs => b.calls ++ blocksTrace bs

/-- The shape of the calls of one turn of the segment loop, with a property
`G` of the records registered for the segment: a whole segment when the turn
ended well; otherwise no call at all, or a segment that was started and not
finished; and a failed checksum leaves a started segment. -/
def WalkShape (G : List HeapRecord → Prop) (w : SegmentOut) : Prop :=
  (w.status = Status.ok → ∃ g : SegmentGroup, w.calls = g.calls ∧ G g.records) ∧
  (w.status ≠ Status.ok → w.calls = [] ∨
    ∃ b l regs, w.calls = Call.StartSegment b l :: List.map Call.Register regs ∧ G regs) ∧
  (∀ a, w.status = Status.decodeFailed a → w.calls ≠ [])

/-- The shape of the trace of a walk that stopped: whole segments, then
possibly a segment that was started and not finished. -/
def StoppedShape (G : List HeapRecord → Prop) (trace : List Call) : Prop :=
  ∃ gs : List SegmentGroup, (∀ g ∈ gs, G g.records) ∧
    (trace = segmentsTrace gs ∨
      ∃ b l regs, trace = segmentsTrace gs ++ Call.StartSegment b l :: List.map Call.Register regs
        ∧ G regs)

/-- The shape of the trace of a walk that stopped inside a segment: whole
segments, then a `StartSegment` followed by `Register` calls only. -/
def OpenShape (trace : List Call) : Prop :=
  ∃ (gs : List SegmentGroup) (b l : Nat) (regs : List HeapRecord),
    trace = segmentsTrace gs ++ Call.StartSegment b l :: List.map Call.Register regs

/-- The backend records of a scan: the records parsed from the busy entries
that the scan meets from `address` on, in scan order, and how the scan ends.
It is the loop `scanLoop` without the LFH list. -/
def backendRecords (step : Nat → EntryStep) (last : Nat) : Nat → Nat → Status × List HeapRecord
  | 0, _ => (Status.outOfFuel, [])
  | fuel + 1, address =>
    if address < last then
      match step address with
      | EntryStep.stop status => (status, [])
      | EntryStep.advance none next => backendRecords step last fuel next
      | EntryStep.advance (some record) next =>
        ((backendRecords step last fuel next).1, record :: (backendRecords step last fuel next).2)
    else (Status.ok, [])

/-- The backend records of a segment on a 32-bit target. -/
def backendRecords32 (t : Target) (params : CommonParams) (encoding : List Nat)
    (segment : HeapSegment) (fuel address : Nat) : Status × List HeapRecord :=
  backendRecords (entryStep32 t params encoding segment) segment.LastValidEntry fuel address

/-- The backend records of a segment on a 64-bit target. -/
def backendRecords64 (t : Target) (params : CommonParams) (encoding : List Nat)
    (segment : Heap64Segment) (fuel address : Nat) : Status × List HeapRecord :=
  backendRecords (entryStep64 t params encoding segment) segment.LastValidEntry fuel address

/-- The order of emission that the specification asks for, given the backend
records in scan order and the LFH records of the segment: before each backend
record come the LFH records not yet emitted whose address is below its
address, and the LFH records that are left come after the last backend
record. -/
def emittedOrder : List HeapRecord → List HeapRecord → List HeapRecord
  | [], lfh => lfh
  | record :: backend, lfh =>
    lfh.filter (fun l => l.address < record.address) ++
      record :: emittedOrder backend (lfh.filter (fun l => ¬ l.address < record.address))

/-- The property holds of every record that `ParseHeapRecord32` returns under
the flags. -/
def ParseInv32 (t : Target) (flag : Nat) (P : HeapRecord → Prop) : Prop :=
  ∀ address entry r, ParseHeapRecord32 t address entry flag = some r → P r

/-- The property holds of every record that `ParseHeapRecord64` returns under
the flags. -/
def ParseInv64 (t : Target) (flag : Nat) (P : HeapRecord → Prop) : Prop :=
  ∀ address entry r, ParseHeapRecord64 t address entry flag = some r → P r

/-- The property holds of every record that `AnalyzeVirtualAllocd32` can fill
under the flags (`extra < size` has been checked). -/
def VallocInv32 (flag : Nat) (P : HeapRecord → Prop) : Prop :=
  ∀ ust size address extra, extra < size →
    (flag &&& NT_GLOBAL_FLAG_UST ≠ 0 →
      P ⟨ust, size, address, sub64 size extra, u64 (address + 0x30)⟩) ∧
    (¬ flag &&& NT_GLOBAL_FLAG_UST ≠ 0 →
      P ⟨0, size, address, sub64 size extra, u64 (address + 0x20)⟩)

/-- The property holds of every record that `AnalyzeVirtualAllocd64` can fill
under the flags (`extra < size` has been checked). -/
def VallocInv64 (flag : Nat) (P : HeapRecord → Prop) : Prop :=
  ∀ ust size address extra, extra < size →
    (flag &&& NT_GLOBAL_FLAG_UST ≠ 0 →
      P ⟨ust, size, address, sub64 size extra, u64 (address + 0x60)⟩) ∧
    (¬ flag &&& NT_GLOBAL_FLAG_UST ≠ 0 →
      P ⟨0, size, address, sub64 size extra, u64 (address + 0x40)⟩)

/-- The bounds on the user area of a record registered under the flags: the
user area starts at most 0x60 bytes after the block, and when UST or HPA is
set it is not larger than the block. -/
def UserAreaBounds (flag : Nat) (r : HeapRecord) : Prop :=
  r.userAddress ≤ r.address + 0x60 ∧
    (flag &&& (NT_GLOBAL_FLAG_UST ||| NT_GLOBAL_FLAG_HPA) ≠ 0 →
      r.userSize ≤ r.size ∧ r.userAddress + r.userSize ≤ r.address + r.size + 0x60)

/-- The addresses at which the scan of a segment reads a heap-entry header
(the `READMEMORY(address, entry)` at the top of the body of the loop
`while (address < segment.LastValidEntry)`), in order.  It is the loop
`scanLoop` with the address of every turn kept instead of the records. -/
def scanReads (step : Nat → EntryStep) (last : Nat) : Nat → Nat → List Nat
  | 0, _ => []
  | fuel + 1, address =>
    if address < last then
      address ::
        (match step address with
         | EntryStep.stop _ => []
         | EntryStep.advance _ next => scanReads step last fuel next)
    else []

/-- The header reads of the scan of a segment on a 32-bit target. -/
def scanReads32 (t : Target) (params : CommonParams) (encoding : List Nat)
    (segment : HeapSegment) (fuel address : Nat) : List Nat :=
  scanReads (entryStep32 t params encoding segment) segment.LastValidEntry fuel address

/-- The header reads of the scan of a segment on a 64-bit target. -/
def scanReads64 (t : Target) (params : CommonParams) (encoding : List Nat)
    (segment : Heap64Segment) (fuel address : Nat) : List Nat :=
  scanReads (entryStep64 t params encoding segment) segment.LastValidEntry fuel address

/-- The value that `AnalyzeHeap32` computes for
`segment.LastValidEntry - segment.NumberOfUnCommittedPages * PAGE_SIZE`: a
32-bit product and a 32-bit difference. -/
def committedEnd32 (t : Target) (segment : HeapSegment) : Nat :=
  sub32 segment.LastValidEntry (u32 (segment.NumberOfUnCommittedPages * t.PAGE_SIZE))

/-- The value that `AnalyzeHeap64` computes for
`segment.LastValidEntry - segment.NumberOfUnCommittedPages * PAGE_SIZE`: a
32-bit product and a 64-bit difference. -/
def committedEnd64 (t : Target) (segment : Heap64Segment) : Nat :=
  sub64 segment.LastValidEntry (u32 (segment.NumberOfUnCommittedPages * t.PAGE_SIZE))

/-- The address at which `GetHeapAddress` reads the PEB: the address that
`GetPebAddress` gives, less `PEB32_OFFSET` for a 32-bit process under a 64-bit
debugger. -/
def pebBase (t : Target) : Nat :=
  if !t.isTarget64 && t.isPtr64 then sub64 t.pebAddress t.PEB32_OFFSET else u64 t.pebAddress

/-- The value that `GetHeapAddress` reads for `NumberOfHeaps`: by symbol on a
64-bit target, at offset 0x88 of the PEB on a 32-bit target. -/
def numberOfHeaps (t : Target) : Option Nat :=
  if t.isTarget64 then GetFieldValue t (pebBase t) FieldName.PEB_NumberOfHeaps 4
  else READMEMORY t (pebBase t + 0x88) 4

/-- The value that `GetHeapAddress` reads for `ProcessHeaps`: by symbol on a
64-bit target, at offset 0x90 of the PEB on a 32-bit target. -/
def processHeaps (t : Target) : Option Nat :=
  if t.isTarget64 then GetFieldValue t (pebBase t) FieldName.PEB_ProcessHeaps 8
  else READMEMORY t (pebBase t + 0x90) 4

/-- The record that the specification gives for block `i` of an LFH
subsegment of a 32-bit target whose blocks start at `first` and have
`blockSize` units of 8 bytes: the block lies at `first + i * (blockSize * 8)`;
it has a record when its raw header can be read and holds the signature of a
busy block (0xc2 with UST set, 0x88 otherwise), and the record is the one
parsed with `Size` taken from the subsegment. -/
def lfhBlockRecord32 (t : Target) (params : CommonParams) (blockSize first i : Nat) :
    Option HeapRecord :=
  match readBytes t (first + i * (blockSize * 8)) 8 with
  | none => none
  | some raw =>
    if (HeapEntry.ofBytes raw).ExtendedBlockSignature =
        (if params.ntGlobalFlag &&& NT_GLOBAL_FLAG_UST ≠ 0 then 0xc2 else 0x88) then
      ParseHeapRecord32 t (first + i * (blockSize * 8))
        { HeapEntry.ofBytes raw with Size := blockSize } params.ntGlobalFlag
    else none

/-- The record that the specification gives for block `i` of an LFH
subsegment of a 64-bit target: as `lfhBlockRecord32`, with units of 16 bytes
and headers of 16 bytes. -/
def lfhBlockRecord64 (t : Target) (params : CommonParams) (blockSize first i : Nat) :
    Option HeapRecord :=
  match readBytes t (first + i * (blockSize * 16)) 16 with
  | none => none
  | some raw =>
    if (Heap64Entry.ofBytes raw).ExtendedBlockSignature =
        (if params.ntGlobalFlag &&& NT_GLOBAL_FLAG_UST ≠ 0 then 0xc2 else 0x88) then
      ParseHeapRecord64 t (first + i * (blockSize * 16))
        { Heap64Entry.ofBytes raw with Size := blockSize } params.ntGlobalFlag
    else none

/-- The first arguments of the `StartSegment` calls of a trace, in order. -/
def startedSegments : List Call → List Nat
  | [] => []
  | Call.StartSegment base _ :: rest => base :: startedSegments rest
  | _ :: rest => startedSegments rest

/-- The candidate that follows the segment at `heapAddress` in `AnalyzeHeap32`:
`segment.SegmentListEntry.Flink - 0x10`, a 32-bit difference (the address
itself when the segment cannot be read). -/
def nextSegment32 (t : Target) (heapAddress : Nat) : Nat :=
  match readBytes t heapAddress 64 with
  | some raw => sub32 (HeapSegment.ofBytes raw).Flink 0x10
  | none => heapAddress

/-- The candidate that follows the segment at `heapAddress` in `AnalyzeHeap64`:
`segment.SegmentListEntry.Flink - 0x18`, a 64-bit difference (the address
itself when the segment cannot be read). -/
def nextSegment64 (t : Target) (heapAddress : Nat) : Nat :=
  match readBytes t heapAddress 112 with
  | some raw => sub64 (Heap64Segment.ofBytes raw).Flink 0x18
  | none => heapAddress

/-! ## The VirtualAlloc blocks of a heap -/

/-- The memory made of the given regions (start address, bytes); the first
region that holds an address gives its byte. -/
def imageMem : List (Nat × List Nat) → Nat → Option Nat
  | [], _ => none
  | (base, bytes) :: rest, a =>
    if base ≤ a ∧ a < base + bytes.length then bytes.get? (a - base) else imageMem rest a

/-- The `width` bytes of a little-endian number. -/
def bytesLE : Nat → Nat → List Nat
  | 0, _ => []
  | width + 1, x => x % 256 :: bytesLE width (x / 256)

/-- The bytes of a decoded `HeapEntry` with the given `Size`, `Flags` and
`ExtendedBlockSignature` and a good checksum. -/
def entryBytes (size flags signature : Nat) : List Nat :=
  [size % 256, size / 256, flags, (size % 256) ^^^ (size / 256) ^^^ flags, 0, 0, 0, signature]

/-- The encoding key of the test heaps. -/
def testKey : List Nat := [0x5a, 0x17, 0xc3, 0x8e, 0x01, 0x02, 0x03, 0x04]

/-- The bytes of a `HeapSegment` with the given fields. -/
def segmentBytes (flink first last uncommitted : Nat) : List Nat :=
  List.replicate 0x10 0 ++ bytesLE 4 flink ++ List.replicate 0x10 0 ++ bytesLE 4 first ++
    bytesLE 4 last ++ bytesLE 4 uncommitted ++ List.replicate 0x10 0

/-- The PEB of a 32-bit test process at 0x7f000 and its array of heaps at
0x7f100. -/
def pebRegions (heaps : List Nat) : List (Nat × List Nat) :=
  [(0x7f088, bytesLE 4 heaps.length), (0x7f090, bytesLE 4 0x7f100),
   (0x7f100, (heaps.map (bytesLE 4)).foldr (fun a b => a ++ b) [])]

/-- The header of a 32-bit test heap (Windows 7 layout) with one segment, the
key `testKey`, and the given list head of VirtualAlloc blocks, front-end heap
and front-end heap type. -/
def heapRegions (heap first last uncommitted vallocFlink frontEndHeap frontEndHeapType : Nat) :
    List (Nat × List Nat) :=
  [(heap, segmentBytes (heap + 0xa8) first last uncommitted),
   (heap + 0x50, testKey),
   (heap + 0xa0, bytesLE 4 vallocFlink ++ bytesLE 4 vallocFlink),
   (heap + 0xd4, bytesLE 4 frontEndHeap),
   (heap + 0xda, [frontEndHeapType])]

/-- A 32-bit test target (Windows 7) with the given memory and flags. -/
def testTarget (regions : List (Nat × List Nat)) (flag : Nat) : Target :=
  { mem := imageMem regions, isTarget64 := false, isPtr64 := false, pebAddress := 0x7f000,
    osVersion := 0x0601, ntGlobalFlag := flag, fieldOffset := fun _ => none,
    typeSize := fun _ => 0, PAGE_SIZE := 0x1000, OS_VERSION_WIN8 := 0x0602,
    PEB32_OFFSET := 0x1000 }

/-- The parameters that `AnalyzeHeap` reads from a test target. -/
def testParams (flag : Nat) : CommonParams := { ntGlobalFlag := flag, osVersion := 0x0601 }

/-- The overlap scenario of the specification: a segment from 0x1000 to 0x3000
whose last page is not committed, a busy backend entry at 0x1000 (0x80 bytes),
an entry at 0x1080 (0xf80 bytes) that is not busy, and an LFH zone with one
subsegment of two busy blocks of 64 bytes at 0x1200 and 0x1240. -/
def overlapRegions : List (Nat × List Nat) :=
  pebRegions [0x10000] ++ heapRegions 0x10000 0x1000 0x3000 1 0x100a0 0x20000 2 ++
  [(0x20018, bytesLE 4 0x21000 ++ bytesLE 4 0x21000),
   (0x21000, bytesLE 4 0x20018 ++ bytesLE 4 0x20018 ++ bytesLE 4 0x21030 ++ bytesLE 4 0),
   (0x21010, bytesLE 4 0 ++ bytesLE 4 0x11f0 ++ List.replicate 8 0 ++ bytesLE 2 8 ++
      bytesLE 2 0 ++ bytesLE 2 2 ++ List.replicate 10 0),
   (0x1000, xorBytes 8 (entryBytes 0x10 1 8) testKey),
   (0x1080, xorBytes 8 (entryBytes 0x1f0 0 0) testKey),
   (0x1200, [0, 0, 0, 0, 0, 0, 0, 0x88]),
   (0x1240, [0, 0, 0, 0, 0, 0, 0, 0x88])]

/-- The overlap scenario, with neither flag set. -/
def overlapTarget : Target := testTarget overlapRegions 0

/-- As `overlapRegions`, but the LFH zone has two subsegments of one block
each, both with their block at 0x1200. -/
def twiceRegions : List (Nat × List Nat) :=
  pebRegions [0x10000] ++ heapRegions 0x10000 0x1000 0x3000 1 0x100a0 0x20000 2 ++
  [(0x20018, bytesLE 4 0x21000 ++ bytesLE 4 0x21000),
   (0x21000, bytesLE 4 0x20018 ++ bytesLE 4 0x20018 ++ bytesLE 4 0x21050 ++ bytesLE 4 0),
   (0x21010, bytesLE 4 0 ++ bytesLE 4 0x11f0 ++ List.replicate 8 0 ++ bytesLE 2 8 ++
      bytesLE 2 0 ++ bytesLE 2 1 ++ List.replicate 10 0),
   (0x21030, bytesLE 4 0 ++ bytesLE 4 0x11f0 ++ List.replicate 8 0 ++ bytesLE 2 8 ++
      bytesLE 2 0 ++ bytesLE 2 1 ++ List.replicate 10 0),
   (0x1000, xorBytes 8 (entryBytes 0x10 1 8) testKey),
   (0x1080, xorBytes 8 (entryBytes 0x1f0 0 0) testKey),
   (0x1200, [0, 0, 0, 0, 0, 0, 0, 0x88])]

/-- The target of `twiceRegions`, with neither flag set. -/
def twiceTarget : Target := testTarget twiceRegions 0

/-- A heap walked with UST set: a busy entry at 0x1000 whose `extra` (0xffff)
is larger than its 0x80 bytes, a busy entry at 0x1080 of 0x80 bytes with
`extra` 0 and stack trace 0xabcd, and a last entry that is not busy. -/
def ustRegions : List (Nat × List Nat) :=
  pebRegions [0x10000] ++ heapRegions 0x10000 0x1000 0x3000 1 0x100a0 0 0 ++
  [(0x1000, xorBytes 8 (entryBytes 0x10 1 0) testKey),
   (0x1008, bytesLE 4 0x1234 ++ List.replicate 8 0 ++ bytesLE 2 0xffff),
   (0x1080, xorBytes 8 (entryBytes 0x10 1 0) testKey),
   (0x1088, bytesLE 4 0xabcd ++ List.replicate 8 0 ++ bytesLE 2 0),
   (0x1100, xorBytes 8 (entryBytes 0x1e0 0 0) testKey)]

/-- The target of `ustRegions`, with UST set. -/
def ustTarget : Target := testTarget ustRegions NT_GLOBAL_FLAG_UST

/-- A heap whose LFH zone at 0x21000 cannot be read and whose only
VirtualAlloc block, at 0x40000, has a header with a bad checksum; its segment
holds one busy entry at 0x1000. -/
def brokenWalkersRegions : List (Nat × List Nat) :=
  pebRegions [0x10000] ++ heapRegions 0x10000 0x1000 0x3000 1 0x40000 0x20000 2 ++
  [(0x20018, bytesLE 4 0x21000 ++ bytesLE 4 0x21000),
   (0x40000, bytesLE 4 0x100a0 ++ bytesLE 4 0x100a0),
   (0x40010, bytesLE 4 0x20000),
   (0x40018, xorBytes 8 [0x10, 0, 0, 0xff, 0, 0, 0, 0] testKey),
   (0x1000, xorBytes 8 (entryBytes 0x10 1 8) testKey),
   (0x1080, xorBytes 8 (entryBytes 0x1f0 0 0) testKey)]

/-- The target of `brokenWalkersRegions`, with neither flag set. -/
def brokenWalkersTarget : Target := testTarget brokenWalkersRegions 0

/-- A segment from 0x2800 to 0x3000 whose last page is not committed, so that
its first entry lies past `LastValidEntry - NumberOfUnCommittedPages *
PAGE_SIZE = 0x2000`; the header at 0x2800 has a bad checksum. -/
def lateRegions : List (Nat × List Nat) :=
  pebRegions [0x10000] ++ heapRegions 0x10000 0x2800 0x3000 1 0x100a0 0 0 ++
  [(0x2800, xorBytes 8 [0x10, 0, 1, 0xff, 0, 0, 0, 8] testKey)]

/-- The target of `lateRegions`, with neither flag set. -/
def lateTarget : Target := testTarget lateRegions 0

/-- A segment from 0x1000 to 0x3000 whose header tells 4 uncommitted pages,
more than the segment has: a busy entry at 0x1000 (0x80 bytes) and entries at
0x1080 (0xf80 bytes) and 0x2000 (0x1000 bytes) that are not busy. -/
def wrapRegions : List (Nat × List Nat) :=
  pebRegions [0x10000] ++ heapRegions 0x10000 0x1000 0x3000 4 0x100a0 0 0 ++
  [(0x1000, xorBytes 8 (entryBytes 0x10 1 8) testKey),
   (0x1080, xorBytes 8 (entryBytes 0x1f0 0 0) testKey),
   (0x2000, xorBytes 8 (entryBytes 0x200 0 0) testKey)]

/-- The target of `wrapRegions`, with neither flag set. -/
def wrapTarget : Target := testTarget wrapRegions 0

/-- A heap with one VirtualAlloc block at 0x40000: its size is 0x20000, its
header decodes with `extra` 0x10, and the four bytes at 0x40020 hold 0x7777. -/
def vallocRegions : List (Nat × List Nat) :=
  pebRegions [0x10000] ++ heapRegions 0x10000 0x1000 0x3000 1 0x40000 0 0 ++
  [(0x40000, bytesLE 4 0x100a0 ++ bytesLE 4 0x100a0),
   (0x40010, bytesLE 4 0x20000),
   (0x40018, xorBytes 8 [0x10, 0, 0, 0x10, 0, 0, 0, 0] testKey),
   (0x40020, bytesLE 4 0x7777),
   (0x1000, xorBytes 8 (entryBytes 0x10 1 8) testKey),
   (0x1080, xorBytes 8 (entryBytes 0x1f0 0 0) testKey)]

/-- The target of `vallocRegions`, with HPA set and UST clear. -/
def hpaTarget : Target := testTarget vallocRegions NT_GLOBAL_FLAG_HPA

/-- A heap with two VirtualAlloc blocks, listed in the order 0x50000 (size
0x30000, `extra` 0x20), 0x40000 (size 0x20000, `extra` 0x10), and one busy
entry at 0x1000 in its segment. -/
def twoVallocRegions : List (Nat × List Nat) :=
  pebRegions [0x10000] ++ heapRegions 0x10000 0x1000 0x3000 1 0x50000 0 0 ++
  [(0x50000, bytesLE 4 0x40000 ++ bytesLE 4 0x100a0),
   (0x50010, bytesLE 4 0x30000),
   (0x50018, xorBytes 8 [0x20, 0, 0, 0x20, 0, 0, 0, 0] testKey),
   (0x40000, bytesLE 4 0x100a0 ++ bytesLE 4 0x50000),
   (0x40010, bytesLE 4 0x20000),
   (0x40018, xorBytes 8 [0x10, 0, 0, 0x10, 0, 0, 0, 0] testKey),
   (0x1000, xorBytes 8 (entryBytes 0x10 1 8) testKey),
   (0x1080, xorBytes 8 (entryBytes 0x1f0 0 0) testKey)]

/-- The target of `twoVallocRegions`, with neither flag set. -/
def twoVallocTarget : Target := testTarget twoVallocRegions 0

/-- A heap walked with HPA set: the entry at 0x1000 (0x80 bytes) is busy
(`Flags` 0x03); its user size, 100, is in the two bytes at 0x1010 and its
stack trace, 0x5555, in the four bytes at 0x1020. -/
def hpaHeapRegions : List (Nat × List Nat) :=
  pebRegions [0x10000] ++ heapRegions 0x10000 0x1000 0x3000 1 0x100a0 0 0 ++
  [(0x1000, xorBytes 8 (entryBytes 0x10 3 8) testKey),
   (0x1008, List.replicate 8 0 ++ bytesLE 2 100 ++ List.replicate 14 0 ++ bytesLE 4 0x5555),
   (0x1080, xorBytes 8 (entryBytes 0x1f0 0 0) testKey)]

/-- The target of `hpaHeapRegions`, with HPA set and UST clear. -/
def hpaHeapTarget : Target := testTarget hpaHeapRegions NT_GLOBAL_FLAG_HPA

/-- The offsets that the symbols of the 64-bit test target give. -/
def testOffsets64 : FieldName → Option Nat
  | FieldName.PEB_NumberOfHeaps => some 0xe8
  | FieldName.PEB_ProcessHeaps => some 0xf0
  | FieldName.HEAP_FrontEndHeapType => some 0x182
  | FieldName.HEAP_FrontEndHeap => some 0x178
  | FieldName.HEAP_Encoding => some 0x80
  | FieldName.HEAP_VirtualAllocdBlocks => some 0x118
  | FieldName.LFH_HEAP_SubSegmentZones => some 0x28
  | FieldName.LFH_BLOCK_ZONE_FreePointer => some 0x10
  | FieldName.HEAP_SUBSEGMENT_BlockSize => some 0x20
  | FieldName.HEAP_SUBSEGMENT_BlockCount => some 0x24
  | FieldName.HEAP_SUBSEGMENT_UserBlocks => some 0x8
  | FieldName.HEAP_USERDATA_HEADER_FirstAllocationOffset => some 0x20
  | FieldName.LIST_ENTRY_Flink => some 0

/-- The sizes that the symbols of the 64-bit test target give. -/
def testSizes64 : TypeName → Nat
  | TypeName.LFH_BLOCK_ZONE => 0x20
  | TypeName.HEAP_SUBSEGMENT => 0x30

/-- The bytes of a busy LFH block of a 64-bit target with UST set: a header
whose first eight bytes hold `head` and whose `ExtendedBlockSignature` is
0xc2, then `ust` in the eight bytes at 0x10, `other` in the two bytes at 0x1c
and `extra` in the two bytes at 0x2c. -/
def lfhBlockBytes64 (head ust other extra : Nat) : List Nat :=
  bytesLE 8 head ++ List.replicate 7 0 ++ [0xc2] ++ bytesLE 8 ust ++ List.replicate 4 0 ++
    bytesLE 2 other ++ List.replicate 14 0 ++ bytesLE 2 extra

/-- The LFH scenario of the specification on a 64-bit target: the heap at
0x100000 has the front-end heap 0x200000, whose one zone at 0x210000 holds one
subsegment with `BlockSize` 4 and `BlockCount` 2; its user blocks at 0x2f00
tell the first allocation at offset 0x100, and the blocks at 0x3000 and 0x3040
are busy. -/
def lfh64Regions : List (Nat × List Nat) :=
  [(0x100178, bytesLE 8 0x200000),
   (0x100182, [2]),
   (0x200028, bytesLE 8 0x210000 ++ bytesLE 8 0x210000),
   (0x210000, bytesLE 8 0x200028 ++ bytesLE 8 0x200028 ++ bytesLE 8 0x210050 ++ bytesLE 8 0),
   (0x210020, bytesLE 8 0 ++ bytesLE 8 0x2f00 ++ List.replicate 16 0 ++ bytesLE 2 4 ++
      bytesLE 2 0 ++ bytesLE 2 2 ++ List.replicate 10 0),
   (0x2f20, bytesLE 2 0x100),
   (0x3000, lfhBlockBytes64 0x1111 0xabcd 7 16),
   (0x3040, lfhBlockBytes64 0x2222 0xbcde 9 24)]

/-- The target of `lfh64Regions`: 64-bit, Windows 8, UST set and HPA clear. -/
def lfh64Target : Target :=
  { mem := imageMem lfh64Regions, isTarget64 := true, isPtr64 := true, pebAddress := 0x7f000,
    osVersion := 0x0602, ntGlobalFlag := NT_GLOBAL_FLAG_UST, fieldOffset := testOffsets64,
    typeSize := testSizes64, PAGE_SIZE := 0x1000, OS_VERSION_WIN8 := 0x0602,
    PEB32_OFFSET := 0x1000 }

/-- The parameters that `AnalyzeHeap` reads from `lfh64Target`. -/
def lfh64Params : CommonParams := { ntGlobalFlag := NT_GLOBAL_FLAG_UST, osVersion := 0x0602 }

/-- The bytes of a busy LFH block of a 32-bit target with UST set: a header
whose `ExtendedBlockSignature` is 0xc2, then `ust` in the four bytes at 0x8
and `extra` in the two bytes at 0x14. -/
def lfhBlockBytes32 (ust extra : Nat) : List Nat :=
  [0, 0, 0, 0, 0, 0, 0, 0xc2] ++ bytesLE 4 ust ++ List.replicate 8 0 ++ bytesLE 2 extra

/-- The LFH zone of the 32-bit test heaps: the front-end heap 0x20000 has the
one zone 0x21000, whose one subsegment has user blocks at 0x11f0, `BlockSize`
8 and the given `BlockCount`. -/
def zoneRegions (blockCount : Nat) : List (Nat × List Nat) :=
  [(0x20018, bytesLE 4 0x21000 ++ bytesLE 4 0x21000),
   (0x21000, bytesLE 4 0x20018 ++ bytesLE 4 0x20018 ++ bytesLE 4 0x21030 ++ bytesLE 4 0),
   (0x21010, bytesLE 4 0 ++ bytesLE 4 0x11f0 ++ List.replicate 8 0 ++ bytesLE 2 8 ++
      bytesLE 2 0 ++ bytesLE 2 blockCount ++ List.replicate 10 0)]

/-- The sentinel scenario of the specification: the first entry of the
segment decodes with `ExtendedBlockSignature` 0x03, and the LFH zone holds two
busy blocks, at 0x1200 and 0x1240, that lie in the segment. -/
def sentinelRegions : List (Nat × List Nat) :=
  pebRegions [0x10000] ++ heapRegions 0x10000 0x1000 0x3000 1 0x100a0 0x20000 2 ++
  zoneRegions 2 ++
  [(0x1000, xorBytes 8 (entryBytes 0x10 1 3) testKey),
   (0x1200, lfhBlockBytes32 0xaaaa 8),
   (0x1240, lfhBlockBytes32 0xbbbb 16)]

/-- The target of `sentinelRegions`, with UST set. -/
def sentinelTarget : Target := testTarget sentinelRegions NT_GLOBAL_FLAG_UST

/-- An LFH subsegment of three blocks walked with UST set: the block at 0x1200
is busy with `extra` 8, the block at 0x1240 is not busy, and the block at
0x1280 is busy with `extra` 0xffff, more than its 64 bytes. -/
def lfhUnparsedRegions : List (Nat × List Nat) :=
  pebRegions [0x10000] ++ heapRegions 0x10000 0x1000 0x3000 1 0x100a0 0x20000 2 ++
  zoneRegions 3 ++
  [(0x1000, xorBytes 8 (entryBytes 0x10 1 8) testKey),
   (0x1080, xorBytes 8 (entryBytes 0x1f0 0 0) testKey),
   (0x1200, lfhBlockBytes32 0xaaaa 8),
   (0x1240, [0, 0, 0, 0, 0, 0, 0, 0]),
   (0x1280, lfhBlockBytes32 0xbbbb 0xffff)]

/-- The target of `lfhUnparsedRegions`, with UST set. -/
def lfhUnparsedTarget : Target := testTarget lfhUnparsedRegions NT_GLOBAL_FLAG_UST

/-- An LFH zone of three subsegments: the first has one busy block at 0x1200,
the second has `BlockSize` 0, and the third would have one busy block at
0x1400. -/
def unusedRegions : List (Nat × List Nat) :=
  pebRegions [0x10000] ++ heapRegions 0x10000 0x1000 0x3000 1 0x100a0 0x20000 2 ++
  [(0x20018, bytesLE 4 0x21000 ++ bytesLE 4 0x21000),
   (0x21000, bytesLE 4 0x20018 ++ bytesLE 4 0x20018 ++ bytesLE 4 0x21070 ++ bytesLE 4 0),
   (0x21010, bytesLE 4 0 ++ bytesLE 4 0x11f0 ++ List.replicate 8 0 ++ bytesLE 2 8 ++
      bytesLE 2 0 ++ bytesLE 2 1 ++ List.replicate 10 0),
   (0x21030, List.replicate 0x20 0),
   (0x21050, bytesLE 4 0 ++ bytesLE 4 0x13f0 ++ List.replicate 8 0 ++ bytesLE 2 8 ++
      bytesLE 2 0 ++ bytesLE 2 1 ++ List.replicate 10 0),
   (0x1000, xorBytes 8 (entryBytes 0x10 1 8) testKey),
   (0x1080, xorBytes 8 (entryBytes 0x1f0 0 0) testKey),
   (0x1200, [0, 0, 0, 0, 0, 0, 0, 0x88]),
   (0x1400, [0, 0, 0, 0, 0, 0, 0, 0x88])]

/-- The target of `unusedRegions`, with neither flag set. -/
def unusedTarget : Target := testTarget unusedRegions 0

/-- The header of a 32-bit test heap as `heapRegions` builds it, with no
front-end heap and no VirtualAlloc block, but with the given `Flink` of the
list of segments. -/
def chainedRegions (heap flink first last uncommitted : Nat) : List (Nat × List Nat) :=
  [(heap, segmentBytes flink first last uncommitted),
   (heap + 0x50, testKey),
   (heap + 0xa0, bytesLE 4 (heap + 0xa0) ++ bytesLE 4 (heap + 0xa0)),
   (heap + 0xd4, bytesLE 4 0),
   (heap + 0xda, [0])]

/-- A heap at 0x10000 whose segment tells the next segment at 0x20000
(`Flink` is 0x20010), where nothing can be read. -/
def danglingRegions : List (Nat × List Nat) :=
  pebRegions [0x10000] ++ chainedRegions 0x10000 0x20010 0x1000 0x3000 1 ++
  [(0x1000, xorBytes 8 (entryBytes 0x10 1 8) testKey),
   (0x1080, xorBytes 8 (entryBytes 0x1f0 0 0) testKey)]

/-- The target of `danglingRegions`, with neither flag set. -/
def danglingTarget : Target := testTarget danglingRegions 0

/-- A heap at 0x10000 with a second segment at 0x20000, whose `Flink` (0x100a8)
leads to the candidate 0x10098; each segment holds one busy entry. -/
def twoSegmentsRegions : List (Nat × List Nat) :=
  pebRegions [0x10000] ++ chainedRegions 0x10000 0x20010 0x1000 0x3000 1 ++
  [(0x20000, segmentBytes 0x100a8 0x21000 0x23000 1),
   (0x1000, xorBytes 8 (entryBytes 0x10 1 8) testKey),
   (0x1080, xorBytes 8 (entryBytes 0x1f0 0 0) testKey),
   (0x21000, xorBytes 8 (entryBytes 0x10 1 8) testKey),
   (0x21080, xorBytes 8 (entryBytes 0x1f0 0 0) testKey)]

/-- The target of `twoSegmentsRegions`, with neither flag set. -/
def twoSegmentsTarget : Target := testTarget twoSegmentsRegions 0

/-- A segment from 0x1000 to 0x100c, all committed, with two entries of 8
bytes (`Size` 1) that are not busy, at 0x1000 and 0x1008. -/
def raggedRegions : List (Nat × List Nat) :=
  pebRegions [0x10000] ++ heapRegions 0x10000 0x1000 0x100c 0 0x100a0 0 0 ++
  [(0x1000, xorBytes 8 (entryBytes 1 0 0) testKey),
   (0x1008, xorBytes 8 (entryBytes 1 0 0) testKey)]

/-- The target of `raggedRegions`, with neither flag set. -/
def raggedTarget : Target := testTarget raggedRegions 0

/-- A segment from 0x1000 to 0x3000 whose first entry is busy and has `Size`
0. -/
def stuckRegions : List (Nat × List Nat) :=
  pebRegions [0x10000] ++ heapRegions 0x10000 0x1000 0x3000 1 0x100a0 0 0 ++
  [(0x1000, xorBytes 8 (entryBytes 0 1 0) testKey)]

/-- The target of `stuckRegions`, with neither flag set. -/
def stuckTarget : Target := testTarget stuckRegions 0

theorem xorBytes_length (n : Nat) (e k : List Nat) : (xorBytes n e k).length = n := by
  simp [xorBytes]

theorem xorBytes_getD (n : Nat) (e k : List Nat) (i : Nat) (h : i < n) :
    (xorBytes n e k).getD i 0 = e.getD i 0 ^^^ k.getD i 0 := by
  simp [xorBytes, List.getD_eq_getElem?_getD, List.getElem?_map, List.getElem?_range h]

theorem xor_cancel_right (a b : Nat) : (a ^^^ b) ^^^ b = a := by
  rw [Nat.xor_assoc, Nat.xor_self, Nat.xor_zero]

theorem eq_of_getD_eq (n : Nat) (a b : List Nat) (ha : a.length = n) (hb : b.length = n)
    (h : ∀ i, i < n → a.getD i 0 = b.getD i 0) : a = b := by
  apply List.ext_getElem (by rw [ha, hb])
  intro i h1 h2
  have := h i (by omega)
  simpa [List.getD_eq_getElem?_getD, List.getElem?_eq_getElem h1, List.getElem?_eq_getElem h2]
    using this

theorem xorBytes_xorBytes (n : Nat) (x k : List Nat) (hx : x.length = n) :
    xorBytes n (xorBytes n x k) k = x := by
  apply eq_of_getD_eq n _ _ (xorBytes_length _ _ _) hx
  intro i hi
  rw [xorBytes_getD _ _ _ _ hi, xorBytes_getD _ _ _ _ hi, xor_cancel_right]

theorem zipWith_xor_eq_xorBytes (n : Nat) (x k : List Nat) (hx : x.length = n)
    (hk : k.length = n) : List.zipWith (fun a b => a ^^^ b) x k = xorBytes n x k := by
  apply eq_of_getD_eq n _ _ (by simp [hx, hk]) (xorBytes_length _ _ _)
  intro i hi
  rw [xorBytes_getD _ _ _ _ hi]
  have h1 : i < x.length := by omega
  have h2 : i < k.length := by omega
  simp [List.getD_eq_getElem?_getD, List.getElem?_zipWith, List.getElem?_eq_getElem h1,
    List.getElem?_eq_getElem h2]

/-- C1: decoding undoes encoding.  For every 8-byte entry `x` and 8-byte key
`k`, `DecodeHeapEntry` applied with `k` to the byte-wise XOR of `x` and `k`
leaves the bytes of `x`, and decoding `x` twice with `k` gives `x` back; the
same holds for 16-byte entries and keys with `DecodeHeap64Entry`. -/
theorem C1_decode_undoes_encode (x k : List Nat) :
    (x.length = 8 → k.length = 8 →
      (DecodeHeapEntry (List.zipWith (fun a b => a ^^^ b) x k) k).1 = x ∧
      (DecodeHeapEntry (DecodeHeapEntry x k).1 k).1 = x) ∧
    (x.length = 16 → k.length = 16 →
      (DecodeHeap64Entry (List.zipWith (fun a b => a ^^^ b) x k) k).1 = x ∧
      (DecodeHeap64Entry (DecodeHeap64Entry x k).1 k).1 = x) := by
  constructor
  · intro hx hk
    simp only [DecodeHeapEntry]
    rw [zipWith_xor_eq_xorBytes 8 x k hx hk]
    exact ⟨xorBytes_xorBytes 8 x k hx, xorBytes_xorBytes 8 x k hx⟩
  · intro hx hk
    simp only [DecodeHeap64Entry]
    rw [zipWith_xor_eq_xorBytes 16 x k hx hk]
    exact ⟨xorBytes_xorBytes 16 x k hx, xorBytes_xorBytes 16 x k hx⟩

/-- C2: what the decoders compute.  `DecodeHeapEntry` leaves 8 bytes, byte `i`
being `entry[i] XOR key[i]`, and returns `TRUE` exactly when the XOR of the
unmasked bytes 0 to 3 is zero; `DecodeHeap64Entry` leaves 16 bytes and tests the
unmasked bytes 8 to 11.  The returned `BOOL` is the same for any other entry
and key that agree with these on the checksummed lane. -/
theorem C2_decode_bytes_and_checksum (entry key : List Nat) :
    ((DecodeHeapEntry entry key).1.length = 8 ∧
      (∀ i, i < 8 → (DecodeHeapEntry entry key).1.getD i 0 = entry.getD i 0 ^^^ key.getD i 0) ∧
      ((DecodeHeapEntry entry key).2 = true ↔
        (entry.getD 0 0 ^^^ key.getD 0 0) ^^^ (entry.getD 1 0 ^^^ key.getD 1 0) ^^^
          (entry.getD 2 0 ^^^ key.getD 2 0) ^^^ (entry.getD 3 0 ^^^ key.getD 3 0) = 0) ∧
      (∀ entry' key' : List Nat,
        (∀ i, i < 4 → entry'.getD i 0 = entry.getD i 0 ∧ key'.getD i 0 = key.getD i 0) →
        (DecodeHeapEntry entry' key').2 = (DecodeHeapEntry entry key).2)) ∧
    ((DecodeHeap64Entry entry key).1.length = 16 ∧
      (∀ i, i < 16 →
        (DecodeHeap64Entry entry key).1.getD i 0 = entry.getD i 0 ^^^ key.getD i 0) ∧
      ((DecodeHeap64Entry entry key).2 = true ↔
        (entry.getD 8 0 ^^^ key.getD 8 0) ^^^ (entry.getD 9 0 ^^^ key.getD 9 0) ^^^
          (entry.getD 10 0 ^^^ key.getD 10 0) ^^^ (entry.getD 11 0 ^^^ key.getD 11 0) = 0) ∧
      (∀ entry' key' : List Nat,
        (∀ i, 8 ≤ i → i < 12 →
          entry'.getD i 0 = entry.getD i 0 ∧ key'.getD i 0 = key.getD i 0) →
        (DecodeHeap64Entry entry' key').2 = (DecodeHeap64Entry entry key).2)) := by
  refine ⟨⟨xorBytes_length _ _ _, fun i hi => xorBytes_getD _ _ _ _ hi, ?_, ?_⟩,
    ⟨xorBytes_length _ _ _, fun i hi => xorBytes_getD _ _ _ _ hi, ?_, ?_⟩⟩
  · simp only [DecodeHeapEntry, beq_iff_eq]
    rw [xorBytes_getD 8 _ _ 0 (by omega), xorBytes_getD 8 _ _ 1 (by omega),
      xorBytes_getD 8 _ _ 2 (by omega), xorBytes_getD 8 _ _ 3 (by omega)]
  · intro entry' key' h
    simp only [DecodeHeapEntry]
    rw [xorBytes_getD 8 _ _ 0 (by omega), xorBytes_getD 8 _ _ 1 (by omega),
      xorBytes_getD 8 _ _ 2 (by omega), xorBytes_getD 8 _ _ 3 (by omega),
      xorBytes_getD 8 _ _ 0 (by omega), xorBytes_getD 8 _ _ 1 (by omega),
      xorBytes_getD 8 _ _ 2 (by omega), xorBytes_getD 8 _ _ 3 (by omega),
      (h 0 (by omega)).1, (h 0 (by omega)).2, (h 1 (by omega)).1, (h 1 (by omega)).2,
      (h 2 (by omega)).1, (h 2 (by omega)).2, (h 3 (by omega)).1, (h 3 (by omega)).2]
  · simp only [DecodeHeap64Entry, beq_iff_eq]
    rw [xorBytes_getD 16 _ _ 8 (by omega), xorBytes_getD 16 _ _ 9 (by omega),
      xorBytes_getD 16 _ _ 10 (by omega), xorBytes_getD 16 _ _ 11 (by omega)]
  · intro entry' key' h
    simp only [DecodeHeap64Entry]
    rw [xorBytes_getD 16 _ _ 8 (by omega), xorBytes_getD 16 _ _ 9 (by omega),
      xorBytes_getD 16 _ _ 10 (by omega), xorBytes_getD 16 _ _ 11 (by omega),
      xorBytes_getD 16 _ _ 8 (by omega), xorBytes_getD 16 _ _ 9 (by omega),
      xorBytes_getD 16 _ _ 10 (by omega), xorBytes_getD 16 _ _ 11 (by omega),
      (h 8 (by omega) (by omega)).1, (h 8 (by omega) (by omega)).2,
      (h 9 (by omega) (by omega)).1, (h 9 (by omega) (by omega)).2,
      (h 10 (by omega) (by omega)).1, (h 10 (by omega) (by omega)).2,
      (h 11 (by omega) (by omega)).1, (h 11 (by omega) (by omega)).2]

/-- C1, witness: an 8-byte entry and key, and a 16-byte entry and key. -/
theorem C1_decode_undoes_encode_witness :
    (DecodeHeapEntry (List.zipWith (fun a b => a ^^^ b) (entryBytes 0x10 1 8) testKey)
        testKey).1 = entryBytes 0x10 1 8 ∧
    (DecodeHeapEntry (DecodeHeapEntry (entryBytes 0x10 1 8) testKey).1 testKey).1 =
      entryBytes 0x10 1 8 ∧
    (DecodeHeap64Entry
        (List.zipWith (fun a b => a ^^^ b) (testKey ++ entryBytes 0x10 1 8)
          (testKey ++ testKey)) (testKey ++ testKey)).1 = testKey ++ entryBytes 0x10 1 8 ∧
    (DecodeHeap64Entry (DecodeHeap64Entry (testKey ++ entryBytes 0x10 1 8)
        (testKey ++ testKey)).1 (testKey ++ testKey)).1 = testKey ++ entryBytes 0x10 1 8 :=
  ⟨((C1_decode_undoes_encode (entryBytes 0x10 1 8) testKey).1 (by rfl) (by rfl)).1,
    ((C1_decode_undoes_encode (entryBytes 0x10 1 8) testKey).1 (by rfl) (by rfl)).2,
    ((C1_decode_undoes_encode (testKey ++ entryBytes 0x10 1 8) (testKey ++ testKey)).2
      (by rfl) (by rfl)).1,
    ((C1_decode_undoes_encode (testKey ++ entryBytes 0x10 1 8) (testKey ++ testKey)).2
      (by rfl) (by rfl)).2⟩

/-- C2, witness: the header at 0x1000 of the test heaps decodes with a good
checksum, the header at 0x5080 of `corruptTarget` with a bad one. -/
theorem C2_decode_bytes_and_checksum_witness :
    DecodeHeapEntry (xorBytes 8 (entryBytes 0x10 1 8) testKey) testKey =
      (entryBytes 0x10 1 8, true) ∧
    DecodeHeapEntry (xorBytes 8 [0x10, 0, 1, 0xff, 0, 0, 0, 8] testKey) testKey =
      ([0x10, 0, 1, 0xff, 0, 0, 0, 8], false) ∧
    (DecodeHeapEntry (xorBytes 8 (entryBytes 0x10 1 8) testKey) testKey).1.length = 8 :=
  ⟨by rfl, by rfl, (C2_decode_bytes_and_checksum _ _).1.1⟩

theorem mem_lfhInSegment {first last : Nat} {lfhRecords : List HeapRecord} {r : HeapRecord}
    (h : r ∈ lfhInSegment first last lfhRecords) : r ∈ lfhRecords :=
  (List.mem_filter.1 h).1

theorem forall_mem_snoc {P : HeapRecord → Prop} {acc : List HeapRecord} {x : HeapRecord}
    (hacc : ∀ r ∈ acc, P r) (hx : P x) : ∀ r ∈ acc ++ [x], P r := by
  intro r hr
  rcases List.mem_append.1 hr with h | h
  · exact hacc r h
  · rw [List.mem_singleton.1 h]; exact hx

theorem lfhBlocks32_all (t : Target) (params : CommonParams) (P : HeapRecord → Prop)
    (hp : ParseInv32 t params.ntGlobalFlag P) (blockSize : Nat) :
    ∀ (n address : Nat) (acc : List HeapRecord) (b : Bool) (recs : List HeapRecord),
      (∀ r ∈ acc, P r) → lfhBlocks32 t params blockSize n address acc = (b, recs) →
      ∀ r ∈ recs, P r := by
  intro n
  induction n with
  | zero =>
    intro address acc b recs hacc h
    simp only [lfhBlocks32, Prod.mk.injEq] at h
    obtain ⟨_, rfl⟩ := h; exact hacc
  | succ n ih =>
    intro address acc b recs hacc h
    unfold lfhBlocks32 at h
    simp only [] at h
    repeat' split at h
    all_goals first
      | (simp only [Prod.mk.injEq] at h; obtain ⟨_, rfl⟩ := h; exact hacc)
      | exact ih _ _ _ _ hacc h
      | exact ih _ _ _ _ (forall_mem_snoc hacc (hp _ _ _ (by assumption))) h

theorem lfhSubsegments32_all (t : Target) (params : CommonParams) (P : HeapRecord → Prop)
    (hp : ParseInv32 t params.ntGlobalFlag P) (freePointer : Nat) :
    ∀ (fuel subsegment : Nat) (acc : List HeapRecord) (b : Bool) (recs : List HeapRecord),
      (∀ r ∈ acc, P r) →
      lfhSubsegments32 t params freePointer fuel subsegment acc = some (b, recs) →
      ∀ r ∈ recs, P r := by
  intro fuel
  induction fuel with
  | zero => intro s acc b recs _ h; simp [lfhSubsegments32] at h
  | succ fuel ih =>
    intro s acc b recs hacc h
    unfold lfhSubsegments32 at h
    simp only [] at h
    repeat' split at h
    all_goals first
      | (simp only [Option.some.injEq, Prod.mk.injEq] at h; obtain ⟨_, rfl⟩ := h; exact hacc)
      | exact ih _ _ _ _ hacc h
      | (simp only [Option.some.injEq, Prod.mk.injEq] at h; obtain ⟨_, rfl⟩ := h
         exact lfhBlocks32_all t params P hp _ _ _ _ _ _ hacc (by assumption))
      | exact ih _ _ _ _ (lfhBlocks32_all t params P hp _ _ _ _ _ _ hacc (by assumption)) h

theorem AnalyzeLFHZone32_all (t : Target) (params : CommonParams) (P : HeapRecord → Prop)
    (hp : ParseInv32 t params.ntGlobalFlag P) (fuel zone : Nat) (acc : List HeapRecord)
    (b : Bool) (recs : List HeapRecord) (hacc : ∀ r ∈ acc, P r)
    (h : AnalyzeLFHZone32 fuel t zone params acc = some (b, recs)) : ∀ r ∈ recs, P r := by
  unfold AnalyzeLFHZone32 at h
  split at h
  · simp only [Option.some.injEq, Prod.mk.injEq] at h; obtain ⟨_, rfl⟩ := h; exact hacc
  · exact lfhSubsegments32_all t params P hp _ _ _ _ _ _ hacc h

theorem lfhZones32_all (t : Target) (params : CommonParams) (P : HeapRecord → Prop)
    (hp : ParseInv32 t params.ntGlobalFlag P) (start : Nat) :
    ∀ (fuel zone : Nat) (acc : List HeapRecord) (b : Bool) (recs : List HeapRecord),
      (∀ r ∈ acc, P r) → lfhZones32 t params start fuel zone acc = some (b, recs) →
      ∀ r ∈ recs, P r := by
  intro fuel
  induction fuel with
  | zero => intro s acc b recs _ h; simp [lfhZones32] at h
  | succ fuel ih =>
    intro s acc b recs hacc h
    unfold lfhZones32 at h
    simp only [] at h
    repeat' split at h
    all_goals first
      | (simp only [Option.some.injEq, Prod.mk.injEq] at h; obtain ⟨_, rfl⟩ := h; exact hacc)
      | (simp at h; done)
      | (simp only [Option.some.injEq, Prod.mk.injEq] at h; obtain ⟨_, rfl⟩ := h
         exact AnalyzeLFHZone32_all t params P hp _ _ _ _ _ hacc (by assumption))
      | exact ih _ _ _ _ (AnalyzeLFHZone32_all t params P hp _ _ _ _ _ hacc (by assumption)) h

theorem AnalyzeLFH32_all (t : Target) (params : CommonParams) (P : HeapRecord → Prop)
    (hp : ParseInv32 t params.ntGlobalFlag P) (fuel heapAddress : Nat) (acc : List HeapRecord)
    (b : Bool) (recs : List HeapRecord) (hacc : ∀ r ∈ acc, P r)
    (h : AnalyzeLFH32 fuel t heapAddress params acc = some (b, recs)) : ∀ r ∈ recs, P r := by
  unfold AnalyzeLFH32 at h
  simp only [] at h
  repeat' split at h
  all_goals first
    | (simp only [Option.some.injEq, Prod.mk.injEq] at h; obtain ⟨_, rfl⟩ := h; exact hacc)
    | exact lfhZones32_all t params P hp _ _ _ _ _ _ hacc h

theorem lfhBlocks64_all (t : Target) (params : CommonParams) (P : HeapRecord → Prop)
    (hp : ParseInv64 t params.ntGlobalFlag P) (blockSize : Nat) :
    ∀ (n address : Nat) (acc : List HeapRecord) (b : Bool) (recs : List HeapRecord),
      (∀ r ∈ acc, P r) → lfhBlocks64 t params blockSize n address acc = (b, recs) →
      ∀ r ∈ recs, P r := by
  intro n
  induction n with
  | zero =>
    intro address acc b recs hacc h
    simp only [lfhBlocks64, Prod.mk.injEq] at h
    obtain ⟨_, rfl⟩ := h; exact hacc
  | succ n ih =>
    intro address acc b recs hacc h
    unfold lfhBlocks64 at h
    simp only [] at h
    repeat' split at h
    all_goals first
      | (simp only [Prod.mk.injEq] at h; obtain ⟨_, rfl⟩ := h; exact hacc)
      | exact ih _ _ _ _ hacc h
      | exact ih _ _ _ _ (forall_mem_snoc hacc (hp _ _ _ (by assumption))) h

theorem lfhSubsegments64_all (t : Target) (params : CommonParams) (P : HeapRecord → Prop)
    (hp : ParseInv64 t params.ntGlobalFlag P) (freePointer : Nat) :
    ∀ (fuel subsegment : Nat) (acc : List HeapRecord) (b : Bool) (recs : List HeapRecord),
      (∀ r ∈ acc, P r) →
      lfhSubsegments64 t params freePointer fuel subsegment acc = some (b, recs) →
      ∀ r ∈ recs, P r := by
  intro fuel
  induction fuel with
  | zero => intro s acc b recs _ h; simp [lfhSubsegments64] at h
  | succ fuel ih =>
    intro s acc b recs hacc h
    unfold lfhSubsegments64 at h
    simp only [] at h
    repeat' split at h
    all_goals first
      | (simp only [Option.some.injEq, Prod.mk.injEq] at h; obtain ⟨_, rfl⟩ := h; exact hacc)
      | exact ih _ _ _ _ hacc h
      | (simp only [Option.some.injEq, Prod.mk.injEq] at h; obtain ⟨_, rfl⟩ := h
         exact lfhBlocks64_all t params P hp _ _ _ _ _ _ hacc (by assumption))
      | exact ih _ _ _ _ (lfhBlocks64_all t params P hp _ _ _ _ _ _ hacc (by assumption)) h

theorem AnalyzeLFHZone64_all (t : Target) (params : CommonParams) (P : HeapRecord → Prop)
    (hp : ParseInv64 t params.ntGlobalFlag P) (fuel zone : Nat) (acc : List HeapRecord)
    (b : Bool) (recs : List HeapRecord) (hacc : ∀ r ∈ acc, P r)
    (h : AnalyzeLFHZone64 fuel t zone params acc = some (b, recs)) : ∀ r ∈ recs, P r := by
  unfold AnalyzeLFHZone64 at h
  split at h
  · simp only [Option.some.injEq, Prod.mk.injEq] at h; obtain ⟨_, rfl⟩ := h; exact hacc
  · exact lfhSubsegments64_all t params P hp _ _ _ _ _ _ hacc h

theorem lfhZones64_all (t : Target) (params : CommonParams) (P : HeapRecord → Prop)
    (hp : ParseInv64 t params.ntGlobalFlag P) (start : Nat) :
    ∀ (fuel zone : Nat) (acc : List HeapRecord) (b : Bool) (recs : List HeapRecord),
      (∀ r ∈ acc, P r) → lfhZones64 t params start fuel zone acc = some (b, recs) →
      ∀ r ∈ recs, P r := by
  intro fuel
  induction fuel with
  | zero => intro s acc b recs _ h; simp [lfhZones64] at h
  | succ fuel ih =>
    intro s acc b recs hacc h
    unfold lfhZones64 at h
    simp only [] at h
    repeat' split at h
    all_goals first
      | (simp only [Option.some.injEq, Prod.mk.injEq] at h; obtain ⟨_, rfl⟩ := h; exact hacc)
      | (simp at h; done)
      | (simp only [Option.some.injEq, Prod.mk.injEq] at h; obtain ⟨_, rfl⟩ := h
         exact AnalyzeLFHZone64_all t params P hp _ _ _ _ _ hacc (by assumption))
      | exact ih _ _ _ _ (AnalyzeLFHZone64_all t params P hp _ _ _ _ _ hacc (by assumption)) h

theorem AnalyzeLFH64_all (t : Target) (params : CommonParams) (P : HeapRecord → Prop)
    (hp : ParseInv64 t params.ntGlobalFlag P) (fuel heapAddress : Nat) (acc : List HeapRecord)
    (b : Bool) (recs : List HeapRecord) (hacc : ∀ r ∈ acc, P r)
    (h : AnalyzeLFH64 fuel t heapAddress params acc = some (b, recs)) : ∀ r ∈ recs, P r := by
  unfold AnalyzeLFH64 at h
  simp only [] at h
  repeat' split at h
  all_goals first
    | (simp only [Option.some.injEq, Prod.mk.injEq] at h; obtain ⟨_, rfl⟩ := h; exact hacc)
    | exact lfhZones64_all t params P hp _ _ _ _ _ _ hacc h

theorem vallocRecord32_inv (t : Target) (params : CommonParams) (P : HeapRecord → Prop)
    (hv : VallocInv32 params.ntGlobalFlag P) (address size extra : Nat) (r : HeapRecord)
    (hlt : ¬ extra ≥ size) (h : vallocRecord32 t params address size extra = some r) : P r := by
  unfold vallocRecord32 at h
  have hlt' : extra < size := by omega
  split at h
  · split at h
    · simp at h
    · simp only [Option.some.injEq] at h; rw [← h]
      exact (hv _ size address extra hlt').1 (by assumption)
  · simp only [Option.some.injEq] at h; rw [← h]
    exact (hv 0 size address extra hlt').2 (by assumption)

theorem vallocRecord64_inv (t : Target) (params : CommonParams) (P : HeapRecord → Prop)
    (hv : VallocInv64 params.ntGlobalFlag P) (address size extra : Nat) (r : HeapRecord)
    (hlt : ¬ extra ≥ size) (h : vallocRecord64 t params address size extra = some r) : P r := by
  unfold vallocRecord64 at h
  have hlt' : extra < size := by omega
  split at h
  · split at h
    · simp at h
    · simp only [Option.some.injEq] at h; rw [← h]
      exact (hv _ size address extra hlt').1 (by assumption)
  · simp only [Option.some.injEq] at h; rw [← h]
    exact (hv 0 size address extra hlt').2 (by assumption)

theorem vallocLoop32_all (t : Target) (encoding : List Nat) (params : CommonParams)
    (P : HeapRecord → Prop) (hv : VallocInv32 params.ntGlobalFlag P) (head : Nat) :
    ∀ (fuel flink : Nat) (acc : List HeapRecord) (b : Bool) (recs : List HeapRecord),
      (∀ r ∈ acc, P r) → vallocLoop32 t encoding params head fuel flink acc = some (b, recs) →
      ∀ r ∈ recs, P r := by
  intro fuel
  induction fuel with
  | zero => intro s acc b recs _ h; simp [vallocLoop32] at h
  | succ fuel ih =>
    intro s acc b recs hacc h
    unfold vallocLoop32 at h
    try simp only [] at h
    repeat' split at h
    all_goals first
      | (simp only [Option.some.injEq, Prod.mk.injEq] at h; obtain ⟨_, rfl⟩ := h; exact hacc)
      | (simp only [Option.some.injEq, Prod.mk.injEq] at h; obtain ⟨_, rfl⟩ := h
         exact forall_mem_snoc hacc
           (vallocRecord32_inv t params P hv _ _ _ _ (by assumption) (by assumption)))
      | exact ih _ _ _ _ (forall_mem_snoc hacc
           (vallocRecord32_inv t params P hv _ _ _ _ (by assumption) (by assumption))) h

theorem AnalyzeVirtualAllocd32_all (t : Target) (encoding : List Nat) (params : CommonParams)
    (P : HeapRecord → Prop) (hv : VallocInv32 params.ntGlobalFlag P) (fuel heapAddress : Nat)
    (acc : List HeapRecord) (b : Bool) (recs : List HeapRecord) (hacc : ∀ r ∈ acc, P r)
    (h : AnalyzeVirtualAllocd32 fuel t heapAddress encoding params acc = some (b, recs)) :
    ∀ r ∈ recs, P r := by
  unfold AnalyzeVirtualAllocd32 at h
  simp only [] at h
  split at h
  · simp only [Option.some.injEq, Prod.mk.injEq] at h; obtain ⟨_, rfl⟩ := h; exact hacc
  · exact vallocLoop32_all t encoding params P hv _ _ _ _ _ _ hacc h

theorem vallocLoop64_all (t : Target) (encoding : List Nat) (params : CommonParams)
    (P : HeapRecord → Prop) (hv : VallocInv64 params.ntGlobalFlag P) (head : Nat) :
    ∀ (fuel flink : Nat) (acc : List HeapRecord) (b : Bool) (recs : List HeapRecord),
      (∀ r ∈ acc, P r) → vallocLoop64 t encoding params head fuel flink acc = some (b, recs) →
      ∀ r ∈ recs, P r := by
  intro fuel
  induction fuel with
  | zero => intro s acc b recs _ h; simp [vallocLoop64] at h
  | succ fuel ih =>
    intro s acc b recs hacc h
    unfold vallocLoop64 at h
    try simp only [] at h
    repeat' split at h
    all_goals first
      | (simp only [Option.some.injEq, Prod.mk.injEq] at h; obtain ⟨_, rfl⟩ := h; exact hacc)
      | (simp only [Option.some.injEq, Prod.mk.injEq] at h; obtain ⟨_, rfl⟩ := h
         exact forall_mem_snoc hacc
           (vallocRecord64_inv t params P hv _ _ _ _ (by assumption) (by assumption)))
      | exact ih _ _ _ _ (forall_mem_snoc hacc
           (vallocRecord64_inv t params P hv _ _ _ _ (by assumption) (by assumption))) h

theorem AnalyzeVirtualAllocd64_all (t : Target) (encoding : List Nat) (params : CommonParams)
    (P : HeapRecord → Prop) (hv : VallocInv64 params.ntGlobalFlag P) (fuel heapAddress : Nat)
    (acc : List HeapRecord) (b : Bool) (recs : List HeapRecord) (hacc : ∀ r ∈ acc, P r)
    (h : AnalyzeVirtualAllocd64 fuel t heapAddress encoding params acc = some (b, recs)) :
    ∀ r ∈ recs, P r := by
  unfold AnalyzeVirtualAllocd64 at h
  try simp only [] at h
  repeat' split at h
  all_goals first
    | (simp only [Option.some.injEq, Prod.mk.injEq] at h; obtain ⟨_, rfl⟩ := h; exact hacc)
    | exact vallocLoop64_all t encoding params P hv _ _ _ _ _ _ hacc h

theorem sortRecords_perm (l : List HeapRecord) : (sortRecords l).Perm l :=
  List.perm_insertionSort _ l

theorem mem_sortRecords {l : List HeapRecord} {r : HeapRecord} : r ∈ sortRecords l ↔ r ∈ l :=
  (sortRecords_perm l).mem_iff

theorem registeredRecords_append (a b : List Call) :
    registeredRecords (a ++ b) = registeredRecords a ++ registeredRecords b := by
  induction a with
  | nil => rfl
  | cons c a ih => cases c <;> simp [registeredRecords, ih]

theorem registeredRecords_map (l : List HeapRecord) :
    registeredRecords (l.map Call.Register) = l := by
  induction l with
  | nil => rfl
  | cons r l ih => simp [registeredRecords, ih]

theorem Register_all {P : HeapRecord → Prop} (record : HeapRecord) (hrec : P record) :
    ∀ lfh : List HeapRecord, (∀ r ∈ lfh, P r) →
      (∀ r ∈ (Register record lfh).1, P r) ∧ (∀ r ∈ (Register record lfh).2, P r) := by
  intro lfh
  induction lfh with
  | nil => intro _; simp [Register, hrec]
  | cons first rest ih =>
    intro h
    have h1 : P first := h first (List.mem_cons_self _ _)
    have h2 : ∀ r ∈ rest, P r := fun r hr => h r (List.mem_cons_of_mem _ hr)
    unfold Register
    split
    · refine ⟨?_, (ih h2).2⟩
      intro r hr
      rcases List.mem_cons.1 hr with rfl | hr
      · exact h1
      · exact (ih h2).1 r hr
    · exact ⟨by simpa using hrec, h⟩

theorem entryStep32_record (t : Target) (params : CommonParams) (encoding : List Nat)
    (segment : HeapSegment) (P : HeapRecord → Prop) (hp : ParseInv32 t params.ntGlobalFlag P)
    (address next : Nat) (record : HeapRecord)
    (h : entryStep32 t params encoding segment address = EntryStep.advance (some record) next) :
    P record := by
  unfold entryStep32 at h
  simp only [] at h
  repeat' split at h
  all_goals first
    | (simp at h; done)
    | (simp only [EntryStep.advance.injEq] at h; exact hp _ _ _ h.1)

theorem entryStep64_record (t : Target) (params : CommonParams) (encoding : List Nat)
    (segment : Heap64Segment) (P : HeapRecord → Prop) (hp : ParseInv64 t params.ntGlobalFlag P)
    (address next : Nat) (record : HeapRecord)
    (h : entryStep64 t params encoding segment address = EntryStep.advance (some record) next) :
    P record := by
  unfold entryStep64 at h
  simp only [] at h
  repeat' split at h
  all_goals first
    | (simp at h; done)
    | (simp only [EntryStep.advance.injEq] at h; exact hp _ _ _ h.1)

theorem scanLoop_all (step : Nat → EntryStep) (last : Nat) (P : HeapRecord → Prop)
    (hstep : ∀ address next record, step address = EntryStep.advance (some record) next →
      P record) :
    ∀ (fuel address : Nat) (lfh : List HeapRecord), (∀ r ∈ lfh, P r) →
      (∀ r ∈ (scanLoop step last fuel address lfh).registered, P r) ∧
      (∀ r ∈ (scanLoop step last fuel address lfh).lfhRecordsInSegment, P r) := by
  intro fuel
  induction fuel with
  | zero => intro address lfh h; simpa [scanLoop] using h
  | succ fuel ih =>
    intro address lfh h
    unfold scanLoop
    split
    · split
      · exact ⟨by simp, h⟩
      · exact ih _ _ h
      · rename_i record next hs
        have hrec := hstep _ _ _ hs
        have hreg := Register_all record hrec lfh h
        have := ih next _ hreg.2
        refine ⟨?_, this.2⟩
        intro r hr
        rcases List.mem_append.1 hr with h1 | h1
        · exact hreg.1 r h1
        · exact this.1 r h1
    · exact ⟨by simp, h⟩

theorem scan32_all (t : Target) (params : CommonParams) (encoding : List Nat)
    (segment : HeapSegment) (P : HeapRecord → Prop) (hp : ParseInv32 t params.ntGlobalFlag P)
    (fuel address : Nat) (lfh : List HeapRecord) (h : ∀ r ∈ lfh, P r) :
    (∀ r ∈ (scan32 t params encoding segment fuel address lfh).registered, P r) ∧
    (∀ r ∈ (scan32 t params encoding segment fuel address lfh).lfhRecordsInSegment, P r) :=
  scanLoop_all _ _ P (fun _ _ _ hs => entryStep32_record t params encoding segment P hp _ _ _ hs)
    fuel address lfh h

theorem scan64_all (t : Target) (params : CommonParams) (encoding : List Nat)
    (segment : Heap64Segment) (P : HeapRecord → Prop) (hp : ParseInv64 t params.ntGlobalFlag P)
    (fuel address : Nat) (lfh : List HeapRecord) (h : ∀ r ∈ lfh, P r) :
    (∀ r ∈ (scan64 t params encoding segment fuel address lfh).registered, P r) ∧
    (∀ r ∈ (scan64 t params encoding segment fuel address lfh).lfhRecordsInSegment, P r) :=
  scanLoop_all _ _ P (fun _ _ _ hs => entryStep64_record t params encoding segment P hp _ _ _ hs)
    fuel address lfh h

theorem segment32_all (t : Target) (params : CommonParams) (encoding : List Nat)
    (P : HeapRecord → Prop) (hp : ParseInv32 t params.ntGlobalFlag P)
    (lfhRecords : List HeapRecord) (hl : ∀ r ∈ lfhRecords, P r) (fuel heapAddress : Nat) :
    ∀ r ∈ registeredRecords (segment32 t params encoding lfhRecords fuel heapAddress).calls,
      P r := by
  unfold segment32
  split
  · simp [registeredRecords]
  · rename_i raw _
    simp only []
    have hs := scan32_all t params encoding (HeapSegment.ofBytes raw) P hp fuel
      (HeapSegment.ofBytes raw).FirstEntry
      (lfhInSegment (HeapSegment.ofBytes raw).FirstEntry
      (HeapSegment.ofBytes raw).LastValidEntry lfhRecords)
      (fun r hr => hl r (mem_lfhInSegment hr))
    split
    · simp only [registeredRecords, registeredRecords_append, registeredRecords_map,
        List.append_nil]
      intro r hr
      rcases List.mem_append.1 hr with h1 | h1
      · exact hs.1 r h1
      · exact hs.2 r h1
    · simp only [registeredRecords, registeredRecords_map]
      exact hs.1

theorem segment64_all (t : Target) (params : CommonParams) (encoding : List Nat)
    (P : HeapRecord → Prop) (hp : ParseInv64 t params.ntGlobalFlag P)
    (lfhRecords : List HeapRecord) (hl : ∀ r ∈ lfhRecords, P r) (fuel heapAddress : Nat) :
    ∀ r ∈ registeredRecords (segment64 t params encoding lfhRecords fuel heapAddress).calls,
      P r := by
  unfold segment64
  split
  · simp [registeredRecords]
  · rename_i raw _
    simp only []
    have hs := scan64_all t params encoding (Heap64Segment.ofBytes raw) P hp fuel
      (Heap64Segment.ofBytes raw).FirstEntry
      (lfhInSegment (Heap64Segment.ofBytes raw).FirstEntry
      (Heap64Segment.ofBytes raw).LastValidEntry lfhRecords)
      (fun r hr => hl r (mem_lfhInSegment hr))
    split
    · simp only [registeredRecords, registeredRecords_append, registeredRecords_map,
        List.append_nil]
      intro r hr
      rcases List.mem_append.1 hr with h1 | h1
      · exact hs.1 r h1
      · exact hs.2 r h1
    · simp only [registeredRecords, registeredRecords_map]
      exact hs.1

theorem segmentsLoop_all (walk : Nat → Nat → SegmentOut) (P : HeapRecord → Prop)
    (hw : ∀ fuel heapAddress, ∀ r ∈ registeredRecords (walk fuel heapAddress).calls, P r) :
    ∀ (fuel heapAddress : Nat),
      ∀ r ∈ registeredRecords (segmentsLoop walk fuel heapAddress).trace, P r := by
  intro fuel
  induction fuel with
  | zero => intro h; simp [segmentsLoop, registeredRecords]
  | succ fuel ih =>
    intro heapAddress
    unfold segmentsLoop
    have hseg := hw fuel heapAddress
    split
    · simp only []
      split
      · simp only [registeredRecords_append]
        intro r hr
        rcases List.mem_append.1 hr with h1 | h1
        · exact hseg r h1
        · exact ih _ r h1
      · exact hseg
    · simp [registeredRecords]

theorem segments32_all (t : Target) (params : CommonParams) (encoding : List Nat)
    (P : HeapRecord → Prop) (hp : ParseInv32 t params.ntGlobalFlag P)
    (lfhRecords : List HeapRecord) (hl : ∀ r ∈ lfhRecords, P r) (fuel heapAddress : Nat) :
    ∀ r ∈ registeredRecords (segments32 t params encoding lfhRecords fuel heapAddress).trace,
      P r :=
  segmentsLoop_all _ P (segment32_all t params encoding P hp lfhRecords hl) fuel heapAddress

theorem segments64_all (t : Target) (params : CommonParams) (encoding : List Nat)
    (P : HeapRecord → Prop) (hp : ParseInv64 t params.ntGlobalFlag P)
    (lfhRecords : List HeapRecord) (hl : ∀ r ∈ lfhRecords, P r) (fuel heapAddress : Nat) :
    ∀ r ∈ registeredRecords (segments64 t params encoding lfhRecords fuel heapAddress).trace,
      P r :=
  segmentsLoop_all _ P (segment64_all t params encoding P hp lfhRecords hl) fuel heapAddress

theorem AnalyzeHeap32_all (t : Target) (params : CommonParams) (P : HeapRecord → Prop)
    (hp : ParseInv32 t params.ntGlobalFlag P) (hv : VallocInv32 params.ntGlobalFlag P)
    (fuel heapAddress : Nat) :
    ∀ r ∈ registeredRecords (AnalyzeHeap32 fuel t heapAddress params).trace, P r := by
  unfold AnalyzeHeap32
  split
  · simp [registeredRecords]
  · rename_i b lfh hlfh
    have hl : ∀ r ∈ sortRecords lfh, P r := fun r hr =>
      AnalyzeLFH32_all t params P hp _ _ _ _ _ (by simp) hlfh r (mem_sortRecords.1 hr)
    simp only []
    split
    · simp [registeredRecords]
    · split
      · simp [registeredRecords]
      · rename_i encoding _ _ b' valloc hva
        have hvl : ∀ r ∈ sortRecords valloc, P r := fun r hr =>
          AnalyzeVirtualAllocd32_all t encoding params P hv _ _ _ _ _ (by simp) hva r
            (mem_sortRecords.1 hr)
        have hseg := segments32_all t params encoding P hp _ hl fuel heapAddress
        try simp only []
        split
        · simp only [registeredRecords_append, registeredRecords_map]
          intro r hr
          rcases List.mem_append.1 hr with h1 | h1
          · exact hseg r h1
          · exact hvl r h1
        · exact hseg

theorem AnalyzeHeap64_all (t : Target) (params : CommonParams) (P : HeapRecord → Prop)
    (hp : ParseInv64 t params.ntGlobalFlag P) (hv : VallocInv64 params.ntGlobalFlag P)
    (fuel heapAddress : Nat) :
    ∀ r ∈ registeredRecords (AnalyzeHeap64 fuel t heapAddress params).trace, P r := by
  unfold AnalyzeHeap64
  split
  · simp [registeredRecords]
  · rename_i b lfh hlfh
    have hl : ∀ r ∈ sortRecords lfh, P r := fun r hr =>
      AnalyzeLFH64_all t params P hp _ _ _ _ _ (by simp) hlfh r (mem_sortRecords.1 hr)
    simp only []
    split
    · simp [registeredRecords]
    · split
      · simp [registeredRecords]
      · rename_i encoding _ _ b' valloc hva
        have hvl : ∀ r ∈ sortRecords valloc, P r := fun r hr =>
          AnalyzeVirtualAllocd64_all t encoding params P hv _ _ _ _ _ (by simp) hva r
            (mem_sortRecords.1 hr)
        have hseg := segments64_all t params encoding P hp _ hl fuel heapAddress
        try simp only []
        split
        · simp only [registeredRecords_append, registeredRecords_map]
          intro r hr
          rcases List.mem_append.1 hr with h1 | h1
          · exact hseg r h1
          · exact hvl r h1
        · exact hseg

theorem heapLoop_all (t : Target) (params : CommonParams) (P : HeapRecord → Prop)
    (hp32 : ParseInv32 t params.ntGlobalFlag P) (hv32 : VallocInv32 params.ntGlobalFlag P)
    (hp64 : ParseInv64 t params.ntGlobalFlag P) (hv64 : VallocInv64 params.ntGlobalFlag P) :
    ∀ (fuel heapIndex : Nat),
      ∀ r ∈ registeredRecords (heapLoop t params fuel heapIndex).trace, P r := by
  intro fuel
  induction fuel with
  | zero => intro i; simp [heapLoop, registeredRecords]
  | succ fuel ih =>
    intro heapIndex
    unfold heapLoop
    simp only []
    have hw : ∀ r ∈ registeredRecords
        (if t.isTarget64 then AnalyzeHeap64 fuel t (GetHeapAddress t heapIndex) params
         else AnalyzeHeap32 fuel t (GetHeapAddress t heapIndex) params).trace, P r := by
      split
      · exact AnalyzeHeap64_all t params P hp64 hv64 _ _
      · exact AnalyzeHeap32_all t params P hp32 hv32 _ _
    generalize (if t.isTarget64 then AnalyzeHeap64 fuel t (GetHeapAddress t heapIndex) params
         else AnalyzeHeap32 fuel t (GetHeapAddress t heapIndex) params) = walked at hw ⊢
    by_cases h0 : GetHeapAddress t heapIndex ≠ 0
    · rw [if_pos h0]
      by_cases h1 : walked.status = Status.ok
      · rw [if_pos h1]
        simp only [registeredRecords, registeredRecords_append]
        intro r hr
        rcases List.mem_append.1 hr with h1 | h1
        · exact hw r h1
        · exact ih _ r h1
      · rw [if_neg h1]
        simpa only [registeredRecords] using hw
    · rw [if_neg h0]
      simp [registeredRecords]

/-! ## Bytes and machine integers -/

theorem u32_lt (x : Nat) : u32 x < 2 ^ 32 := Nat.mod_lt _ (by norm_num)

theorem u64_lt (x : Nat) : u64 x < 2 ^ 64 := Nat.mod_lt _ (by norm_num)

theorem u64_le (x : Nat) : u64 x ≤ x := Nat.mod_le _ _

theorem u32_le (x : Nat) : u32 x ≤ x := Nat.mod_le _ _

theorem u64_eq_self {x : Nat} (h : x < 2 ^ 64) : u64 x = x := Nat.mod_eq_of_lt h

theorem u32_eq_self {x : Nat} (h : x < 2 ^ 32) : u32 x = x := Nat.mod_eq_of_lt h

theorem readByte_lt {t : Target} {a b : Nat} (h : readByte t a = some b) : b < 256 := by
  unfold readByte at h
  cases hm : t.mem (u64 a) with
  | none => simp [hm] at h
  | some v =>
    simp only [hm, Option.map_some', Option.some.injEq] at h
    rw [← h]; exact Nat.mod_lt _ (by norm_num)

theorem readBytes_spec (t : Target) :
    ∀ (n a : Nat) (bs : List Nat), readBytes t a n = some bs →
      bs.length = n ∧ ∀ b ∈ bs, b < 256 := by
  intro n
  induction n with
  | zero =>
    intro a bs h
    simp only [readBytes, Option.some.injEq] at h
    subst h; simp
  | succ n ih =>
    intro a bs h
    unfold readBytes at h
    split at h
    · rename_i b bs' hb hbs
      simp only [Option.some.injEq] at h
      subst h
      obtain ⟨hl, hall⟩ := ih _ _ hbs
      refine ⟨by simp [hl], ?_⟩
      intro x hx
      rcases List.mem_cons.1 hx with rfl | hx
      · exact readByte_lt hb
      · exact hall x hx
    · simp at h

theorem readBytes_head_readable (t : Target) (n a : Nat) (bs : List Nat)
    (h : readBytes t a (n + 1) = some bs) : t.mem (u64 a) ≠ none := by
  unfold readBytes at h
  split at h
  · rename_i b bs' hb hbs
    unfold readByte at hb
    intro hn
    simp [hn] at hb
  · simp at h

theorem leValue_lt : ∀ bs : List Nat, (∀ b ∈ bs, b < 256) → leValue bs < 256 ^ bs.length := by
  intro bs
  induction bs with
  | nil => intro _; simp [leValue]
  | cons b bs ih =>
    intro h
    have hb : b < 256 := h b (List.mem_cons_self _ _)
    have hr := ih (fun x hx => h x (List.mem_cons_of_mem _ hx))
    simp only [leValue, List.length_cons, pow_succ]
    nlinarith

theorem field_lt (bs : List Nat) (hb : ∀ b ∈ bs, b < 256) (off n : Nat) :
    field bs off n < 256 ^ n := by
  unfold field
  have h1 : ∀ b ∈ (bs.drop off).take n, b < 256 := fun b hb' =>
    hb b (List.mem_of_mem_drop (List.mem_of_mem_take hb'))
  have h2 := leValue_lt _ h1
  have h3 : ((bs.drop off).take n).length ≤ n := by
    rw [List.length_take]; exact Nat.min_le_left _ _
  exact lt_of_lt_of_le h2 (Nat.pow_le_pow_right (by norm_num) h3)

/-! ## `Register` and the order of the records -/

theorem notAfter_iff (a b : HeapRecord) : notAfter a b ↔ a.address ≤ b.address := by
  simp [notAfter, predicate]

theorem sortRecords_sorted (l : List HeapRecord) :
    (sortRecords l).Pairwise (fun a b => a.address ≤ b.address) := by
  have h := List.sorted_insertionSort notAfter l
  unfold List.Sorted at h
  exact h.imp (fun {a b} hab => (notAfter_iff a b).1 hab)

theorem lfhInSegment_sorted (first last : Nat) {lfhRecords : List HeapRecord}
    (h : lfhRecords.Pairwise (fun x y => x.address ≤ y.address)) :
    (lfhInSegment first last lfhRecords).Pairwise (fun x y => x.address ≤ y.address) :=
  h.filter _

theorem Register_fst (record : HeapRecord) (lfh : List HeapRecord) :
    (Register record lfh).1 =
      lfh.takeWhile (fun l => decide (l.address < record.address)) ++ [record] := by
  induction lfh with
  | nil => simp [Register]
  | cons first rest ih =>
    unfold Register
    by_cases h : first.address < record.address
    · simp [h, ih]
    · simp [h]

theorem Register_snd (record : HeapRecord) (lfh : List HeapRecord) :
    (Register record lfh).2 =
      lfh.dropWhile (fun l => decide (l.address < record.address)) := by
  induction lfh with
  | nil => simp [Register]
  | cons first rest ih =>
    unfold Register
    by_cases h : first.address < record.address
    · simp [h, ih]
    · simp [h]

theorem takeWhile_eq_filter_of_sorted (a : Nat) :
    ∀ l : List HeapRecord, l.Pairwise (fun x y => x.address ≤ y.address) →
      l.takeWhile (fun l => decide (l.address < a)) =
        l.filter (fun l => decide (l.address < a)) := by
  intro l
  induction l with
  | nil => intro _; rfl
  | cons x l ih =>
    intro h
    rw [List.pairwise_cons] at h
    by_cases hx : x.address < a
    · simp [List.takeWhile_cons, List.filter_cons, hx, ih h.2]
    · have : l.filter (fun l => decide (l.address < a)) = [] := by
        rw [List.filter_eq_nil_iff]
        intro y hy
        have := h.1 y hy
        simp only [decide_eq_true_eq]
        omega
      simp [List.takeWhile_cons, List.filter_cons, hx, this]

theorem dropWhile_eq_filter_of_sorted (a : Nat) :
    ∀ l : List HeapRecord, l.Pairwise (fun x y => x.address ≤ y.address) →
      l.dropWhile (fun l => decide (l.address < a)) =
        l.filter (fun l => decide (¬ l.address < a)) := by
  intro l
  induction l with
  | nil => intro _; rfl
  | cons x l ih =>
    intro h
    rw [List.pairwise_cons] at h
    by_cases hx : x.address < a
    · simp [List.dropWhile_cons, List.filter_cons, hx, ih h.2]
    · have : l.filter (fun l => decide (¬ l.address < a)) = l := by
        rw [List.filter_eq_self]
        intro y hy
        have := h.1 y hy
        simp only [decide_eq_true_eq]
        omega
      simp only [List.dropWhile_cons, List.filter_cons, hx, decide_False, Bool.false_eq_true,
        ↓reduceIte, not_false_eq_true, decide_True, this]

theorem ParseHeapRecord32_address {t : Target} {address : Nat} {entry : HeapEntry} {flag : Nat}
    {r : HeapRecord} (h : ParseHeapRecord32 t address entry flag = some r) :
    r.address = address := by
  unfold ParseHeapRecord32 at h
  simp only [] at h
  repeat' split at h
  all_goals first
    | (simp at h; done)
    | (simp only [Option.some.injEq] at h; rw [← h])

theorem ParseHeapRecord64_address {t : Target} {address : Nat} {entry : Heap64Entry}
    {flag : Nat} {r : HeapRecord} (h : ParseHeapRecord64 t address entry flag = some r) :
    r.address = address := by
  unfold ParseHeapRecord64 at h
  simp only [] at h
  repeat' split at h
  all_goals first
    | (simp at h; done)
    | (simp only [Option.some.injEq] at h; rw [← h])

/-- What is known when the scan goes on from the entry at `address`: the entry
could be read, the next address is `address` plus a 32-bit amount, and the
record to register, if any, is at `address`. -/
theorem entryStep32_advance {t : Target} {params : CommonParams} {encoding : List Nat}
    {segment : HeapSegment} {address next : Nat} {record : Option HeapRecord}
    (h : entryStep32 t params encoding segment address = EntryStep.advance record next) :
    (∃ raw, readBytes t address 8 = some raw) ∧
    (∃ d, d < 2 ^ 32 ∧ next = u64 (address + d)) ∧
    (∀ r, record = some r → r.address = address) := by
  unfold entryStep32 at h
  simp only [] at h
  repeat' split at h
  all_goals first
    | (simp at h; done)
    | (simp only [EntryStep.advance.injEq] at h
       obtain ⟨h1, h2⟩ := h
       refine ⟨⟨_, by assumption⟩, ⟨_, u32_lt _, h2.symm⟩, ?_⟩
       intro r hr
       first
         | (rw [← h1] at hr; exact ParseHeapRecord32_address hr)
         | (rw [← h1] at hr; simp at hr))

theorem entryStep64_advance {t : Target} {params : CommonParams} {encoding : List Nat}
    {segment : Heap64Segment} {address next : Nat} {record : Option HeapRecord}
    (h : entryStep64 t params encoding segment address = EntryStep.advance record next) :
    (∃ raw, readBytes t address 16 = some raw) ∧
    (∃ d, d < 2 ^ 32 ∧ next = u64 (address + d)) ∧
    (∀ r, record = some r → r.address = address) := by
  unfold entryStep64 at h
  simp only [] at h
  repeat' split at h
  all_goals first
    | (simp at h; done)
    | (simp only [EntryStep.advance.injEq] at h
       obtain ⟨h1, h2⟩ := h
       refine ⟨⟨_, by assumption⟩, ⟨_, u32_lt _, h2.symm⟩, ?_⟩
       intro r hr
       first
         | (rw [← h1] at hr; exact ParseHeapRecord64_address hr)
         | (rw [← h1] at hr; simp at hr))

/-! ## The order of the records registered for a segment -/

theorem scanLoop_sorted (step : Nat → EntryStep) (last : Nat)
    (hstep : ∀ address next record, address < last →
      step address = EntryStep.advance record next →
      address ≤ next ∧ ∀ r, record = some r → r.address = address) :
    ∀ (fuel address : Nat) (lfh : List HeapRecord) (lb : Nat), lb ≤ address →
      lfh.Pairwise (fun x y => x.address ≤ y.address) → (∀ l ∈ lfh, lb ≤ l.address) →
      ((scanLoop step last fuel address lfh).registered ++
          (scanLoop step last fuel address lfh).lfhRecordsInSegment).Pairwise
        (fun x y => x.address ≤ y.address) ∧
      ∀ r ∈ (scanLoop step last fuel address lfh).registered ++
          (scanLoop step last fuel address lfh).lfhRecordsInSegment, lb ≤ r.address := by
  intro fuel
  induction fuel with
  | zero => intro address lfh lb _ hs hl; simpa [scanLoop] using ⟨hs, hl⟩
  | succ fuel ih =>
    intro address lfh lb hlb hs hl
    unfold scanLoop
    split
    · rename_i hlt
      split
      · simpa using ⟨hs, hl⟩
      · rename_i next hst
        exact ih next lfh lb (le_trans hlb (hstep _ _ _ hlt hst).1) hs hl
      · rename_i record next hst
        obtain ⟨hnext, haddr⟩ := hstep _ _ _ hlt hst
        have ha : record.address = address := haddr record rfl
        simp only []
        rw [Register_fst, Register_snd, dropWhile_eq_filter_of_sorted _ _ hs]
        have hrest_sorted : (lfh.filter (fun l => decide (¬ l.address < record.address))).Pairwise
            (fun x y => x.address ≤ y.address) := hs.filter _
        have hrest_lb : ∀ l ∈ lfh.filter (fun l => decide (¬ l.address < record.address)),
            address ≤ l.address := by
          intro l hl'
          have := (List.mem_filter.1 hl').2
          simp only [decide_eq_true_eq] at this
          omega
        obtain ⟨ihs, ihl⟩ := ih next _ address hnext hrest_sorted hrest_lb
        have hdr : ∀ x ∈ lfh.takeWhile (fun l => decide (l.address < record.address)),
            x ∈ lfh ∧ x.address < address := by
          intro x hx
          refine ⟨(List.takeWhile_sublist _).subset hx, ?_⟩
          have := List.mem_takeWhile_imp hx
          simp only [decide_eq_true_eq] at this
          omega
        constructor
        · rw [List.append_assoc, List.append_assoc, List.pairwise_append]
          refine ⟨hs.sublist (List.takeWhile_sublist _), ?_, ?_⟩
          · rw [List.singleton_append, List.pairwise_cons]
            refine ⟨?_, ihs⟩
            intro y hy
            have := ihl y hy
            omega
          · intro x hx y hy
            have hx' := (hdr x hx).2
            rcases List.mem_append.1 hy with h1 | h1
            · rw [List.mem_singleton.1 h1]; omega
            · have := ihl y h1
              omega
        · intro r hr
          rw [List.append_assoc, List.append_assoc] at hr
          rcases List.mem_append.1 hr with h1 | h1
          · exact hl r (hdr r h1).1
          · rcases List.mem_append.1 h1 with h2 | h2
            · rw [List.mem_singleton.1 h2]; omega
            · have := ihl r h2
              omega
    · simpa using ⟨hs, hl⟩

theorem filter_split_perm (a : Nat) (lfh : List HeapRecord) :
    (lfh.filter (fun l => decide (l.address < a)) ++
      lfh.filter (fun l => decide (¬ l.address < a))).Perm lfh := by
  have hfun : (fun l : HeapRecord => decide (¬ l.address < a)) =
      (fun l => !decide (l.address < a)) := by
    funext l
    by_cases h : l.address < a <;> simp [h]
  rw [hfun]
  exact List.filter_append_perm _ _

theorem emittedOrder_perm :
    ∀ (backend lfh : List HeapRecord), (emittedOrder backend lfh).Perm (backend ++ lfh) := by
  intro backend
  induction backend with
  | nil => intro lfh; simp [emittedOrder]
  | cons record backend ih =>
    intro lfh
    unfold emittedOrder
    have h1 := ih (lfh.filter (fun l => decide (¬ l.address < record.address)))
    have h2 := filter_split_perm record.address lfh
    refine List.Perm.trans (List.Perm.append_left _ (List.Perm.cons _ h1)) ?_
    refine List.Perm.trans List.perm_middle ?_
    rw [List.cons_append]
    refine List.Perm.cons _ ?_
    refine List.Perm.trans ?_ (List.Perm.append_left _ h2)
    rw [← List.append_assoc, ← List.append_assoc]
    exact List.Perm.append_right _ List.perm_append_comm

theorem scanLoop_eq_emittedOrder (step : Nat → EntryStep) (last : Nat) :
    ∀ (fuel address : Nat) (lfh : List HeapRecord),
      lfh.Pairwise (fun x y => x.address ≤ y.address) →
      (scanLoop step last fuel address lfh).status = (backendRecords step last fuel address).1 ∧
      (scanLoop step last fuel address lfh).registered ++
          (scanLoop step last fuel address lfh).lfhRecordsInSegment =
        emittedOrder (backendRecords step last fuel address).2 lfh := by
  intro fuel
  induction fuel with
  | zero => intro address lfh _; simp [scanLoop, backendRecords, emittedOrder]
  | succ fuel ih =>
    intro address lfh hs
    unfold scanLoop backendRecords
    split
    · split
      · simp [emittedOrder]
      · exact ih _ _ hs
      · rename_i record next hst
        simp only []
        have hrest : (lfh.filter (fun l => decide (¬ l.address < record.address))).Pairwise
            (fun x y => x.address ≤ y.address) := hs.filter _
        rw [Register_fst, Register_snd, dropWhile_eq_filter_of_sorted _ _ hs,
          takeWhile_eq_filter_of_sorted _ _ hs]
        obtain ⟨h1, h2⟩ := ih next _ hrest
        refine ⟨h1, ?_⟩
        rw [List.append_assoc, List.append_assoc, h2]
        simp [emittedOrder]
    · simp [emittedOrder]

/-! ## The shape of the traces -/

theorem registersPrefix_map (regs : List HeapRecord) :
    registersPrefix (regs.map Call.Register) = regs := by
  induction regs with
  | nil => rfl
  | cons r regs ih => simp [registersPrefix, ih]

theorem registersPrefix_map_finish (regs : List HeapRecord) (b l : Nat) (rest : List Call) :
    registersPrefix (regs.map Call.Register ++ Call.FinishSegment b l :: rest) = regs := by
  induction regs with
  | nil => rfl
  | cons r regs ih => simp [registersPrefix, ih]

theorem segmentGroups_map_append (regs : List HeapRecord) (rest : List Call) :
    segmentGroups (regs.map Call.Register ++ rest) = segmentGroups rest := by
  induction regs with
  | nil => rfl
  | cons r regs ih => simp [segmentGroups, ih]

theorem segmentGroups_map (regs : List HeapRecord) :
    segmentGroups (regs.map Call.Register) = [] := by
  have := segmentGroups_map_append regs []
  simpa [segmentGroups] using this

theorem segmentGroups_group (g : SegmentGroup) (rest : List Call) :
    segmentGroups (g.calls ++ rest) = g.records :: segmentGroups rest := by
  have h : g.calls ++ rest = Call.StartSegment g.base g.last ::
      (g.records.map Call.Register ++ Call.FinishSegment g.base g.last :: rest) := by
    simp [SegmentGroup.calls]
  rw [h]
  simp only [segmentGroups, registersPrefix_map_finish, segmentGroups_map_append]

theorem segmentGroups_segmentsTrace (gs : List SegmentGroup) (rest : List Call) :
    segmentGroups (segmentsTrace gs ++ rest) =
      gs.map (fun g => g.records) ++ segmentGroups rest := by
  induction gs with
  | nil => rfl
  | cons g gs ih =>
    simp only [segmentsTrace, List.append_assoc, segmentGroups_group, ih, List.map_cons,
      List.cons_append]

theorem segmentGroups_open (b l : Nat) (regs : List HeapRecord) :
    segmentGroups (Call.StartSegment b l :: regs.map Call.Register) = [regs] := by
  simp [segmentGroups, registersPrefix_map, segmentGroups_map]

theorem segmentsTrace_append (gs hs : List SegmentGroup) :
    segmentsTrace (gs ++ hs) = segmentsTrace gs ++ segmentsTrace hs := by
  induction gs with
  | nil => rfl
  | cons g gs ih => simp [segmentsTrace, ih]

theorem blocksTrace_append (bs cs : List HeapBlock) :
    blocksTrace (bs ++ cs) = blocksTrace bs ++ blocksTrace cs := by
  induction bs with
  | nil => rfl
  | cons b bs ih => simp [blocksTrace, ih]

theorem segmentsLoop_shape (walk : Nat → Nat → SegmentOut) (G : List HeapRecord → Prop)
    (hw : ∀ fuel heapAddress, WalkShape G (walk fuel heapAddress)) :
    ∀ (fuel heapAddress : Nat),
      ((segmentsLoop walk fuel heapAddress).status = Status.ok →
        ∃ gs : List SegmentGroup, (segmentsLoop walk fuel heapAddress).trace = segmentsTrace gs ∧
          ∀ g ∈ gs, G g.records) ∧
      ((segmentsLoop walk fuel heapAddress).status ≠ Status.ok →
        StoppedShape G (segmentsLoop walk fuel heapAddress).trace) ∧
      (∀ a, (segmentsLoop walk fuel heapAddress).status = Status.decodeFailed a →
        OpenShape (segmentsLoop walk fuel heapAddress).trace) := by
  intro fuel
  induction fuel with
  | zero =>
    intro h
    refine ⟨by simp [segmentsLoop], fun _ => ⟨[], by simp, Or.inl (by simp [segmentsLoop, segmentsTrace])⟩,
      by simp [segmentsLoop]⟩
  | succ fuel ih =>
    intro heapAddress
    obtain ⟨hok, hfail, hdec⟩ := hw fuel heapAddress
    unfold segmentsLoop
    by_cases halign : heapAddress &&& 0xffff = 0
    · rw [if_pos halign]
      simp only []
      by_cases hst : (walk fuel heapAddress).status = Status.ok
      · rw [if_pos hst]
        obtain ⟨g, hg, hG⟩ := hok hst
        obtain ⟨ih1, ih2, ih3⟩ := ih (walk fuel heapAddress).next
        simp only [hg]
        refine ⟨?_, ?_, ?_⟩
        · intro h
          obtain ⟨gs, hgs, hGs⟩ := ih1 h
          refine ⟨g :: gs, by simp [segmentsTrace, hgs], ?_⟩
          intro x hx
          rcases List.mem_cons.1 hx with rfl | hx
          · exact hG
          · exact hGs x hx
        · intro h
          obtain ⟨gs, hGs, hcase⟩ := ih2 h
          refine ⟨g :: gs, ?_, ?_⟩
          · intro x hx
            rcases List.mem_cons.1 hx with rfl | hx
            · exact hG
            · exact hGs x hx
          · rcases hcase with h1 | ⟨b, l, regs, h1, h2⟩
            · exact Or.inl (by simp [segmentsTrace, h1])
            · exact Or.inr ⟨b, l, regs, by simp [segmentsTrace, h1], h2⟩
        · intro a h
          obtain ⟨gs, b, l, regs, h1⟩ := ih3 a h
          exact ⟨g :: gs, b, l, regs, by simp [segmentsTrace, h1]⟩
      · rw [if_neg hst]
        refine ⟨fun h => absurd h hst, ?_, ?_⟩
        · intro _
          rcases hfail hst with h1 | ⟨b, l, regs, h1, h2⟩
          · exact ⟨[], by simp, Or.inl (by simp [segmentsTrace, h1])⟩
          · exact ⟨[], by simp, Or.inr ⟨b, l, regs, by simp [segmentsTrace, h1], h2⟩⟩
        · intro a h
          rcases hfail hst with h1 | ⟨b, l, regs, h1, _⟩
          · exact absurd h1 (hdec a h)
          · exact ⟨[], b, l, regs, by simp [segmentsTrace, h1]⟩
    · rw [if_neg halign]
      refine ⟨fun _ => ⟨[], by simp [segmentsTrace], by simp⟩, fun h => absurd rfl h, ?_⟩
      intro a h
      simp at h

theorem segment32_walkShape (t : Target) (params : CommonParams) (encoding : List Nat)
    (lfhRecords : List HeapRecord) (fuel heapAddress : Nat) (G : List HeapRecord → Prop)
    (hG : ∀ raw, readBytes t heapAddress 64 = some raw →
      G ((scan32 t params encoding (HeapSegment.ofBytes raw) fuel
          (HeapSegment.ofBytes raw).FirstEntry
          (lfhInSegment (HeapSegment.ofBytes raw).FirstEntry
      (HeapSegment.ofBytes raw).LastValidEntry lfhRecords)).registered ++
        (scan32 t params encoding (HeapSegment.ofBytes raw) fuel
          (HeapSegment.ofBytes raw).FirstEntry
          (lfhInSegment (HeapSegment.ofBytes raw).FirstEntry
      (HeapSegment.ofBytes raw).LastValidEntry lfhRecords)).lfhRecordsInSegment) ∧
      G (scan32 t params encoding (HeapSegment.ofBytes raw) fuel
          (HeapSegment.ofBytes raw).FirstEntry
          (lfhInSegment (HeapSegment.ofBytes raw).FirstEntry
      (HeapSegment.ofBytes raw).LastValidEntry lfhRecords)).registered) :
    WalkShape G (segment32 t params encoding lfhRecords fuel heapAddress) := by
  unfold segment32
  split
  · refine ⟨by simp, fun _ => Or.inl rfl, by simp⟩
  · rename_i raw hraw
    obtain ⟨h1, h2⟩ := hG raw hraw
    simp only []
    split
    · refine ⟨fun _ => ⟨⟨heapAddress, (HeapSegment.ofBytes raw).LastValidEntry, _⟩, rfl, h1⟩,
        fun h => absurd rfl h, by simp⟩
    · rename_i hst
      refine ⟨fun h => absurd h hst, fun _ => Or.inr ⟨_, _, _, rfl, h2⟩, by simp⟩

theorem segment64_walkShape (t : Target) (params : CommonParams) (encoding : List Nat)
    (lfhRecords : List HeapRecord) (fuel heapAddress : Nat) (G : List HeapRecord → Prop)
    (hG : ∀ raw, readBytes t heapAddress 112 = some raw →
      G ((scan64 t params encoding (Heap64Segment.ofBytes raw) fuel
          (Heap64Segment.ofBytes raw).FirstEntry
          (lfhInSegment (Heap64Segment.ofBytes raw).FirstEntry
      (Heap64Segment.ofBytes raw).LastValidEntry lfhRecords)).registered ++
        (scan64 t params encoding (Heap64Segment.ofBytes raw) fuel
          (Heap64Segment.ofBytes raw).FirstEntry
          (lfhInSegment (Heap64Segment.ofBytes raw).FirstEntry
      (Heap64Segment.ofBytes raw).LastValidEntry lfhRecords)).lfhRecordsInSegment) ∧
      G (scan64 t params encoding (Heap64Segment.ofBytes raw) fuel
          (Heap64Segment.ofBytes raw).FirstEntry
          (lfhInSegment (Heap64Segment.ofBytes raw).FirstEntry
      (Heap64Segment.ofBytes raw).LastValidEntry lfhRecords)).registered) :
    WalkShape G (segment64 t params encoding lfhRecords fuel heapAddress) := by
  unfold segment64
  split
  · refine ⟨by simp, fun _ => Or.inl rfl, by simp⟩
  · rename_i raw hraw
    obtain ⟨h1, h2⟩ := hG raw hraw
    simp only []
    split
    · refine ⟨fun _ => ⟨⟨heapAddress, (Heap64Segment.ofBytes raw).LastValidEntry, _⟩, rfl, h1⟩,
        fun h => absurd rfl h, by simp⟩
    · rename_i hst
      refine ⟨fun h => absurd h hst, fun _ => Or.inr ⟨_, _, _, rfl, h2⟩, by simp⟩

/-- The shape of the trace of the walk of one heap, with a property `G` of the
records registered for each of its segments. -/
theorem heapWalk_shape (G : List HeapRecord → Prop) (walked : Run) (valloc : List HeapRecord)
    (h : (walked.status = Status.ok →
        ∃ gs : List SegmentGroup, walked.trace = segmentsTrace gs ∧ ∀ g ∈ gs, G g.records) ∧
      (walked.status ≠ Status.ok → StoppedShape G walked.trace) ∧
      (∀ a, walked.status = Status.decodeFailed a → OpenShape walked.trace)) :
    let r : Run := if walked.status = Status.ok then
        ⟨Status.ok, walked.trace ++ valloc.map Call.Register⟩ else walked
    (r.status = Status.ok → ∃ (gs : List SegmentGroup) (va : List HeapRecord),
        r.trace = segmentsTrace gs ++ va.map Call.Register ∧ ∀ g ∈ gs, G g.records) ∧
      (r.status ≠ Status.ok → StoppedShape G r.trace) ∧
      (∀ a, r.status = Status.decodeFailed a → OpenShape r.trace) := by
  obtain ⟨h1, h2, h3⟩ := h
  intro r
  by_cases hst : walked.status = Status.ok
  · have hr : r = ⟨Status.ok, walked.trace ++ valloc.map Call.Register⟩ := if_pos hst
    obtain ⟨gs, hgs, hG⟩ := h1 hst
    rw [hr]
    refine ⟨fun _ => ⟨gs, valloc, by simp [hgs], hG⟩, fun h => absurd rfl h, by simp⟩
  · have hr : r = walked := if_neg hst
    rw [hr]
    exact ⟨fun h => absurd h hst, h2, h3⟩

theorem stoppedShape_nil (G : List HeapRecord → Prop) : StoppedShape G [] :=
  ⟨[], by simp, Or.inl rfl⟩

theorem AnalyzeHeap32_shape (t : Target) (params : CommonParams) (fuel heapAddress : Nat)
    (G : List HeapRecord → Prop)
    (hG : ∀ (encoding : List Nat) (lfhRecords : List HeapRecord) (fuel heapAddress : Nat),
      lfhRecords.Pairwise (fun x y => x.address ≤ y.address) →
      WalkShape G (segment32 t params encoding lfhRecords fuel heapAddress)) :
    ((AnalyzeHeap32 fuel t heapAddress params).status = Status.ok →
      ∃ (gs : List SegmentGroup) (va : List HeapRecord),
        (AnalyzeHeap32 fuel t heapAddress params).trace =
          segmentsTrace gs ++ va.map Call.Register ∧ ∀ g ∈ gs, G g.records) ∧
    ((AnalyzeHeap32 fuel t heapAddress params).status ≠ Status.ok →
      StoppedShape G (AnalyzeHeap32 fuel t heapAddress params).trace) ∧
    (∀ a, (AnalyzeHeap32 fuel t heapAddress params).status = Status.decodeFailed a →
      OpenShape (AnalyzeHeap32 fuel t heapAddress params).trace) := by
  unfold AnalyzeHeap32
  split
  · exact ⟨by simp, fun _ => stoppedShape_nil G, by simp⟩
  · rename_i b lfh _
    simp only []
    split
    · exact ⟨by simp, fun _ => stoppedShape_nil G, by simp⟩
    · rename_i encoding _
      split
      · exact ⟨by simp, fun _ => stoppedShape_nil G, by simp⟩
      · rename_i b' valloc _
        exact heapWalk_shape G _ (sortRecords valloc)
          (segmentsLoop_shape _ G
            (fun f h => hG encoding (sortRecords lfh) f h (sortRecords_sorted lfh)) fuel heapAddress)

theorem AnalyzeHeap64_shape (t : Target) (params : CommonParams) (fuel heapAddress : Nat)
    (G : List HeapRecord → Prop)
    (hG : ∀ (encoding : List Nat) (lfhRecords : List HeapRecord) (fuel heapAddress : Nat),
      lfhRecords.Pairwise (fun x y => x.address ≤ y.address) →
      WalkShape G (segment64 t params encoding lfhRecords fuel heapAddress)) :
    ((AnalyzeHeap64 fuel t heapAddress params).status = Status.ok →
      ∃ (gs : List SegmentGroup) (va : List HeapRecord),
        (AnalyzeHeap64 fuel t heapAddress params).trace =
          segmentsTrace gs ++ va.map Call.Register ∧ ∀ g ∈ gs, G g.records) ∧
    ((AnalyzeHeap64 fuel t heapAddress params).status ≠ Status.ok →
      StoppedShape G (AnalyzeHeap64 fuel t heapAddress params).trace) ∧
    (∀ a, (AnalyzeHeap64 fuel t heapAddress params).status = Status.decodeFailed a →
      OpenShape (AnalyzeHeap64 fuel t heapAddress params).trace) := by
  unfold AnalyzeHeap64
  split
  · exact ⟨by simp, fun _ => stoppedShape_nil G, by simp⟩
  · rename_i b lfh _
    simp only []
    split
    · exact ⟨by simp, fun _ => stoppedShape_nil G, by simp⟩
    · rename_i encoding _
      split
      · exact ⟨by simp, fun _ => stoppedShape_nil G, by simp⟩
      · rename_i b' valloc _
        exact heapWalk_shape G _ (sortRecords valloc)
          (segmentsLoop_shape _ G
            (fun f h => hG encoding (sortRecords lfh) f h (sortRecords_sorted lfh)) fuel heapAddress)

theorem segment32_walkShape_true (t : Target) (params : CommonParams) (encoding : List Nat)
    (lfhRecords : List HeapRecord) (fuel heapAddress : Nat) :
    WalkShape (fun _ => True) (segment32 t params encoding lfhRecords fuel heapAddress) :=
  segment32_walkShape t params encoding lfhRecords fuel heapAddress _ (fun _ _ => ⟨trivial, trivial⟩)

theorem segment64_walkShape_true (t : Target) (params : CommonParams) (encoding : List Nat)
    (lfhRecords : List HeapRecord) (fuel heapAddress : Nat) :
    WalkShape (fun _ => True) (segment64 t params encoding lfhRecords fuel heapAddress) :=
  segment64_walkShape t params encoding lfhRecords fuel heapAddress _ (fun _ _ => ⟨trivial, trivial⟩)

/-- The walk of one heap, on either kind of target: when it returns `TRUE` its
trace is whole segments followed by `Register` calls, and when it stops on a
failed checksum its trace ends inside a segment. -/
theorem heapWalk_trace (t : Target) (params : CommonParams) (fuel heapAddress : Nat) :
    let walked := if t.isTarget64 then AnalyzeHeap64 fuel t heapAddress params
      else AnalyzeHeap32 fuel t heapAddress params
    (walked.status = Status.ok → ∃ (gs : List SegmentGroup) (va : List HeapRecord),
      walked.trace = segmentsTrace gs ++ va.map Call.Register) ∧
    (∀ a, walked.status = Status.decodeFailed a → OpenShape walked.trace) := by
  intro walked
  by_cases h64 : t.isTarget64 = true
  · have hw : walked = AnalyzeHeap64 fuel t heapAddress params := if_pos h64
    obtain ⟨h1, _, h3⟩ := AnalyzeHeap64_shape t params fuel heapAddress (fun _ => True)
      (fun e l f h _ => segment64_walkShape_true t params e l f h)
    rw [hw]
    exact ⟨fun h => (h1 h).imp (fun gs hgs => hgs.imp (fun va hva => hva.1)), h3⟩
  · have hw : walked = AnalyzeHeap32 fuel t heapAddress params := if_neg h64
    obtain ⟨h1, _, h3⟩ := AnalyzeHeap32_shape t params fuel heapAddress (fun _ => True)
      (fun e l f h _ => segment32_walkShape_true t params e l f h)
    rw [hw]
    exact ⟨fun h => (h1 h).imp (fun gs hgs => hgs.imp (fun va hva => hva.1)), h3⟩

theorem heapLoop_shape (t : Target) (params : CommonParams) :
    ∀ (fuel heapIndex : Nat),
      ((heapLoop t params fuel heapIndex).status = Status.ok →
        ∃ blocks : List HeapBlock, (heapLoop t params fuel heapIndex).trace = blocksTrace blocks) ∧
      (∀ a, (heapLoop t params fuel heapIndex).status = Status.decodeFailed a →
        ∃ (blocks : List HeapBlock) (heapAddress : Nat) (tail : List Call), OpenShape tail ∧
          (heapLoop t params fuel heapIndex).trace =
            blocksTrace blocks ++ Call.StartHeap heapAddress :: tail) := by
  intro fuel
  induction fuel with
  | zero => intro i; simp [heapLoop]
  | succ fuel ih =>
    intro heapIndex
    unfold heapLoop
    simp only []
    have hw := heapWalk_trace t params fuel (GetHeapAddress t heapIndex)
    simp only [] at hw
    generalize (if t.isTarget64 then AnalyzeHeap64 fuel t (GetHeapAddress t heapIndex) params
         else AnalyzeHeap32 fuel t (GetHeapAddress t heapIndex) params) = walked at hw ⊢
    obtain ⟨hw1, hw2⟩ := hw
    by_cases h0 : GetHeapAddress t heapIndex ≠ 0
    · rw [if_pos h0]
      by_cases h1 : walked.status = Status.ok
      · rw [if_pos h1]
        obtain ⟨gs, va, hgs⟩ := hw1 h1
        obtain ⟨ih1, ih2⟩ := ih (u32 (heapIndex + 1))
        have hblock : Call.StartHeap (GetHeapAddress t heapIndex) ::
            (walked.trace ++ Call.FinishHeap (GetHeapAddress t heapIndex) ::
              (heapLoop t params fuel (u32 (heapIndex + 1))).trace) =
            (HeapBlock.mk (GetHeapAddress t heapIndex) gs va).calls ++
              (heapLoop t params fuel (u32 (heapIndex + 1))).trace := by
          simp [HeapBlock.calls, hgs]
        simp only [hblock]
        constructor
        · intro h
          obtain ⟨blocks, hb⟩ := ih1 h
          exact ⟨⟨GetHeapAddress t heapIndex, gs, va⟩ :: blocks, by simp [blocksTrace, hb]⟩
        · intro a h
          obtain ⟨blocks, h', tail, htail, hb⟩ := ih2 a h
          exact ⟨⟨GetHeapAddress t heapIndex, gs, va⟩ :: blocks, h', tail, htail,
            by simp [blocksTrace, hb]⟩
      · rw [if_neg h1]
        refine ⟨fun h => absurd h h1, ?_⟩
        intro a h
        exact ⟨[], GetHeapAddress t heapIndex, walked.trace, hw2 a h, by simp [blocksTrace]⟩
    · rw [if_neg h0]
      exact ⟨fun _ => ⟨[], rfl⟩, by simp⟩

/-! ## The records of a segment are registered in the order of their addresses -/

theorem segment32_walkShape_sorted (t : Target) (params : CommonParams) (encoding : List Nat)
    (lfhRecords : List HeapRecord) (fuel heapAddress : Nat)
    (hs : lfhRecords.Pairwise (fun x y => x.address ≤ y.address)) :
    WalkShape (fun l => l.Pairwise (fun x y => x.address ≤ y.address))
      (segment32 t params encoding lfhRecords fuel heapAddress) := by
  apply segment32_walkShape
  intro raw hraw
  have hbytes := (readBytes_spec t _ _ _ hraw).2
  have hlast : (HeapSegment.ofBytes raw).LastValidEntry < 2 ^ 32 := by
    have := field_lt raw hbytes 0x28 4
    simpa [HeapSegment.ofBytes] using this
  have hstep : ∀ address next record, address < (HeapSegment.ofBytes raw).LastValidEntry →
      entryStep32 t params encoding (HeapSegment.ofBytes raw) address =
        EntryStep.advance record next →
      address ≤ next ∧ ∀ r, record = some r → r.address = address := by
    intro address next record hlt hst
    obtain ⟨_, ⟨d, hd, hnext⟩, hrec⟩ := entryStep32_advance hst
    refine ⟨?_, hrec⟩
    rw [hnext, u64_eq_self (by omega)]
    omega
  have h := (scanLoop_sorted _ _ hstep fuel (HeapSegment.ofBytes raw).FirstEntry
    (lfhInSegment (HeapSegment.ofBytes raw).FirstEntry
      (HeapSegment.ofBytes raw).LastValidEntry lfhRecords) 0 (Nat.zero_le _)
    (lfhInSegment_sorted _ _ hs) (fun _ _ => Nat.zero_le _)).1
  exact ⟨h, h.sublist (List.sublist_append_left _ _)⟩

theorem segment64_walkShape_sorted (t : Target) (params : CommonParams) (encoding : List Nat)
    (lfhRecords : List HeapRecord) (fuel heapAddress : Nat)
    (htop : ∀ a, 2 ^ 64 - 2 ^ 32 ≤ a → t.mem a = none)
    (hs : lfhRecords.Pairwise (fun x y => x.address ≤ y.address)) :
    WalkShape (fun l => l.Pairwise (fun x y => x.address ≤ y.address))
      (segment64 t params encoding lfhRecords fuel heapAddress) := by
  apply segment64_walkShape
  intro raw hraw
  have hbytes := (readBytes_spec t _ _ _ hraw).2
  have hlast : (Heap64Segment.ofBytes raw).LastValidEntry < 2 ^ 64 := by
    have := field_lt raw hbytes 0x48 8
    simpa [Heap64Segment.ofBytes] using this
  have hstep : ∀ address next record, address < (Heap64Segment.ofBytes raw).LastValidEntry →
      entryStep64 t params encoding (Heap64Segment.ofBytes raw) address =
        EntryStep.advance record next →
      address ≤ next ∧ ∀ r, record = some r → r.address = address := by
    intro address next record hlt hst
    obtain ⟨⟨raw', hraw'⟩, ⟨d, hd, hnext⟩, hrec⟩ := entryStep64_advance hst
    refine ⟨?_, hrec⟩
    have hread := readBytes_head_readable t 15 address raw' hraw'
    rw [u64_eq_self (lt_trans hlt hlast)] at hread
    have hsmall : address < 2 ^ 64 - 2 ^ 32 := by
      by_contra hcon
      exact hread (htop address (by omega))
    rw [hnext, u64_eq_self (by omega)]
    omega
  have h := (scanLoop_sorted _ _ hstep fuel (Heap64Segment.ofBytes raw).FirstEntry
    (lfhInSegment (Heap64Segment.ofBytes raw).FirstEntry
      (Heap64Segment.ofBytes raw).LastValidEntry lfhRecords) 0 (Nat.zero_le _)
    (lfhInSegment_sorted _ _ hs) (fun _ _ => Nat.zero_le _)).1
  exact ⟨h, h.sublist (List.sublist_append_left _ _)⟩

theorem segmentGroups_of_shape (G : List HeapRecord → Prop) (r : Run)
    (h1 : r.status = Status.ok → ∃ (gs : List SegmentGroup) (va : List HeapRecord),
      r.trace = segmentsTrace gs ++ va.map Call.Register ∧ ∀ g ∈ gs, G g.records)
    (h2 : r.status ≠ Status.ok → StoppedShape G r.trace) :
    ∀ g ∈ segmentGroups r.trace, G g := by
  intro g hg
  by_cases hst : r.status = Status.ok
  · obtain ⟨gs, va, htr, hG⟩ := h1 hst
    rw [htr, segmentGroups_segmentsTrace, segmentGroups_map, List.append_nil] at hg
    obtain ⟨x, hx, rfl⟩ := List.mem_map.1 hg
    exact hG x hx
  · obtain ⟨gs, hG, hcase⟩ := h2 hst
    rcases hcase with htr | ⟨b, l, regs, htr, hregs⟩
    · have : r.trace = segmentsTrace gs ++ [] := by simpa using htr
      rw [this, segmentGroups_segmentsTrace] at hg
      simp only [segmentGroups, List.append_nil] at hg
      obtain ⟨x, hx, rfl⟩ := List.mem_map.1 hg
      exact hG x hx
    · rw [htr, segmentGroups_segmentsTrace, segmentGroups_open] at hg
      rcases List.mem_append.1 hg with h | h
      · obtain ⟨x, hx, rfl⟩ := List.mem_map.1 h
        exact hG x hx
      · rw [List.mem_singleton.1 h]; exact hregs

theorem AnalyzeHeap32_groups_sorted (fuel : Nat) (t : Target) (heapAddress : Nat)
    (params : CommonParams) :
    ∀ g ∈ segmentGroups (AnalyzeHeap32 fuel t heapAddress params).trace,
      (g.map (fun r => r.address)).Pairwise (fun a b => a ≤ b) := by
  have h := AnalyzeHeap32_shape t params fuel heapAddress
    (fun l => l.Pairwise (fun x y => x.address ≤ y.address))
    (fun e l f a hs => segment32_walkShape_sorted t params e l f a hs)
  intro g hg
  rw [List.pairwise_map]
  exact segmentGroups_of_shape _ _ h.1 h.2.1 g hg

theorem AnalyzeHeap64_groups_sorted (fuel : Nat) (t : Target) (heapAddress : Nat)
    (params : CommonParams) (htop : ∀ a, 2 ^ 64 - 2 ^ 32 ≤ a → t.mem a = none) :
    ∀ g ∈ segmentGroups (AnalyzeHeap64 fuel t heapAddress params).trace,
      (g.map (fun r => r.address)).Pairwise (fun a b => a ≤ b) := by
  have h := AnalyzeHeap64_shape t params fuel heapAddress
    (fun l => l.Pairwise (fun x y => x.address ≤ y.address))
    (fun e l f a hs => segment64_walkShape_sorted t params e l f a htop hs)
  intro g hg
  rw [List.pairwise_map]
  exact segmentGroups_of_shape _ _ h.1 h.2.1 g hg

/-! ## Runs of the test targets -/

set_option maxRecDepth 100000 in
theorem overlapTarget_walk : AnalyzeHeap32 10 overlapTarget 0x10000 (testParams 0) =
    ⟨Status.ok,
      [Call.StartSegment 0x10000 0x3000,
       Call.Register ⟨0, 128, 0x1000, 120, 0x1008⟩,
       Call.Register ⟨0, 64, 0x1200, 4294967224, 0x1208⟩,
       Call.Register ⟨0, 64, 0x1240, 4294967224, 0x1248⟩,
       Call.FinishSegment 0x10000 0x3000]⟩ := by
  rfl

set_option maxRecDepth 100000 in
theorem twiceTarget_walk : AnalyzeHeap32 10 twiceTarget 0x10000 (testParams 0) =
    ⟨Status.ok,
      [Call.StartSegment 0x10000 0x3000,
       Call.Register ⟨0, 128, 0x1000, 120, 0x1008⟩,
       Call.Register ⟨0, 64, 0x1200, 4294967224, 0x1208⟩,
       Call.Register ⟨0, 64, 0x1200, 4294967224, 0x1208⟩,
       Call.FinishSegment 0x10000 0x3000]⟩ := by
  rfl

set_option maxRecDepth 100000 in
theorem ustTarget_walk :
    AnalyzeHeap32 10 ustTarget 0x10000 (testParams NT_GLOBAL_FLAG_UST) =
    ⟨Status.ok,
      [Call.StartSegment 0x10000 0x3000,
       Call.Register ⟨0xabcd, 128, 0x1080, 128, 0x1098⟩,
       Call.FinishSegment 0x10000 0x3000]⟩ := by
  rfl

/-! ## C3 -/

theorem sub32_le_u32 {a b : Nat} (h : u32 a ≥ b) : sub32 a b ≤ u32 a := by
  have h1 := u32_lt a
  have h2 : u32 b = b := u32_eq_self (by omega)
  unfold sub32
  rw [h2]
  have : u32 a + 2 ^ 32 - b = (u32 a - b) + 2 ^ 32 := by omega
  rw [this, Nat.add_mod_right]
  exact le_trans (Nat.mod_le _ _) (Nat.sub_le _ _)

theorem sub64_le_of_lt {size extra : Nat} (h : extra < size) : sub64 size extra ≤ size := by
  by_cases hs : size < 2 ^ 64
  · have h1 : u64 size = size := u64_eq_self hs
    have h2 : u64 extra = extra := u64_eq_self (by omega)
    unfold sub64
    rw [h1, h2]
    have : size + 2 ^ 64 - extra = (size - extra) + 2 ^ 64 := by omega
    rw [this, Nat.add_mod_right]
    exact le_trans (Nat.mod_le _ _) (Nat.sub_le _ _)
  · have : sub64 size extra < 2 ^ 64 := Nat.mod_lt _ (by norm_num)
    omega

theorem userAreaBounds_intro {flag : Nat} {r : HeapRecord} (h2 : r.userAddress ≤ r.address + 0x60)
    (h1 : flag &&& (NT_GLOBAL_FLAG_UST ||| NT_GLOBAL_FLAG_HPA) ≠ 0 → r.userSize ≤ r.size) :
    UserAreaBounds flag r :=
  ⟨h2, fun h => ⟨h1 h, by have := h1 h; omega⟩⟩

theorem parseInv32_bounds (t : Target) (flag : Nat) : ParseInv32 t flag (UserAreaBounds flag) := by
  intro address entry r h
  unfold ParseHeapRecord32 at h
  simp only [] at h
  have h20 := u64_le (address + 8 + 0x20)
  have h10 := u64_le (address + 8 + 0x10)
  have h00 := u64_le (address + 8)
  repeat' split at h
  all_goals first
    | (simp at h; done)
    | (simp only [Option.some.injEq] at h
       rw [← h]
       apply userAreaBounds_intro
       · simp only []
         omega
       · intro hflag
         first
          | exact sub32_le_u32 (by assumption)
          | (simp only []; omega))

theorem parseInv64_bounds (t : Target) (flag : Nat) : ParseInv64 t flag (UserAreaBounds flag) := by
  intro address entry r h
  unfold ParseHeapRecord64 at h
  simp only [] at h
  have h40 := u64_le (address + 16 + 0x40)
  have h20 := u64_le (address + 16 + 0x20)
  have h00 := u64_le (address + 16)
  repeat' split at h
  all_goals first
    | (simp at h; done)
    | (simp only [Option.some.injEq] at h
       rw [← h]
       apply userAreaBounds_intro
       · simp only []
         omega
       · intro hflag
         first
          | exact sub32_le_u32 (by assumption)
          | (simp only []; omega))

theorem vallocInv32_bounds (flag : Nat) : VallocInv32 flag (UserAreaBounds flag) := by
  intro ust size address extra h
  have h1 := sub64_le_of_lt h
  have h2 := u64_le (address + 0x30)
  have h3 := u64_le (address + 0x20)
  exact ⟨fun _ => userAreaBounds_intro (by simp only []; omega) (fun _ => h1),
    fun _ => userAreaBounds_intro (by simp only []; omega) (fun _ => h1)⟩

theorem vallocInv64_bounds (flag : Nat) : VallocInv64 flag (UserAreaBounds flag) := by
  intro ust size address extra h
  have h1 := sub64_le_of_lt h
  have h2 := u64_le (address + 0x60)
  have h3 := u64_le (address + 0x40)
  exact ⟨fun _ => userAreaBounds_intro (by simp only []; omega) (fun _ => h1),
    fun _ => userAreaBounds_intro (by simp only []; omega) (fun _ => h1)⟩

/-- C3, as the claim states it, fails: with neither flag set the LFH block at
0x1200 of the overlap scenario is registered with a user size that wrapped
(64 - 0x88 modulo 2^32), and with UST set the busy entry at 0x1080 of
`ustTarget` (0x80 bytes, `extra` 0) is registered with a user area that ends
0x18 bytes after the block. -/
theorem C3_counterexample :
    (∃ r ∈ registeredRecords (AnalyzeHeap32 10 overlapTarget 0x10000 (testParams 0)).trace,
      r.address + r.size < r.userAddress + r.userSize ∧ r.size < r.userSize) ∧
    (∃ r ∈ registeredRecords
        (AnalyzeHeap32 10 ustTarget 0x10000 (testParams NT_GLOBAL_FLAG_UST)).trace,
      r.address + r.size < r.userAddress + r.userSize) := by
  rw [overlapTarget_walk, ustTarget_walk]
  exact ⟨⟨⟨0, 64, 0x1200, 4294967224, 0x1208⟩, by decide, by decide⟩,
    ⟨⟨0xabcd, 128, 0x1080, 128, 0x1098⟩, by decide, by decide⟩⟩

/-- C3, amended: every record `R` that `AnalyzeHeap32` or `AnalyzeHeap64`
passes to `Register` has `R.userAddress ≤ R.address + 0x60`, and when UST or
HPA is set it has `R.userSize ≤ R.size`, hence
`R.userAddress + R.userSize ≤ R.address + R.size + 0x60`. -/
theorem C3_user_area_bounds (fuel : Nat) (t : Target) (heapAddress : Nat)
    (params : CommonParams) :
    (∀ r ∈ registeredRecords (AnalyzeHeap32 fuel t heapAddress params).trace,
      r.userAddress ≤ r.address + 0x60 ∧
      (params.ntGlobalFlag &&& (NT_GLOBAL_FLAG_UST ||| NT_GLOBAL_FLAG_HPA) ≠ 0 →
        r.userSize ≤ r.size ∧ r.userAddress + r.userSize ≤ r.address + r.size + 0x60)) ∧
    (∀ r ∈ registeredRecords (AnalyzeHeap64 fuel t heapAddress params).trace,
      r.userAddress ≤ r.address + 0x60 ∧
      (params.ntGlobalFlag &&& (NT_GLOBAL_FLAG_UST ||| NT_GLOBAL_FLAG_HPA) ≠ 0 →
        r.userSize ≤ r.size ∧ r.userAddress + r.userSize ≤ r.address + r.size + 0x60)) :=
  ⟨AnalyzeHeap32_all t params (UserAreaBounds params.ntGlobalFlag) (parseInv32_bounds t _)
      (vallocInv32_bounds _) fuel heapAddress,
    AnalyzeHeap64_all t params (UserAreaBounds params.ntGlobalFlag) (parseInv64_bounds t _)
      (vallocInv64_bounds _) fuel heapAddress⟩

/-- C3, witness: the walk of `ustTarget` with UST set registers one record,
which has the bounds. -/
theorem C3_user_area_bounds_witness :
    registeredRecords
        (AnalyzeHeap32 10 ustTarget 0x10000 (testParams NT_GLOBAL_FLAG_UST)).trace =
      [⟨0xabcd, 128, 0x1080, 128, 0x1098⟩] ∧
    (∀ r ∈ registeredRecords
        (AnalyzeHeap32 10 ustTarget 0x10000 (testParams NT_GLOBAL_FLAG_UST)).trace,
      r.userAddress ≤ r.address + 0x60 ∧ r.userSize ≤ r.size ∧
        r.userAddress + r.userSize ≤ r.address + r.size + 0x60) :=
  ⟨by rw [ustTarget_walk]; rfl,
    fun r hr =>
      ⟨((C3_user_area_bounds 10 ustTarget 0x10000 (testParams NT_GLOBAL_FLAG_UST)).1 r hr).1,
        ((C3_user_area_bounds 10 ustTarget 0x10000 (testParams NT_GLOBAL_FLAG_UST)).1 r hr).2
          (by decide)⟩⟩

/-! ## C4 -/

/-- C4, as the claim states it, fails: in `twiceTarget` two LFH subsegments
hold a block at the same address 0x1200, and both records are registered, so
the addresses of the segment, 0x1000, 0x1200, 0x1200, are not strictly
ascending. -/
theorem C4_counterexample :
    ∃ g ∈ segmentGroups (AnalyzeHeap32 10 twiceTarget 0x10000 (testParams 0)).trace,
      g.map (fun r => r.address) = [0x1000, 0x1200, 0x1200] ∧
      ¬ (g.map (fun r => r.address)).Pairwise (fun a b => a < b) := by
  rw [twiceTarget_walk]
  exact ⟨[⟨0, 128, 0x1000, 120, 0x1008⟩, ⟨0, 64, 0x1200, 4294967224, 0x1208⟩,
    ⟨0, 64, 0x1200, 4294967224, 0x1208⟩], by decide, by decide, by decide⟩

/-- C4, amended: within one segment walked by `AnalyzeHeap32`, the addresses
passed to `Register` after `StartSegment` and before the next call that is not
a `Register` never decrease; the same holds for `AnalyzeHeap64` when no byte
of the last 2^32 addresses of the address space can be read (the scan cursor
then cannot wrap). -/
theorem C4_segment_addresses_ascend (fuel : Nat) (t : Target) (heapAddress : Nat)
    (params : CommonParams) :
    (∀ g ∈ segmentGroups (AnalyzeHeap32 fuel t heapAddress params).trace,
      (g.map (fun r => r.address)).Pairwise (fun a b => a ≤ b)) ∧
    ((∀ a, 2 ^ 64 - 2 ^ 32 ≤ a → t.mem a = none) →
      ∀ g ∈ segmentGroups (AnalyzeHeap64 fuel t heapAddress params).trace,
        (g.map (fun r => r.address)).Pairwise (fun a b => a ≤ b)) :=
  ⟨AnalyzeHeap32_groups_sorted fuel t heapAddress params,
    AnalyzeHeap64_groups_sorted fuel t heapAddress params⟩

/-- C4, witness: the one segment of `twiceTarget` registers the addresses
0x1000, 0x1200, 0x1200, which never decrease. -/
theorem C4_segment_addresses_ascend_witness :
    (segmentGroups (AnalyzeHeap32 10 twiceTarget 0x10000 (testParams 0)).trace).map
        (fun g => g.map (fun r => r.address)) = [[0x1000, 0x1200, 0x1200]] ∧
    (∀ g ∈ segmentGroups (AnalyzeHeap32 10 twiceTarget 0x10000 (testParams 0)).trace,
      (g.map (fun r => r.address)).Pairwise (fun a b => a ≤ b)) :=
  ⟨by rw [twiceTarget_walk]; rfl,
    (C4_segment_addresses_ascend 10 twiceTarget 0x10000 (testParams 0)).1⟩

/-! ## C5 -/

theorem segment32_emits (t : Target) (params : CommonParams) (encoding : List Nat)
    (lfh : List HeapRecord) (fuel heapAddress : Nat) (raw : List Nat) (segment : HeapSegment)
    (backend : List HeapRecord) (hraw : readBytes t heapAddress 64 = some raw)
    (hseg : HeapSegment.ofBytes raw = segment)
    (hscan : backendRecords32 t params encoding segment fuel segment.FirstEntry =
      (Status.ok, backend)) :
    segment32 t params encoding (sortRecords lfh) fuel heapAddress =
      ⟨Status.ok,
        Call.StartSegment heapAddress segment.LastValidEntry ::
          ((emittedOrder backend
              (lfhInSegment segment.FirstEntry segment.LastValidEntry (sortRecords lfh))).map
            Call.Register ++ [Call.FinishSegment heapAddress segment.LastValidEntry]),
        sub32 segment.Flink 0x10⟩ ∧
    (emittedOrder backend
        (lfhInSegment segment.FirstEntry segment.LastValidEntry (sortRecords lfh))).Perm
      (backend ++ lfhInSegment segment.FirstEntry segment.LastValidEntry (sortRecords lfh)) := by
  subst hseg
  have hm := scanLoop_eq_emittedOrder
    (entryStep32 t params encoding (HeapSegment.ofBytes raw))
    (HeapSegment.ofBytes raw).LastValidEntry fuel (HeapSegment.ofBytes raw).FirstEntry
    (lfhInSegment (HeapSegment.ofBytes raw).FirstEntry (HeapSegment.ofBytes raw).LastValidEntry
      (sortRecords lfh))
    (lfhInSegment_sorted _ _ (sortRecords_sorted lfh))
  unfold backendRecords32 at hscan
  rw [hscan] at hm
  refine ⟨?_, emittedOrder_perm _ _⟩
  unfold segment32
  simp only [hraw]
  unfold scan32
  rw [if_pos hm.1, hm.2]

theorem segment64_emits (t : Target) (params : CommonParams) (encoding : List Nat)
    (lfh : List HeapRecord) (fuel heapAddress : Nat) (raw : List Nat) (segment : Heap64Segment)
    (backend : List HeapRecord) (hraw : readBytes t heapAddress 112 = some raw)
    (hseg : Heap64Segment.ofBytes raw = segment)
    (hscan : backendRecords64 t params encoding segment fuel segment.FirstEntry =
      (Status.ok, backend)) :
    segment64 t params encoding (sortRecords lfh) fuel heapAddress =
      ⟨Status.ok,
        Call.StartSegment heapAddress segment.LastValidEntry ::
          ((emittedOrder backend
              (lfhInSegment segment.FirstEntry segment.LastValidEntry (sortRecords lfh))).map
            Call.Register ++ [Call.FinishSegment heapAddress segment.LastValidEntry]),
        sub64 segment.Flink 0x18⟩ ∧
    (emittedOrder backend
        (lfhInSegment segment.FirstEntry segment.LastValidEntry (sortRecords lfh))).Perm
      (backend ++ lfhInSegment segment.FirstEntry segment.LastValidEntry (sortRecords lfh)) := by
  subst hseg
  have hm := scanLoop_eq_emittedOrder
    (entryStep64 t params encoding (Heap64Segment.ofBytes raw))
    (Heap64Segment.ofBytes raw).LastValidEntry fuel (Heap64Segment.ofBytes raw).FirstEntry
    (lfhInSegment (Heap64Segment.ofBytes raw).FirstEntry
      (Heap64Segment.ofBytes raw).LastValidEntry (sortRecords lfh))
    (lfhInSegment_sorted _ _ (sortRecords_sorted lfh))
  unfold backendRecords64 at hscan
  rw [hscan] at hm
  refine ⟨?_, emittedOrder_perm _ _⟩
  unfold segment64
  simp only [hraw]
  unfold scan64
  rw [if_pos hm.1, hm.2]

/-- C5: for a segment whose scan ends without error, the records registered
between `StartSegment` and `FinishSegment` are the backend records parsed by
the scan and the LFH records with `FirstEntry < address < LastValidEntry`,
each once (a permutation), in the order `emittedOrder`: before each backend
record the LFH records not yet registered whose address is below its address,
and after the last backend record the LFH records that are left. -/
theorem C5_segment_merges_backend_and_lfh :
    (∀ (t : Target) (params : CommonParams) (encoding : List Nat) (lfh : List HeapRecord)
      (fuel heapAddress : Nat) (raw : List Nat) (segment : HeapSegment)
      (backend : List HeapRecord),
      readBytes t heapAddress 64 = some raw → HeapSegment.ofBytes raw = segment →
      backendRecords32 t params encoding segment fuel segment.FirstEntry =
        (Status.ok, backend) →
      segment32 t params encoding (sortRecords lfh) fuel heapAddress =
        ⟨Status.ok,
          Call.StartSegment heapAddress segment.LastValidEntry ::
            ((emittedOrder backend
                (lfhInSegment segment.FirstEntry segment.LastValidEntry (sortRecords lfh))).map
              Call.Register ++ [Call.FinishSegment heapAddress segment.LastValidEntry]),
          sub32 segment.Flink 0x10⟩ ∧
      (emittedOrder backend
          (lfhInSegment segment.FirstEntry segment.LastValidEntry (sortRecords lfh))).Perm
        (backend ++ lfhInSegment segment.FirstEntry segment.LastValidEntry (sortRecords lfh))) ∧
    (∀ (t : Target) (params : CommonParams) (encoding : List Nat) (lfh : List HeapRecord)
      (fuel heapAddress : Nat) (raw : List Nat) (segment : Heap64Segment)
      (backend : List HeapRecord),
      readBytes t heapAddress 112 = some raw → Heap64Segment.ofBytes raw = segment →
      backendRecords64 t params encoding segment fuel segment.FirstEntry =
        (Status.ok, backend) →
      segment64 t params encoding (sortRecords lfh) fuel heapAddress =
        ⟨Status.ok,
          Call.StartSegment heapAddress segment.LastValidEntry ::
            ((emittedOrder backend
                (lfhInSegment segment.FirstEntry segment.LastValidEntry (sortRecords lfh))).map
              Call.Register ++ [Call.FinishSegment heapAddress segment.LastValidEntry]),
          sub64 segment.Flink 0x18⟩ ∧
      (emittedOrder backend
          (lfhInSegment segment.FirstEntry segment.LastValidEntry (sortRecords lfh))).Perm
        (backend ++ lfhInSegment segment.FirstEntry segment.LastValidEntry (sortRecords lfh))) :=
  ⟨fun t params encoding lfh fuel heapAddress raw segment backend h1 h2 h3 =>
      segment32_emits t params encoding lfh fuel heapAddress raw segment backend h1 h2 h3,
    fun t params encoding lfh fuel heapAddress raw segment backend h1 h2 h3 =>
      segment64_emits t params encoding lfh fuel heapAddress raw segment backend h1 h2 h3⟩

set_option maxRecDepth 100000 in
/-- C5, witness: the overlap scenario of the specification.  The LFH walk finds
the blocks at 0x1200 and 0x1240, the scan of the segment parses the busy entry
at 0x1000, and the records are registered in the order 0x1000, 0x1200,
0x1240. -/
theorem C5_segment_merges_backend_and_lfh_witness :
    AnalyzeLFH32 10 overlapTarget 0x10000 (testParams 0) [] =
      some (true, [⟨0, 64, 0x1200, 4294967224, 0x1208⟩, ⟨0, 64, 0x1240, 4294967224, 0x1248⟩]) ∧
    backendRecords32 overlapTarget (testParams 0) testKey ⟨0x100a8, 0x1000, 0x3000, 1⟩ 10 0x1000 =
      (Status.ok, [⟨0, 128, 0x1000, 120, 0x1008⟩]) ∧
    (registeredRecords (segment32 overlapTarget (testParams 0) testKey
        (sortRecords [⟨0, 64, 0x1200, 4294967224, 0x1208⟩, ⟨0, 64, 0x1240, 4294967224, 0x1248⟩])
        10 0x10000).calls).map (fun r => r.address) = [0x1000, 0x1200, 0x1240] := by
  refine ⟨by rfl, by rfl, ?_⟩
  rw [(C5_segment_merges_backend_and_lfh.1 overlapTarget (testParams 0) testKey
    [⟨0, 64, 0x1200, 4294967224, 0x1208⟩, ⟨0, 64, 0x1240, 4294967224, 0x1248⟩] 10 0x10000
    (segmentBytes 0x100a8 0x1000 0x3000 1) ⟨0x100a8, 0x1000, 0x3000, 1⟩
    [⟨0, 128, 0x1000, 120, 0x1008⟩] (by rfl) (by rfl) (by rfl)).1]
  rfl

/-! ## C6 -/

set_option maxRecDepth 100000 in
/-- C6, as the claim states it, fails: in `brokenWalkersTarget` the LFH walker
returns `FALSE` (the zone cannot be read) and the VirtualAlloc walker returns
`FALSE` (the checksum of the block fails), yet `AnalyzeHeap32` and
`AnalyzeHeap` return `TRUE` and the busy entry of the segment is registered. -/
theorem C6_counterexample :
    AnalyzeLFH32 10 brokenWalkersTarget 0x10000 (testParams 0) [] = some (false, []) ∧
    AnalyzeVirtualAllocd32 10 brokenWalkersTarget 0x10000 testKey (testParams 0) [] =
      some (false, []) ∧
    (AnalyzeHeap32 10 brokenWalkersTarget 0x10000 (testParams 0)).status.returned = some true ∧
    AnalyzeHeap 10 brokenWalkersTarget =
      ⟨Status.ok,
        [Call.StartHeap 0x10000, Call.StartSegment 0x10000 0x3000,
         Call.Register ⟨0, 128, 0x1000, 120, 0x1008⟩,
         Call.FinishSegment 0x10000 0x3000, Call.FinishHeap 0x10000]⟩ :=
  ⟨by rfl, by rfl, by rfl, by rfl⟩

/-- C6, amended: `AnalyzeHeap32` and `AnalyzeHeap64` do not look at the `BOOL`
that the LFH walker and the VirtualAlloc walker return.  Whatever the two
returned, the walk goes on with the records they collected before they
stopped: the result is that of the segment loop, followed, when the loop
returned `TRUE`, by the `Register` calls of the sorted VirtualAlloc records. -/
theorem C6_walker_failures_are_ignored (fuel : Nat) (t : Target) (heapAddress : Nat)
    (params : CommonParams) :
    (∀ (lfhResult vallocResult : Bool) (lfh valloc : List HeapRecord) (encoding : List Nat),
      AnalyzeLFH32 fuel t heapAddress params [] = some (lfhResult, lfh) →
      readBytes t (heapAddress + 0x50) 8 = some encoding →
      AnalyzeVirtualAllocd32 fuel t heapAddress encoding params [] =
        some (vallocResult, valloc) →
      AnalyzeHeap32 fuel t heapAddress params =
        if (segments32 t params encoding (sortRecords lfh) fuel heapAddress).status = Status.ok
        then ⟨Status.ok,
          (segments32 t params encoding (sortRecords lfh) fuel heapAddress).trace ++
            (sortRecords valloc).map Call.Register⟩
        else segments32 t params encoding (sortRecords lfh) fuel heapAddress) ∧
    (∀ (lfhResult vallocResult : Bool) (lfh valloc : List HeapRecord) (encoding : List Nat),
      AnalyzeLFH64 fuel t heapAddress params [] = some (lfhResult, lfh) →
      GetFieldBytes t heapAddress FieldName.HEAP_Encoding 16 = some encoding →
      AnalyzeVirtualAllocd64 fuel t heapAddress encoding params [] =
        some (vallocResult, valloc) →
      AnalyzeHeap64 fuel t heapAddress params =
        if (segments64 t params encoding (sortRecords lfh) fuel heapAddress).status = Status.ok
        then ⟨Status.ok,
          (segments64 t params encoding (sortRecords lfh) fuel heapAddress).trace ++
            (sortRecords valloc).map Call.Register⟩
        else segments64 t params encoding (sortRecords lfh) fuel heapAddress) := by
  constructor
  · intro lfhResult vallocResult lfh valloc encoding h1 h2 h3
    unfold AnalyzeHeap32
    simp only [h1, h2, h3]
  · intro lfhResult vallocResult lfh valloc encoding h1 h2 h3
    unfold AnalyzeHeap64
    simp only [h1, h2, h3]

set_option maxRecDepth 100000 in
/-- C6, witness: in `brokenWalkersTarget` both walkers return `FALSE` and the
walk of the heap is that of the segment loop with no LFH record, which returns
`TRUE`. -/
theorem C6_walker_failures_are_ignored_witness :
    (segments32 brokenWalkersTarget (testParams 0) testKey (sortRecords []) 10 0x10000).status =
      Status.ok ∧
    AnalyzeHeap32 10 brokenWalkersTarget 0x10000 (testParams 0) =
      if (segments32 brokenWalkersTarget (testParams 0) testKey (sortRecords []) 10
          0x10000).status = Status.ok
      then ⟨Status.ok,
        (segments32 brokenWalkersTarget (testParams 0) testKey (sortRecords []) 10
          0x10000).trace ++ (sortRecords []).map Call.Register⟩
      else segments32 brokenWalkersTarget (testParams 0) testKey (sortRecords []) 10 0x10000 :=
  ⟨by rfl,
    (C6_walker_failures_are_ignored 10 brokenWalkersTarget 0x10000 (testParams 0)).1
      false false [] [] testKey (by rfl) (by rfl) (by rfl)⟩

/-! ## The scan loop, turn by turn -/

theorem scanLoop_skip (step : Nat → EntryStep) (last fuel address next : Nat)
    (lfh : List HeapRecord) (hlt : address < last)
    (hstep : step address = EntryStep.advance none next) :
    scanLoop step last (fuel + 1) address lfh = scanLoop step last fuel next lfh := by
  conv => lhs; unfold scanLoop
  rw [if_pos hlt]
  simp only [hstep]

/-! ## C8 -/

set_option maxRecDepth 100000 in
/-- C8, as the claim states it, fails: in `ustTarget` (UST set) the record of
the busy entry at 0x1000 cannot be parsed (`extra` is 0xffff, the block has
0x80 bytes), yet the walk is not aborted: the scan goes on, registers the busy
entry at 0x1080, and `AnalyzeHeap32` and `AnalyzeHeap` return `TRUE`. -/
theorem C8_counterexample :
    (HeapEntry.ofBytes (entryBytes 0x10 1 0)).Flags = 1 ∧
    ParseHeapRecord32 ustTarget 0x1000 (HeapEntry.ofBytes (entryBytes 0x10 1 0))
      NT_GLOBAL_FLAG_UST = none ∧
    AnalyzeHeap32 10 ustTarget 0x10000 (testParams NT_GLOBAL_FLAG_UST) =
      ⟨Status.ok,
        [Call.StartSegment 0x10000 0x3000,
         Call.Register ⟨0xabcd, 128, 0x1080, 128, 0x1098⟩,
         Call.FinishSegment 0x10000 0x3000]⟩ ∧
    (AnalyzeHeap 10 ustTarget).status.returned = some true :=
  ⟨by rfl, by rfl, ustTarget_walk, by rfl⟩

/-- C8, amended: when the scan of a segment meets a busy entry whose record
cannot be parsed (`ParseHeapRecord32` or `ParseHeapRecord64` returns `FALSE`),
it registers nothing for the entry, leaves the LFH list as it is and goes on at
`address + Size * U`: the walk of the heap is not aborted. -/
theorem C8_unparsed_entry_is_skipped :
    (∀ (t : Target) (params : CommonParams) (encoding : List Nat) (segment : HeapSegment)
      (fuel address : Nat) (lfh : List HeapRecord) (raw : List Nat) (entry : HeapEntry),
      address < segment.LastValidEntry → readBytes t address 8 = some raw →
      (DecodeHeapEntry raw encoding).2 = true →
      HeapEntry.ofBytes (DecodeHeapEntry raw encoding).1 = entry →
      ¬ (u64 (address + u32 (entry.Size * 8)) ≥
          sub32 segment.LastValidEntry (u32 (segment.NumberOfUnCommittedPages * t.PAGE_SIZE))) →
      ¬ (params.ntGlobalFlag &&& (NT_GLOBAL_FLAG_UST ||| NT_GLOBAL_FLAG_HPA) ≠ 0 ∧
          entry.ExtendedBlockSignature = 0x03) →
      entry.Flags = (if params.ntGlobalFlag &&& NT_GLOBAL_FLAG_HPA ≠ 0 then 0x03 else 0x01) →
      ParseHeapRecord32 t address entry params.ntGlobalFlag = none →
      scan32 t params encoding segment (fuel + 1) address lfh =
        scan32 t params encoding segment fuel (u64 (address + u32 (entry.Size * 8))) lfh) ∧
    (∀ (t : Target) (params : CommonParams) (encoding : List Nat) (segment : Heap64Segment)
      (fuel address : Nat) (lfh : List HeapRecord) (raw : List Nat) (entry : Heap64Entry),
      address < segment.LastValidEntry → readBytes t address 16 = some raw →
      (DecodeHeap64Entry raw encoding).2 = true →
      Heap64Entry.ofBytes (DecodeHeap64Entry raw encoding).1 = entry →
      ¬ (u64 (address + u32 (entry.Size * 16)) ≥
          sub64 segment.LastValidEntry (u32 (segment.NumberOfUnCommittedPages * t.PAGE_SIZE))) →
      ¬ (params.ntGlobalFlag &&& (NT_GLOBAL_FLAG_UST ||| NT_GLOBAL_FLAG_HPA) ≠ 0 ∧
          entry.ExtendedBlockSignature = 0x03) →
      entry.Flags = (if params.ntGlobalFlag &&& NT_GLOBAL_FLAG_HPA ≠ 0 then 0x03 else 0x01) →
      ParseHeapRecord64 t address entry params.ntGlobalFlag = none →
      scan64 t params encoding segment (fuel + 1) address lfh =
        scan64 t params encoding segment fuel (u64 (address + u32 (entry.Size * 16))) lfh) := by
  constructor
  · intro t params encoding segment fuel address lfh raw entry hlt hraw hdec hentry hunc hsent
      hbusy hparse
    subst hentry
    unfold scan32
    apply scanLoop_skip _ _ _ _ _ _ hlt
    unfold entryStep32
    simp only [hraw, hdec]
    rw [if_neg (by simp), if_neg hunc, if_neg hsent, if_pos hbusy, hparse]
  · intro t params encoding segment fuel address lfh raw entry hlt hraw hdec hentry hunc hsent
      hbusy hparse
    subst hentry
    unfold scan64
    apply scanLoop_skip _ _ _ _ _ _ hlt
    unfold entryStep64
    simp only [hraw, hdec]
    rw [if_neg (by simp), if_neg hunc, if_neg hsent, if_pos hbusy, hparse]

set_option maxRecDepth 100000 in
/-- C8, witness: in `ustTarget` the scan that stands at the unparsable busy
entry at 0x1000 is the scan that goes on from 0x1080, and that scan ends well
with the entry at 0x1080 registered. -/
theorem C8_unparsed_entry_is_skipped_witness :
    scan32 ustTarget (testParams NT_GLOBAL_FLAG_UST) testKey ⟨0x100a8, 0x1000, 0x3000, 1⟩
        (9 + 1) 0x1000 [] =
      scan32 ustTarget (testParams NT_GLOBAL_FLAG_UST) testKey ⟨0x100a8, 0x1000, 0x3000, 1⟩
        9 0x1080 [] ∧
    scan32 ustTarget (testParams NT_GLOBAL_FLAG_UST) testKey ⟨0x100a8, 0x1000, 0x3000, 1⟩
        9 0x1080 [] = ⟨Status.ok, [⟨0xabcd, 128, 0x1080, 128, 0x1098⟩], []⟩ :=
  ⟨C8_unparsed_entry_is_skipped.1 ustTarget (testParams NT_GLOBAL_FLAG_UST) testKey
      ⟨0x100a8, 0x1000, 0x3000, 1⟩ 9 0x1000 [] (xorBytes 8 (entryBytes 0x10 1 0) testKey)
      (HeapEntry.ofBytes (entryBytes 0x10 1 0)) (by decide) (by rfl) (by rfl) (by rfl)
      (by decide) (by decide) (by rfl) (by rfl),
    by rfl⟩

/-! ## C9 -/

theorem status_eq_ok_of_returned {s : Status} (h : s.returned = some true) : s = Status.ok := by
  cases s <;> simp [Status.returned] at h ⊢

/-- C9: the trace of a run of `AnalyzeHeap` that returns `TRUE` is well
bracketed: it is the concatenation of one block for each heap, each block
being `StartHeap(h)`, then the groups of its segments (`StartSegment(b, l)`,
`Register` calls, `FinishSegment(b, l)`), then the `Register` calls of the
VirtualAlloc records, then `FinishHeap(h)`. -/
theorem C9_trace_is_well_bracketed (fuel : Nat) (t : Target)
    (h : (AnalyzeHeap fuel t).status.returned = some true) :
    ∃ blocks : List HeapBlock, (AnalyzeHeap fuel t).trace = blocksTrace blocks :=
  (heapLoop_shape t _ fuel 0).1 (status_eq_ok_of_returned h)

set_option maxRecDepth 100000 in
/-- C9, witness: the run of the overlap scenario returns `TRUE`, and its trace
is one block: `StartHeap`, one segment with three `Register` calls,
`FinishHeap`. -/
theorem C9_trace_is_well_bracketed_witness :
    (AnalyzeHeap 10 overlapTarget).trace =
      blocksTrace [⟨0x10000,
        [⟨0x10000, 0x3000, [⟨0, 128, 0x1000, 120, 0x1008⟩, ⟨0, 64, 0x1200, 4294967224, 0x1208⟩,
          ⟨0, 64, 0x1240, 4294967224, 0x1248⟩]⟩], []⟩] ∧
    ∃ blocks : List HeapBlock, (AnalyzeHeap 10 overlapTarget).trace = blocksTrace blocks :=
  ⟨by rfl, C9_trace_is_well_bracketed 10 overlapTarget (by rfl)⟩

/-! ## C10 -/

theorem parseInv32_ust_zero (t : Target) (flag : Nat)
    (hflag : flag &&& (NT_GLOBAL_FLAG_UST ||| NT_GLOBAL_FLAG_HPA) = 0) :
    ParseInv32 t flag (fun r => r.ustAddress = 0) := by
  intro address entry r h
  unfold ParseHeapRecord32 at h
  simp only [] at h
  rw [if_neg (by simp [hflag])] at h
  simp only [Option.some.injEq] at h
  rw [← h]

theorem parseInv64_ust_zero (t : Target) (flag : Nat)
    (hflag : flag &&& (NT_GLOBAL_FLAG_UST ||| NT_GLOBAL_FLAG_HPA) = 0) :
    ParseInv64 t flag (fun r => r.ustAddress = 0) := by
  intro address entry r h
  unfold ParseHeapRecord64 at h
  simp only [] at h
  rw [if_neg (by simp [hflag])] at h
  simp only [Option.some.injEq] at h
  rw [← h]

theorem vallocInv32_ust_zero (flag : Nat) (hust : flag &&& NT_GLOBAL_FLAG_UST = 0) :
    VallocInv32 flag (fun r => r.ustAddress = 0) := by
  intro ust size address extra _
  exact ⟨fun h => absurd hust h, fun _ => rfl⟩

theorem vallocInv64_ust_zero (flag : Nat) (hust : flag &&& NT_GLOBAL_FLAG_UST = 0) :
    VallocInv64 flag (fun r => r.ustAddress = 0) := by
  intro ust size address extra _
  exact ⟨fun h => absurd hust h, fun _ => rfl⟩

/-- C10: when neither the UST bit nor the HPA bit of `ntGlobalFlag` is set,
every record that `AnalyzeHeap32` or `AnalyzeHeap64` passes to `Register`
(backend, LFH and VirtualAlloc records alike) has `ustAddress` 0. -/
theorem C10_no_flag_no_stack_trace (fuel : Nat) (t : Target) (heapAddress : Nat)
    (params : CommonParams) (hust : params.ntGlobalFlag &&& NT_GLOBAL_FLAG_UST = 0)
    (hhpa : params.ntGlobalFlag &&& NT_GLOBAL_FLAG_HPA = 0) :
    (∀ r ∈ registeredRecords (AnalyzeHeap32 fuel t heapAddress params).trace, r.ustAddress = 0) ∧
    (∀ r ∈ registeredRecords (AnalyzeHeap64 fuel t heapAddress params).trace,
      r.ustAddress = 0) := by
  have hflag : params.ntGlobalFlag &&& (NT_GLOBAL_FLAG_UST ||| NT_GLOBAL_FLAG_HPA) = 0 := by
    rw [Nat.and_or_distrib_left, hust, hhpa]; rfl
  exact ⟨AnalyzeHeap32_all t params _ (parseInv32_ust_zero t _ hflag)
      (vallocInv32_ust_zero _ hust) fuel heapAddress,
    AnalyzeHeap64_all t params _ (parseInv64_ust_zero t _ hflag)
      (vallocInv64_ust_zero _ hust) fuel heapAddress⟩

/-- C10, witness: the overlap scenario, walked with neither flag set, registers
three records, a backend record and two LFH records, all with `ustAddress`
0. -/
theorem C10_no_flag_no_stack_trace_witness :
    (registeredRecords (AnalyzeHeap32 10 overlapTarget 0x10000 (testParams 0)).trace).length = 3 ∧
    (∀ r ∈ registeredRecords (AnalyzeHeap32 10 overlapTarget 0x10000 (testParams 0)).trace,
      r.ustAddress = 0) :=
  ⟨by rw [overlapTarget_walk]; rfl,
    (C10_no_flag_no_stack_trace 10 overlapTarget 0x10000 (testParams 0) (by decide)
      (by decide)).1⟩

/-! ## C11 and C12: the scan and the uncommitted pages -/

theorem ParseHeapRecord32_size {t : Target} {address : Nat} {entry : HeapEntry} {flag : Nat}
    {r : HeapRecord} (h : ParseHeapRecord32 t address entry flag = some r) :
    r.size = u32 (entry.Size * 8) := by
  unfold ParseHeapRecord32 at h
  simp only [] at h
  repeat' split at h
  all_goals first
    | (simp at h; done)
    | (simp only [Option.some.injEq] at h; rw [← h])

theorem ParseHeapRecord64_size {t : Target} {address : Nat} {entry : Heap64Entry} {flag : Nat}
    {r : HeapRecord} (h : ParseHeapRecord64 t address entry flag = some r) :
    r.size = u32 (entry.Size * 16) := by
  unfold ParseHeapRecord64 at h
  simp only [] at h
  repeat' split at h
  all_goals first
    | (simp at h; done)
    | (simp only [Option.some.injEq] at h; rw [← h])

/-- When the scan goes on from the entry at `address`, the end of the entry
(the next address) is below the value computed for the end of the committed
pages, and so is the end of the record to register, if any. -/
theorem entryStep32_committed {t : Target} {params : CommonParams} {encoding : List Nat}
    {segment : HeapSegment} {address next : Nat} {record : Option HeapRecord}
    (h : entryStep32 t params encoding segment address = EntryStep.advance record next) :
    next < committedEnd32 t segment ∧
    ∀ r, record = some r → r.address = address ∧ r.size < 2 ^ 32 ∧
      u64 (r.address + r.size) < committedEnd32 t segment := by
  unfold entryStep32 at h
  simp only [] at h
  repeat' split at h
  all_goals first
    | (simp at h; done)
    | (simp only [EntryStep.advance.injEq] at h
       obtain ⟨h1, h2⟩ := h
       have hlt : next < committedEnd32 t segment := by
         rw [← h2]; unfold committedEnd32; exact Nat.lt_of_not_ge (by assumption)
       refine ⟨hlt, ?_⟩
       intro r hr
       first
         | (rw [← h1] at hr
            have ha := ParseHeapRecord32_address hr
            have hs := ParseHeapRecord32_size hr
            refine ⟨ha, by rw [hs]; exact u32_lt _, ?_⟩
            rw [ha, hs, h2]; exact hlt)
         | (rw [← h1] at hr; simp at hr))

theorem entryStep64_committed {t : Target} {params : CommonParams} {encoding : List Nat}
    {segment : Heap64Segment} {address next : Nat} {record : Option HeapRecord}
    (h : entryStep64 t params encoding segment address = EntryStep.advance record next) :
    next < committedEnd64 t segment ∧
    ∀ r, record = some r → r.address = address ∧ r.size < 2 ^ 32 ∧
      u64 (r.address + r.size) < committedEnd64 t segment := by
  unfold entryStep64 at h
  simp only [] at h
  repeat' split at h
  all_goals first
    | (simp at h; done)
    | (simp only [EntryStep.advance.injEq] at h
       obtain ⟨h1, h2⟩ := h
       have hlt : next < committedEnd64 t segment := by
         rw [← h2]; unfold committedEnd64; exact Nat.lt_of_not_ge (by assumption)
       refine ⟨hlt, ?_⟩
       intro r hr
       first
         | (rw [← h1] at hr
            have ha := ParseHeapRecord64_address hr
            have hs := ParseHeapRecord64_size hr
            refine ⟨ha, by rw [hs]; exact u32_lt _, ?_⟩
            rw [ha, hs, h2]; exact hlt)
         | (rw [← h1] at hr; simp at hr))

/-- Every header read of the scan is below `last`. -/
theorem scanReads_lt_last (step : Nat → EntryStep) (last : Nat) :
    ∀ (fuel address : Nat), ∀ a ∈ scanReads step last fuel address, a < last := by
  intro fuel
  induction fuel with
  | zero => intro address a ha; simp [scanReads] at ha
  | succ fuel ih =>
    intro address a ha
    unfold scanReads at ha
    split at ha
    · rename_i hlt
      rcases List.mem_cons.1 ha with rfl | ha
      · exact hlt
      · split at ha
        · simp at ha
        · exact ih _ a ha
    · simp at ha

/-- If the scan never goes on to an address that is not below `lim`, every
header read of a scan that starts below `lim` is below `lim`. -/
theorem scanReads_lt_of_lt (step : Nat → EntryStep) (last lim : Nat)
    (hstep : ∀ address next record, step address = EntryStep.advance record next → next < lim) :
    ∀ (fuel address : Nat), address < lim →
      ∀ a ∈ scanReads step last fuel address, a < lim := by
  intro fuel
  induction fuel with
  | zero => intro address _ a ha; simp [scanReads] at ha
  | succ fuel ih =>
    intro address hlim a ha
    unfold scanReads at ha
    split at ha
    · rcases List.mem_cons.1 ha with rfl | ha
      · exact hlim
      · split at ha
        · simp at ha
        · rename_i record next hst
          exact ih next (hstep _ _ _ hst) a ha
    · simp at ha

/-- If the scan never goes on to an address that is not below `lim`, every
header read after the first is below `lim`. -/
theorem scanReads_tail_lt (step : Nat → EntryStep) (last lim : Nat)
    (hstep : ∀ address next record, step address = EntryStep.advance record next → next < lim)
    (fuel address : Nat) :
    ∀ a ∈ (scanReads step last fuel address).tail, a < lim := by
  intro a ha
  cases fuel with
  | zero => simp [scanReads] at ha
  | succ fuel =>
    unfold scanReads at ha
    split at ha
    · simp only [List.tail_cons] at ha
      split at ha
      · simp at ha
      · rename_i record next hst
        exact scanReads_lt_of_lt step last lim hstep fuel next (hstep _ _ _ hst) a ha
    · simp at ha

/-- The first header read is at the address where the scan starts, whenever
that address is below `last`. -/
theorem scanReads_head (step : Nat → EntryStep) (last fuel address : Nat)
    (h : address < last) : (scanReads step last (fuel + 1) address).head? = some address := by
  unfold scanReads
  rw [if_pos h]
  rfl

/-- The header reads are reads of the scan: when the body of the loop stops at
one of these addresses, the scan ends there, with the status of the stop. -/
theorem scanLoop_status_of_read (step : Nat → EntryStep) (last a : Nat) (status : Status)
    (hstop : step a = EntryStep.stop status) :
    ∀ (fuel address : Nat) (lfh : List HeapRecord), a ∈ scanReads step last fuel address →
      (scanLoop step last fuel address lfh).status = status := by
  intro fuel
  induction fuel with
  | zero => intro address lfh ha; simp [scanReads] at ha
  | succ fuel ih =>
    intro address lfh ha
    unfold scanReads at ha
    unfold scanLoop
    split at ha
    · rename_i hlt
      rw [if_pos hlt]
      rcases List.mem_cons.1 ha with rfl | ha
      · rw [hstop]
      · split at ha
        · simp at ha
        · rename_i record next hst
          rw [hst]
          cases record with
          | none => exact ih next lfh ha
          | some r => exact ih next _ ha
    · simp at ha

theorem entryStep32_unreadable {t : Target} (params : CommonParams) (encoding : List Nat)
    (segment : HeapSegment) {address : Nat} (h : readBytes t address 8 = none) :
    entryStep32 t params encoding segment address =
      EntryStep.stop (Status.readEntryFailed address) := by
  unfold entryStep32
  rw [h]

theorem entryStep64_unreadable {t : Target} (params : CommonParams) (encoding : List Nat)
    (segment : Heap64Segment) {address : Nat} (h : readBytes t address 16 = none) :
    entryStep64 t params encoding segment address =
      EntryStep.stop (Status.readEntryFailed address) := by
  unfold entryStep64
  rw [h]

theorem committedEnd32_exact (t : Target) (segment : HeapSegment)
    (hlast : segment.LastValidEntry < 2 ^ 32)
    (hle : segment.NumberOfUnCommittedPages * t.PAGE_SIZE ≤ segment.LastValidEntry) :
    (committedEnd32 t segment : Int) =
      (segment.LastValidEntry : Int) - (segment.NumberOfUnCommittedPages : Int) * (t.PAGE_SIZE : Int) := by
  have h : committedEnd32 t segment =
      segment.LastValidEntry - segment.NumberOfUnCommittedPages * t.PAGE_SIZE := by
    unfold committedEnd32 sub32 u32
    generalize segment.NumberOfUnCommittedPages * t.PAGE_SIZE = p at hle ⊢
    omega
  rw [h]
  push_cast [Nat.cast_sub hle]
  ring

theorem committedEnd64_exact (t : Target) (segment : Heap64Segment)
    (hlast : segment.LastValidEntry < 2 ^ 64)
    (hp : segment.NumberOfUnCommittedPages * t.PAGE_SIZE < 2 ^ 32)
    (hle : segment.NumberOfUnCommittedPages * t.PAGE_SIZE ≤ segment.LastValidEntry) :
    (committedEnd64 t segment : Int) =
      (segment.LastValidEntry : Int) - (segment.NumberOfUnCommittedPages : Int) * (t.PAGE_SIZE : Int) := by
  have h : committedEnd64 t segment =
      segment.LastValidEntry - segment.NumberOfUnCommittedPages * t.PAGE_SIZE := by
    unfold committedEnd64 sub64 u64 u32
    generalize segment.NumberOfUnCommittedPages * t.PAGE_SIZE = p at hle hp ⊢
    omega
  rw [h]
  push_cast [Nat.cast_sub hle]
  ring

theorem backendRecords_all (step : Nat → EntryStep) (last : Nat) (P : Nat → HeapRecord → Prop)
    (hstep : ∀ address next r, address < last →
      step address = EntryStep.advance (some r) next → P address r) :
    ∀ (fuel address : Nat), ∀ r ∈ (backendRecords step last fuel address).2,
      ∃ a, a < last ∧ P a r := by
  intro fuel
  induction fuel with
  | zero => intro address r hr; simp [backendRecords] at hr
  | succ fuel ih =>
    intro address r hr
    unfold backendRecords at hr
    split at hr
    · rename_i hlt
      split at hr
      · simp at hr
      · exact ih _ r hr
      · rename_i record next hst
        rcases List.mem_cons.1 hr with rfl | hr
        · exact ⟨address, hlt, hstep _ _ _ hlt hst⟩
        · exact ih _ r hr
    · simp at hr

/-! ## C11 -/

set_option maxRecDepth 100000 in
/-- C11, as the claim states it, fails: the segment of `lateTarget` runs from
0x2800 to 0x3000 with one uncommitted page, so that `LastValidEntry -
NumberOfUnCommittedPages * PAGE_SIZE` is 0x2000; the scan reads the header at
`FirstEntry = 0x2800`, past that bound, and the walk of the heap fails on the
checksum of the header it has read there. -/
theorem C11_counterexample :
    readBytes lateTarget 0x10000 64 = some (segmentBytes 0x100a8 0x2800 0x3000 1) ∧
    HeapSegment.ofBytes (segmentBytes 0x100a8 0x2800 0x3000 1) = ⟨0x100a8, 0x2800, 0x3000, 1⟩ ∧
    scanReads32 lateTarget (testParams 0) testKey ⟨0x100a8, 0x2800, 0x3000, 1⟩ 10 0x2800 =
      [0x2800] ∧
    (0x3000 : Int) - 1 * (lateTarget.PAGE_SIZE : Int) ≤ 0x2800 ∧
    AnalyzeHeap32 10 lateTarget 0x10000 (testParams 0) =
      ⟨Status.decodeFailed 0x2800, [Call.StartSegment 0x10000 0x3000]⟩ :=
  ⟨by rfl, by rfl, by rfl, by decide, by rfl⟩

/-- C11, amended: during the scan of a segment every heap-entry header is read
at an address below `LastValidEntry`, and every header after the first is read
at an address below the value that the code computes for `LastValidEntry -
NumberOfUnCommittedPages * PAGE_SIZE` (`committedEnd32`, `committedEnd64`),
which is the exact difference when the subtraction does not wrap.  The first
header is read at the address where the scan starts whenever that address is
below `LastValidEntry`, without a comparison with the bound.  The addresses
are those of reads: when the header cannot be read at one of them the scan
ends with the diagnostic of the failed read. -/
theorem C11_reads_after_the_first_are_committed :
    (∀ (t : Target) (params : CommonParams) (encoding : List Nat) (segment : HeapSegment)
        (fuel address : Nat),
      (∀ a ∈ scanReads32 t params encoding segment fuel address, a < segment.LastValidEntry) ∧
      (∀ a ∈ (scanReads32 t params encoding segment fuel address).tail,
        a < committedEnd32 t segment) ∧
      (address < segment.LastValidEntry →
        (scanReads32 t params encoding segment (fuel + 1) address).head? = some address) ∧
      (∀ a ∈ scanReads32 t params encoding segment fuel address, readBytes t a 8 = none →
        ∀ lfh, (scan32 t params encoding segment fuel address lfh).status =
          Status.readEntryFailed a) ∧
      (segment.LastValidEntry < 2 ^ 32 →
        segment.NumberOfUnCommittedPages * t.PAGE_SIZE ≤ segment.LastValidEntry →
        (committedEnd32 t segment : Int) =
          (segment.LastValidEntry : Int) -
            (segment.NumberOfUnCommittedPages : Int) * (t.PAGE_SIZE : Int))) ∧
    (∀ (t : Target) (params : CommonParams) (encoding : List Nat) (segment : Heap64Segment)
        (fuel address : Nat),
      (∀ a ∈ scanReads64 t params encoding segment fuel address, a < segment.LastValidEntry) ∧
      (∀ a ∈ (scanReads64 t params encoding segment fuel address).tail,
        a < committedEnd64 t segment) ∧
      (address < segment.LastValidEntry →
        (scanReads64 t params encoding segment (fuel + 1) address).head? = some address) ∧
      (∀ a ∈ scanReads64 t params encoding segment fuel address, readBytes t a 16 = none →
        ∀ lfh, (scan64 t params encoding segment fuel address lfh).status =
          Status.readEntryFailed a) ∧
      (segment.LastValidEntry < 2 ^ 64 →
        segment.NumberOfUnCommittedPages * t.PAGE_SIZE < 2 ^ 32 →
        segment.NumberOfUnCommittedPages * t.PAGE_SIZE ≤ segment.LastValidEntry →
        (committedEnd64 t segment : Int) =
          (segment.LastValidEntry : Int) -
            (segment.NumberOfUnCommittedPages : Int) * (t.PAGE_SIZE : Int))) := by
  constructor
  · intro t params encoding segment fuel address
    exact ⟨scanReads_lt_last _ _ fuel address,
      scanReads_tail_lt _ _ _ (fun a n r h => (entryStep32_committed h).1) fuel address,
      scanReads_head _ _ fuel address,
      fun a ha hr lfh => scanLoop_status_of_read _ _ a _
        (entryStep32_unreadable params encoding segment hr) fuel address lfh ha,
      committedEnd32_exact t segment⟩
  · intro t params encoding segment fuel address
    exact ⟨scanReads_lt_last _ _ fuel address,
      scanReads_tail_lt _ _ _ (fun a n r h => (entryStep64_committed h).1) fuel address,
      scanReads_head _ _ fuel address,
      fun a ha hr lfh => scanLoop_status_of_read _ _ a _
        (entryStep64_unreadable params encoding segment hr) fuel address lfh ha,
      committedEnd64_exact t segment⟩

set_option maxRecDepth 100000 in
/-- C11, witness: the scan of the segment of `wrapTarget`, whose header tells
more uncommitted pages than it has, reads the headers at 0x1000, 0x1080 and
0x2000; all are below `LastValidEntry = 0x3000`, and those after the first are
below the computed bound 0xfffff000. -/
theorem C11_reads_after_the_first_are_committed_witness :
    scanReads32 wrapTarget (testParams 0) testKey ⟨0x100a8, 0x1000, 0x3000, 4⟩ 10 0x1000 =
      [0x1000, 0x1080, 0x2000] ∧
    committedEnd32 wrapTarget ⟨0x100a8, 0x1000, 0x3000, 4⟩ = 0xfffff000 ∧
    (∀ a ∈ scanReads32 wrapTarget (testParams 0) testKey ⟨0x100a8, 0x1000, 0x3000, 4⟩ 10 0x1000,
      a < 0x3000) ∧
    (∀ a ∈ (scanReads32 wrapTarget (testParams 0) testKey
        ⟨0x100a8, 0x1000, 0x3000, 4⟩ 10 0x1000).tail,
      a < committedEnd32 wrapTarget ⟨0x100a8, 0x1000, 0x3000, 4⟩) :=
  ⟨by rfl, by rfl,
    (C11_reads_after_the_first_are_committed.1 wrapTarget (testParams 0) testKey
      ⟨0x100a8, 0x1000, 0x3000, 4⟩ 10 0x1000).1,
    (C11_reads_after_the_first_are_committed.1 wrapTarget (testParams 0) testKey
      ⟨0x100a8, 0x1000, 0x3000, 4⟩ 10 0x1000).2.1⟩

/-! ## C12 -/

set_option maxRecDepth 100000 in
/-- C12, as the claim states it, fails: the header of the segment of
`wrapTarget` tells 4 uncommitted pages of 0x1000 bytes and `LastValidEntry =
0x3000`, so that the exact difference is negative while the code computes
0xfffff000; the busy entry at 0x1000 (0x80 bytes) is registered. -/
theorem C12_counterexample :
    readBytes wrapTarget 0x10000 64 = some (segmentBytes 0x100a8 0x1000 0x3000 4) ∧
    HeapSegment.ofBytes (segmentBytes 0x100a8 0x1000 0x3000 4) = ⟨0x100a8, 0x1000, 0x3000, 4⟩ ∧
    backendRecords32 wrapTarget (testParams 0) testKey ⟨0x100a8, 0x1000, 0x3000, 4⟩ 10 0x1000 =
      (Status.ok, [⟨0, 128, 0x1000, 120, 0x1008⟩]) ∧
    AnalyzeHeap32 10 wrapTarget 0x10000 (testParams 0) =
      ⟨Status.ok,
        [Call.StartSegment 0x10000 0x3000,
         Call.Register ⟨0, 128, 0x1000, 120, 0x1008⟩,
         Call.FinishSegment 0x10000 0x3000]⟩ ∧
    ¬ ((0x1000 : Int) + 128 < 0x3000 - 4 * (wrapTarget.PAGE_SIZE : Int)) :=
  ⟨by rfl, by rfl, by rfl, by rfl, by decide⟩

/-- C12, amended: every backend record `R` of the scan of a segment ends
below the value that the code computes for `LastValidEntry -
NumberOfUnCommittedPages * PAGE_SIZE`: on a 32-bit target `R.address + R.size
< committedEnd32`, on a 64-bit target `(R.address + R.size) mod 2^64 <
committedEnd64`.  The bound is the exact difference when the subtraction does
not wrap, and then the exact inequality holds (on a 64-bit target, when
`R.address + R.size` does not wrap either). -/
theorem C12_backend_record_ends_before_committed_end :
    (∀ (t : Target) (params : CommonParams) (encoding : List Nat) (segment : HeapSegment)
        (fuel address : Nat), segment.LastValidEntry < 2 ^ 32 →
      ∀ r ∈ (backendRecords32 t params encoding segment fuel address).2,
        r.address + r.size < committedEnd32 t segment ∧
        (segment.NumberOfUnCommittedPages * t.PAGE_SIZE ≤ segment.LastValidEntry →
          ((r.address : Int) + (r.size : Int) <
            (segment.LastValidEntry : Int) -
              (segment.NumberOfUnCommittedPages : Int) * (t.PAGE_SIZE : Int)))) ∧
    (∀ (t : Target) (params : CommonParams) (encoding : List Nat) (segment : Heap64Segment)
        (fuel address : Nat),
      ∀ r ∈ (backendRecords64 t params encoding segment fuel address).2,
        u64 (r.address + r.size) < committedEnd64 t segment ∧
        (segment.LastValidEntry < 2 ^ 64 →
          segment.NumberOfUnCommittedPages * t.PAGE_SIZE < 2 ^ 32 →
          segment.NumberOfUnCommittedPages * t.PAGE_SIZE ≤ segment.LastValidEntry →
          r.address + r.size < 2 ^ 64 →
          ((r.address : Int) + (r.size : Int) <
            (segment.LastValidEntry : Int) -
              (segment.NumberOfUnCommittedPages : Int) * (t.PAGE_SIZE : Int)))) := by
  constructor
  · intro t params encoding segment fuel address hlast r hr
    obtain ⟨a, ha, h1, h2, h3⟩ := backendRecords_all _ _
      (fun a r => r.address = a ∧ r.size < 2 ^ 32 ∧
        u64 (r.address + r.size) < committedEnd32 t segment)
      (fun a n r _ h => (entryStep32_committed h).2 r rfl) fuel address r hr
    have h4 : u64 (r.address + r.size) = r.address + r.size :=
      u64_eq_self (by rw [h1]; omega)
    rw [h4] at h3
    refine ⟨h3, fun hle => ?_⟩
    rw [← committedEnd32_exact t segment hlast hle]
    exact_mod_cast h3
  · intro t params encoding segment fuel address r hr
    obtain ⟨a, ha, h1, h2, h3⟩ := backendRecords_all _ _
      (fun a r => r.address = a ∧ r.size < 2 ^ 32 ∧
        u64 (r.address + r.size) < committedEnd64 t segment)
      (fun a n r _ h => (entryStep64_committed h).2 r rfl) fuel address r hr
    refine ⟨h3, fun hlast hp hle hsum => ?_⟩
    rw [u64_eq_self hsum] at h3
    rw [← committedEnd64_exact t segment hlast hp hle]
    exact_mod_cast h3

set_option maxRecDepth 100000 in
/-- C12, witness: the busy entry at 0x1000 of the overlap scenario (0x80
bytes) ends below 0x2000, the end of the committed pages of its segment. -/
theorem C12_backend_record_ends_before_committed_end_witness :
    backendRecords32 overlapTarget (testParams 0) testKey ⟨0x100a8, 0x1000, 0x3000, 1⟩ 10 0x1000 =
      (Status.ok, [⟨0, 128, 0x1000, 120, 0x1008⟩]) ∧
    committedEnd32 overlapTarget ⟨0x100a8, 0x1000, 0x3000, 1⟩ = 0x2000 ∧
    (∀ r ∈ (backendRecords32 overlapTarget (testParams 0) testKey
        ⟨0x100a8, 0x1000, 0x3000, 1⟩ 10 0x1000).2,
      r.address + r.size < committedEnd32 overlapTarget ⟨0x100a8, 0x1000, 0x3000, 1⟩ ∧
      (r.address : Int) + (r.size : Int) < (0x3000 : Int) - 1 * (0x1000 : Int)) :=
  ⟨by rfl, by rfl, fun r hr =>
    ⟨((C12_backend_record_ends_before_committed_end.1 overlapTarget (testParams 0) testKey
        ⟨0x100a8, 0x1000, 0x3000, 1⟩ 10 0x1000 (by decide) r hr).1),
      by
        have h := ((C12_backend_record_ends_before_committed_end.1 overlapTarget (testParams 0)
          testKey ⟨0x100a8, 0x1000, 0x3000, 1⟩ 10 0x1000 (by decide) r hr).2) (by decide)
        simpa [overlapTarget, testTarget] using h⟩⟩

/-! ## The trace of a segment loop that ends well -/

theorem or_eq_zero_left {a b : Nat} (h : a ||| b = 0) : a = 0 := by
  apply Nat.eq_of_testBit_eq
  intro i
  have := congrArg (fun x => Nat.testBit x i) h
  simp only [Nat.testBit_or, Nat.zero_testBit, Bool.or_eq_false_iff] at this
  simp [this.1]

theorem or_eq_zero_right {a b : Nat} (h : a ||| b = 0) : b = 0 := by
  apply Nat.eq_of_testBit_eq
  intro i
  have := congrArg (fun x => Nat.testBit x i) h
  simp only [Nat.testBit_or, Nat.zero_testBit, Bool.or_eq_false_iff] at this
  simp [this.2]

theorem flags_of_ust {flag : Nat} (h : flag &&& NT_GLOBAL_FLAG_UST ≠ 0) :
    flag &&& (NT_GLOBAL_FLAG_UST ||| NT_GLOBAL_FLAG_HPA) ≠ 0 := by
  intro h0
  rw [Nat.and_or_distrib_left] at h0
  exact h (or_eq_zero_left h0)

theorem flags_of_hpa {flag : Nat} (h : flag &&& NT_GLOBAL_FLAG_HPA ≠ 0) :
    flag &&& (NT_GLOBAL_FLAG_UST ||| NT_GLOBAL_FLAG_HPA) ≠ 0 := by
  intro h0
  rw [Nat.and_or_distrib_left] at h0
  exact h (or_eq_zero_right h0)

/-- `ParseHeapRecord32` with neither flag set. -/
theorem ParseHeapRecord32_neither (t : Target) (address flag : Nat) (entry : HeapEntry)
    (h : flag &&& (NT_GLOBAL_FLAG_UST ||| NT_GLOBAL_FLAG_HPA) = 0) :
    ParseHeapRecord32 t address entry flag =
      some ⟨0, u32 (entry.Size * 8), address,
        sub32 (entry.Size * 8) entry.ExtendedBlockSignature, u64 (address + 8)⟩ := by
  unfold ParseHeapRecord32
  simp only []
  rw [if_neg (not_not.2 h)]

/-- `ParseHeapRecord64` with neither flag set. -/
theorem ParseHeapRecord64_neither (t : Target) (address flag : Nat) (entry : Heap64Entry)
    (h : flag &&& (NT_GLOBAL_FLAG_UST ||| NT_GLOBAL_FLAG_HPA) = 0) :
    ParseHeapRecord64 t address entry flag =
      some ⟨0, u32 (entry.Size * 16), address,
        sub32 (entry.Size * 16) entry.ExtendedBlockSignature, u64 (address + 16)⟩ := by
  unfold ParseHeapRecord64
  simp only []
  rw [if_neg (not_not.2 h)]

/-- `ParseHeapRecord32` with UST set and HPA clear, when its two reads
succeed. -/
theorem ParseHeapRecord32_ust (t : Target) (address flag : Nat) (entry : HeapEntry)
    (ust extra : Nat) (hust : flag &&& NT_GLOBAL_FLAG_UST ≠ 0)
    (hhpa : flag &&& NT_GLOBAL_FLAG_HPA = 0)
    (h1 : READMEMORY t (address + 8) 4 = some ust)
    (h2 : READMEMORY t (address + 8 + 0xc) 2 = some extra) :
    ParseHeapRecord32 t address entry flag =
      if u32 (entry.Size * 8) ≥ extra then
        some ⟨ust, u32 (entry.Size * 8), address, sub32 (entry.Size * 8) extra,
          u64 (address + 8 + 0x10)⟩
      else none := by
  unfold ParseHeapRecord32
  simp only []
  rw [if_pos (flags_of_ust hust), if_neg (not_not.2 hhpa), Nat.add_zero, h1]
  simp only []
  rw [if_neg (not_not.2 hhpa), h2]

/-- `ParseHeapRecord64` with UST set and HPA clear, when its two reads
succeed. -/
theorem ParseHeapRecord64_ust (t : Target) (address flag : Nat) (entry : Heap64Entry)
    (ust extra : Nat) (hust : flag &&& NT_GLOBAL_FLAG_UST ≠ 0)
    (hhpa : flag &&& NT_GLOBAL_FLAG_HPA = 0)
    (h1 : READMEMORY t (address + 16) 8 = some ust)
    (h2 : READMEMORY t (address + 16 + 0x1c) 2 = some extra) :
    ParseHeapRecord64 t address entry flag =
      if u32 (entry.Size * 16) ≥ extra then
        some ⟨ust, u32 (entry.Size * 16), address, sub32 (entry.Size * 16) extra,
          u64 (address + 16 + 0x20)⟩
      else none := by
  unfold ParseHeapRecord64
  simp only []
  rw [if_pos (flags_of_ust hust), if_neg (not_not.2 hhpa), Nat.add_zero, h1]
  simp only []
  rw [if_neg (not_not.2 hhpa), h2]

/-- `ParseHeapRecord32` with HPA set: the flag UST is not looked at. -/
theorem ParseHeapRecord32_hpa (t : Target) (address flag : Nat) (entry : HeapEntry)
    (hhpa : flag &&& NT_GLOBAL_FLAG_HPA ≠ 0) :
    ParseHeapRecord32 t address entry flag =
      match READMEMORY t (address + 8 + 0x18) 4 with
      | none => none
      | some ustAddress =>
        match READMEMORY t (address + 8 + 0x8) 2 with
        | some userSize_ =>
          if u32 (entry.Size * 8) > userSize_ then
            some ⟨ustAddress, u32 (entry.Size * 8), address, userSize_,
              u64 (address + 8 + 0x20)⟩
          else none
        | none => none := by
  unfold ParseHeapRecord32
  simp only []
  rw [if_pos (flags_of_hpa hhpa), if_pos hhpa]
  cases READMEMORY t (address + 8 + 0x18) 4 with
  | none => rfl
  | some ustAddress =>
    simp only []
    exact (if_pos hhpa).trans (by cases READMEMORY t (address + 8 + 0x8) 2 <;> rfl)

/-- `ParseHeapRecord64` with HPA set: the flag UST is not looked at. -/
theorem ParseHeapRecord64_hpa (t : Target) (address flag : Nat) (entry : Heap64Entry)
    (hhpa : flag &&& NT_GLOBAL_FLAG_HPA ≠ 0) :
    ParseHeapRecord64 t address entry flag =
      match READMEMORY t (address + 16 + 0x30) 8 with
      | none => none
      | some ustAddress =>
        match READMEMORY t (address + 16 + 0x10) 2 with
        | some userSize_ =>
          if u32 (entry.Size * 16) > userSize_ then
            some ⟨ustAddress, u32 (entry.Size * 16), address, userSize_,
              u64 (address + 16 + 0x40)⟩
          else none
        | none => none := by
  unfold ParseHeapRecord64
  simp only []
  rw [if_pos (flags_of_hpa hhpa), if_pos hhpa]
  cases READMEMORY t (address + 16 + 0x30) 8 with
  | none => rfl
  | some ustAddress =>
    simp only []
    exact (if_pos hhpa).trans (by cases READMEMORY t (address + 16 + 0x10) 2 <;> rfl)

theorem u32_size_mul {size unit : Nat} (hs : size < 2 ^ 16) (hu : unit ≤ 16) :
    u32 (size * unit) = size * unit := by
  apply u32_eq_self
  have : size * unit ≤ size * 16 := Nat.mul_le_mul_left _ hu
  omega

theorem sub32_of_le {a b : Nat} (ha : a < 2 ^ 32) (h : b ≤ a) : sub32 a b = a - b := by
  unfold sub32 u32
  omega

theorem sub32_of_lt {a b : Nat} (hb : b < 2 ^ 32) (h : a < b) : sub32 a b = 2 ^ 32 + a - b := by
  unfold sub32 u32
  omega

/-! ## C17 -/

set_option maxRecDepth 100000 in
/-- C17, as the claim states it, fails: for a block of 64 bytes (`Size` 8 on a
32-bit target, `Size` 4 on a 64-bit target) whose `ExtendedBlockSignature` is
0x88 the user size is 4294967224, which is `64 - 0x88` modulo 2^32 and not the
exact difference -72; the LFH walk of the overlap scenario collects such
records. -/
theorem C17_counterexample :
    ParseHeapRecord32 overlapTarget 0x1200 ⟨8, 0, 0, 0, 0, 0x88⟩ 0 =
      some ⟨0, 64, 0x1200, 4294967224, 0x1208⟩ ∧
    ParseHeapRecord64 overlapTarget 0x1200 ⟨0, 4, 0, 0, 0, 0, 0x88⟩ 0 =
      some ⟨0, 64, 0x1200, 4294967224, 0x1210⟩ ∧
    (4294967224 : Int) ≠ 8 * 8 - 0x88 ∧
    AnalyzeLFH32 10 overlapTarget 0x10000 (testParams 0) [] =
      some (true, [⟨0, 64, 0x1200, 4294967224, 0x1208⟩, ⟨0, 64, 0x1240, 4294967224, 0x1248⟩]) :=
  ⟨by rfl, by rfl, by decide, by rfl⟩

/-- C17, amended: with neither UST nor HPA set, `ParseHeapRecord32` (U = 8,
header 8 bytes) and `ParseHeapRecord64` (U = 16, header 16 bytes) succeed
whatever the memory of the target holds, with `ustAddress = 0`, `size =
Size*U`, `address` the address of the block, `userAddress = address +` the
size of the header, and `userSize = Size*U - ExtendedBlockSignature` computed
in 32-bit unsigned arithmetic: the exact difference when
`ExtendedBlockSignature ≤ Size*U`, and `2^32 + Size*U -
ExtendedBlockSignature` otherwise. -/
theorem C17_no_flag_record :
    (∀ (t : Target) (address flag : Nat) (entry : HeapEntry),
      flag &&& (NT_GLOBAL_FLAG_UST ||| NT_GLOBAL_FLAG_HPA) = 0 →
      entry.Size < 2 ^ 16 → entry.ExtendedBlockSignature < 2 ^ 8 → address + 8 < 2 ^ 64 →
      ParseHeapRecord32 t address entry flag =
        some ⟨0, entry.Size * 8, address,
          if entry.ExtendedBlockSignature ≤ entry.Size * 8 then
            entry.Size * 8 - entry.ExtendedBlockSignature
          else 2 ^ 32 + entry.Size * 8 - entry.ExtendedBlockSignature,
          address + 8⟩) ∧
    (∀ (t : Target) (address flag : Nat) (entry : Heap64Entry),
      flag &&& (NT_GLOBAL_FLAG_UST ||| NT_GLOBAL_FLAG_HPA) = 0 →
      entry.Size < 2 ^ 16 → entry.ExtendedBlockSignature < 2 ^ 8 → address + 16 < 2 ^ 64 →
      ParseHeapRecord64 t address entry flag =
        some ⟨0, entry.Size * 16, address,
          if entry.ExtendedBlockSignature ≤ entry.Size * 16 then
            entry.Size * 16 - entry.ExtendedBlockSignature
          else 2 ^ 32 + entry.Size * 16 - entry.ExtendedBlockSignature,
          address + 16⟩) := by
  constructor
  · intro t address flag entry hflag hsize hsig haddr
    rw [ParseHeapRecord32_neither t address flag entry hflag,
      u32_size_mul hsize (by decide), u64_eq_self haddr]
    have hlt : entry.Size * 8 < 2 ^ 32 := by omega
    by_cases hle : entry.ExtendedBlockSignature ≤ entry.Size * 8
    · rw [if_pos hle, sub32_of_le hlt hle]
    · rw [if_neg hle, sub32_of_lt (by omega) (by omega)]
  · intro t address flag entry hflag hsize hsig haddr
    rw [ParseHeapRecord64_neither t address flag entry hflag,
      u32_size_mul hsize (by decide), u64_eq_self haddr]
    have hlt : entry.Size * 16 < 2 ^ 32 := by omega
    by_cases hle : entry.ExtendedBlockSignature ≤ entry.Size * 16
    · rw [if_pos hle, sub32_of_le hlt hle]
    · rw [if_neg hle, sub32_of_lt (by omega) (by omega)]

/-- C17, witness: the example of the specification, three busy blocks of 32,
48 and 64 bytes on a 32-bit target, here with `ExtendedBlockSignature` 8: the
sizes are 32, 48, 64 and the user sizes 24, 40, 56. -/
theorem C17_no_flag_record_witness :
    ParseHeapRecord32 overlapTarget 0x1000 ⟨4, 1, 0, 0, 0, 8⟩ 0 =
      some ⟨0, 32, 0x1000, 24, 0x1008⟩ ∧
    ParseHeapRecord32 overlapTarget 0x1020 ⟨6, 1, 0, 0, 0, 8⟩ 0 =
      some ⟨0, 48, 0x1020, 40, 0x1028⟩ ∧
    ParseHeapRecord32 overlapTarget 0x1050 ⟨8, 1, 0, 0, 0, 8⟩ 0 =
      some ⟨0, 64, 0x1050, 56, 0x1058⟩ :=
  ⟨C17_no_flag_record.1 overlapTarget 0x1000 0 ⟨4, 1, 0, 0, 0, 8⟩
      (by decide) (by decide) (by decide) (by decide),
    C17_no_flag_record.1 overlapTarget 0x1020 0 ⟨6, 1, 0, 0, 0, 8⟩
      (by decide) (by decide) (by decide) (by decide),
    C17_no_flag_record.1 overlapTarget 0x1050 0 ⟨8, 1, 0, 0, 0, 8⟩
      (by decide) (by decide) (by decide) (by decide)⟩

/-! ## C18 -/

/-- C18: with UST set and HPA clear, when the two reads of the parser succeed,
`ParseHeapRecord32` on a block at `address` fails if and only if `extra >
Size*8`, where `extra` is the 16-bit value at `address + 8 + 0xc`; when it
succeeds the record has `ustAddress` the 32-bit value at `address + 8`,
`size = Size*8`, the address of the block, `userSize = Size*8 - extra` and
`userAddress = address + 8 + 0x10`.  `ParseHeapRecord64` does the same with
unit 16, `ustAddress` the 64-bit value at `address + 16`, `extra` at
`address + 16 + 0x1c` and `userAddress = address + 16 + 0x20`. -/
theorem C18_ust_record :
    (∀ (t : Target) (address flag : Nat) (entry : HeapEntry) (ust extra : Nat),
      flag &&& NT_GLOBAL_FLAG_UST ≠ 0 → flag &&& NT_GLOBAL_FLAG_HPA = 0 →
      entry.Size < 2 ^ 16 → address + 8 + 0x10 < 2 ^ 64 →
      READMEMORY t (address + 8) 4 = some ust →
      READMEMORY t (address + 8 + 0xc) 2 = some extra →
      (ParseHeapRecord32 t address entry flag = none ↔ extra > entry.Size * 8) ∧
      (extra ≤ entry.Size * 8 →
        ParseHeapRecord32 t address entry flag =
          some ⟨ust, entry.Size * 8, address, entry.Size * 8 - extra, address + 8 + 0x10⟩)) ∧
    (∀ (t : Target) (address flag : Nat) (entry : Heap64Entry) (ust extra : Nat),
      flag &&& NT_GLOBAL_FLAG_UST ≠ 0 → flag &&& NT_GLOBAL_FLAG_HPA = 0 →
      entry.Size < 2 ^ 16 → address + 16 + 0x20 < 2 ^ 64 →
      READMEMORY t (address + 16) 8 = some ust →
      READMEMORY t (address + 16 + 0x1c) 2 = some extra →
      (ParseHeapRecord64 t address entry flag = none ↔ extra > entry.Size * 16) ∧
      (extra ≤ entry.Size * 16 →
        ParseHeapRecord64 t address entry flag =
          some ⟨ust, entry.Size * 16, address, entry.Size * 16 - extra,
            address + 16 + 0x20⟩)) := by
  constructor
  · intro t address flag entry ust extra hust hhpa hsize haddr h1 h2
    rw [ParseHeapRecord32_ust t address flag entry ust extra hust hhpa h1 h2,
      u32_size_mul hsize (by decide), u64_eq_self haddr]
    have hlt : entry.Size * 8 < 2 ^ 32 := by omega
    constructor
    · constructor
      · intro h
        by_contra hle
        rw [if_pos (by omega)] at h
        simp at h
      · intro h
        rw [if_neg (by omega)]
    · intro hle
      rw [if_pos hle, sub32_of_le hlt hle]
  · intro t address flag entry ust extra hust hhpa hsize haddr h1 h2
    rw [ParseHeapRecord64_ust t address flag entry ust extra hust hhpa h1 h2,
      u32_size_mul hsize (by decide), u64_eq_self haddr]
    have hlt : entry.Size * 16 < 2 ^ 32 := by omega
    constructor
    · constructor
      · intro h
        by_contra hle
        rw [if_pos (by omega)] at h
        simp at h
      · intro h
        rw [if_neg (by omega)]
    · intro hle
      rw [if_pos hle, sub32_of_le hlt hle]

set_option maxRecDepth 100000 in
/-- C18, witness: in `ustTarget` the block at 0x1080 (0x80 bytes) has stack
trace 0xabcd and `extra` 0, and its record is parsed; the block at 0x1000 has
`extra` 0xffff, more than its 0x80 bytes, and the parser fails. -/
theorem C18_ust_record_witness :
    ParseHeapRecord32 ustTarget 0x1080 (HeapEntry.ofBytes (entryBytes 0x10 1 0))
        NT_GLOBAL_FLAG_UST =
      some ⟨0xabcd, 0x10 * 8, 0x1080, 0x10 * 8 - 0, 0x1080 + 8 + 0x10⟩ ∧
    ParseHeapRecord32 ustTarget 0x1000 (HeapEntry.ofBytes (entryBytes 0x10 1 0))
        NT_GLOBAL_FLAG_UST = none :=
  ⟨(C18_ust_record.1 ustTarget 0x1080 NT_GLOBAL_FLAG_UST
      (HeapEntry.ofBytes (entryBytes 0x10 1 0)) 0xabcd 0
      (by decide) (by decide) (by decide) (by decide) (by rfl) (by rfl)).2 (by decide),
    (C18_ust_record.1 ustTarget 0x1000 NT_GLOBAL_FLAG_UST
      (HeapEntry.ofBytes (entryBytes 0x10 1 0)) 0x1234 0xffff
      (by decide) (by decide) (by decide) (by decide) (by rfl) (by rfl)).1.2 (by decide)⟩

/-! ## C19 -/

/-- C19: with HPA set, when the two reads of the parser succeed,
`ParseHeapRecord32` on a block at `address` fails if and only if `s ≥ Size*8`,
where `s` is the 16-bit value at `address + 8 + 0x8`; when it succeeds the
record has `userSize = s`, `userAddress = address + 8 + 0x20`, `ustAddress` the
32-bit value at `address + 8 + 0x18`, `size = Size*8` and the address of the
block.  `ParseHeapRecord64` does the same with `s` at `address + 16 + 0x10`,
the bound `Size*16`, `userAddress = address + 16 + 0x40` and `ustAddress` the
64-bit value at `address + 16 + 0x30`. -/
theorem C19_hpa_record :
    (∀ (t : Target) (address flag : Nat) (entry : HeapEntry) (ust s : Nat),
      flag &&& NT_GLOBAL_FLAG_HPA ≠ 0 →
      entry.Size < 2 ^ 16 → address + 8 + 0x20 < 2 ^ 64 →
      READMEMORY t (address + 8 + 0x18) 4 = some ust →
      READMEMORY t (address + 8 + 0x8) 2 = some s →
      (ParseHeapRecord32 t address entry flag = none ↔ s ≥ entry.Size * 8) ∧
      (s < entry.Size * 8 →
        ParseHeapRecord32 t address entry flag =
          some ⟨ust, entry.Size * 8, address, s, address + 8 + 0x20⟩)) ∧
    (∀ (t : Target) (address flag : Nat) (entry : Heap64Entry) (ust s : Nat),
      flag &&& NT_GLOBAL_FLAG_HPA ≠ 0 →
      entry.Size < 2 ^ 16 → address + 16 + 0x40 < 2 ^ 64 →
      READMEMORY t (address + 16 + 0x30) 8 = some ust →
      READMEMORY t (address + 16 + 0x10) 2 = some s →
      (ParseHeapRecord64 t address entry flag = none ↔ s ≥ entry.Size * 16) ∧
      (s < entry.Size * 16 →
        ParseHeapRecord64 t address entry flag =
          some ⟨ust, entry.Size * 16, address, s, address + 16 + 0x40⟩)) := by
  constructor
  · intro t address flag entry ust s hhpa hsize haddr h1 h2
    rw [ParseHeapRecord32_hpa t address flag entry hhpa, h1]
    simp only []
    rw [h2]
    simp only []
    rw [u32_size_mul hsize (by decide), u64_eq_self haddr]
    constructor
    · constructor
      · intro h
        by_contra hle
        rw [if_pos (by omega)] at h
        simp at h
      · intro h
        rw [if_neg (by omega)]
    · intro hlt
      rw [if_pos hlt]
  · intro t address flag entry ust s hhpa hsize haddr h1 h2
    rw [ParseHeapRecord64_hpa t address flag entry hhpa, h1]
    simp only []
    rw [h2]
    simp only []
    rw [u32_size_mul hsize (by decide), u64_eq_self haddr]
    constructor
    · constructor
      · intro h
        by_contra hle
        rw [if_pos (by omega)] at h
        simp at h
      · intro h
        rw [if_neg (by omega)]
    · intro hlt
      rw [if_pos hlt]

set_option maxRecDepth 100000 in
/-- C19, witness: in `hpaHeapTarget` the block at 0x1000 (0x80 bytes) has user
size 100 at 0x1010 and stack trace 0x5555 at 0x1020; its record is parsed. -/
theorem C19_hpa_record_witness :
    ParseHeapRecord32 hpaHeapTarget 0x1000 (HeapEntry.ofBytes (entryBytes 0x10 3 8))
        NT_GLOBAL_FLAG_HPA =
      some ⟨0x5555, 0x10 * 8, 0x1000, 100, 0x1000 + 8 + 0x20⟩ :=
  (C19_hpa_record.1 hpaHeapTarget 0x1000 NT_GLOBAL_FLAG_HPA
    (HeapEntry.ofBytes (entryBytes 0x10 3 8)) 0x5555 100
    (by decide) (by decide) (by decide) (by rfl) (by rfl)).2 (by decide)

/-! ## C20 -/

/-- C20: `ParseHeapRecord32` and `ParseHeapRecord64` give the same result, the
same `BOOL` and the same record, for any two values of the flags that have
HPA set, whatever their other bits, UST among them, for every address, entry
and memory: with HPA set the layout of HPA is used and UST is not looked
at. -/
theorem C20_hpa_supersedes_ust :
    (∀ (t : Target) (address : Nat) (entry : HeapEntry) (flag1 flag2 : Nat),
      flag1 &&& NT_GLOBAL_FLAG_HPA ≠ 0 → flag2 &&& NT_GLOBAL_FLAG_HPA ≠ 0 →
      ParseHeapRecord32 t address entry flag1 = ParseHeapRecord32 t address entry flag2) ∧
    (∀ (t : Target) (address : Nat) (entry : Heap64Entry) (flag1 flag2 : Nat),
      flag1 &&& NT_GLOBAL_FLAG_HPA ≠ 0 → flag2 &&& NT_GLOBAL_FLAG_HPA ≠ 0 →
      ParseHeapRecord64 t address entry flag1 = ParseHeapRecord64 t address entry flag2) :=
  ⟨fun t address entry flag1 flag2 h1 h2 => by
      rw [ParseHeapRecord32_hpa t address flag1 entry h1,
        ParseHeapRecord32_hpa t address flag2 entry h2],
    fun t address entry flag1 flag2 h1 h2 => by
      rw [ParseHeapRecord64_hpa t address flag1 entry h1,
        ParseHeapRecord64_hpa t address flag2 entry h2]⟩

set_option maxRecDepth 100000 in
/-- C20, witness: for the busy block at 0x1000 of `hpaHeapTarget` the parser
gives the record of the HPA layout with both flags set, as with HPA alone,
where with UST alone it gives another record. -/
theorem C20_hpa_supersedes_ust_witness :
    (NT_GLOBAL_FLAG_HPA ||| NT_GLOBAL_FLAG_UST) &&& NT_GLOBAL_FLAG_UST ≠ 0 ∧
    NT_GLOBAL_FLAG_HPA &&& NT_GLOBAL_FLAG_UST = 0 ∧
    ParseHeapRecord32 hpaHeapTarget 0x1000 (HeapEntry.ofBytes (entryBytes 0x10 3 8))
        (NT_GLOBAL_FLAG_HPA ||| NT_GLOBAL_FLAG_UST) =
      ParseHeapRecord32 hpaHeapTarget 0x1000 (HeapEntry.ofBytes (entryBytes 0x10 3 8))
        NT_GLOBAL_FLAG_HPA ∧
    ParseHeapRecord32 hpaHeapTarget 0x1000 (HeapEntry.ofBytes (entryBytes 0x10 3 8))
        NT_GLOBAL_FLAG_HPA = some ⟨0x5555, 128, 0x1000, 100, 0x1028⟩ ∧
    ParseHeapRecord32 hpaHeapTarget 0x1000 (HeapEntry.ofBytes (entryBytes 0x10 3 8))
        NT_GLOBAL_FLAG_UST = some ⟨0, 128, 0x1000, 128, 0x1018⟩ :=
  ⟨by decide, by decide,
    C20_hpa_supersedes_ust.1 hpaHeapTarget 0x1000 (HeapEntry.ofBytes (entryBytes 0x10 3 8))
      (NT_GLOBAL_FLAG_HPA ||| NT_GLOBAL_FLAG_UST) NT_GLOBAL_FLAG_HPA (by decide) (by decide),
    by rfl, by rfl⟩

/-! ## C14 -/

set_option maxRecDepth 100000 in
/-- C14, as the claim states it, fails: in `lfh64Target` (64-bit, Windows 8,
UST set, HPA clear) the subsegment has `BlockSize` 4 and `BlockCount` 2 and
both blocks are busy.  The block at `B = 0x3000` holds 0x1111 at `B`, 0xabcd at
`B + 0x10`, 7 at `B + 0x1c` and 16 at `B + 0x2c`; the LFH walker gives it the
record with `ustAddress` 0xabcd, `userAddress` `B + 0x30` and `userSize`
`64 - 16`, not 0x1111, `B + 0x20` and `64 - 7`. -/
theorem C14_counterexample :
    AnalyzeLFH64 10 lfh64Target 0x100000 lfh64Params [] =
      some (true, [⟨0xabcd, 64, 0x3000, 48, 0x3030⟩, ⟨0xbcde, 64, 0x3040, 40, 0x3070⟩]) ∧
    (readBytes lfh64Target 0x3000 16).map (fun raw => (Heap64Entry.ofBytes raw).ExtendedBlockSignature) =
      some 0xc2 ∧
    READMEMORY lfh64Target (0x3000 + 0x0) 8 = some 0x1111 ∧
    READMEMORY lfh64Target (0x3000 + 0x1c) 2 = some 7 ∧
    (0xabcd : Nat) ≠ 0x1111 ∧ (0x3030 : Nat) ≠ 0x3000 + 0x20 ∧ (48 : Nat) ≠ 64 - 7 :=
  ⟨by rfl, by rfl, by rfl, by rfl, by decide, by decide, by decide⟩

/-- A busy LFH block of a 64-bit target with UST set and HPA clear whose
record can be parsed: the block loop appends the record and goes on to the
next block. -/
theorem lfhBlocks64_busy (t : Target) (params : CommonParams) (blockSize n address : Nat)
    (lfhRecords : List HeapRecord) (raw : List Nat) (record : HeapRecord)
    (hust : params.ntGlobalFlag &&& NT_GLOBAL_FLAG_UST ≠ 0)
    (hraw : readBytes t address 16 = some raw)
    (hsig : (Heap64Entry.ofBytes raw).ExtendedBlockSignature = 0xc2)
    (hrec : ParseHeapRecord64 t address { Heap64Entry.ofBytes raw with Size := blockSize }
      params.ntGlobalFlag = some record) :
    lfhBlocks64 t params blockSize (n + 1) address lfhRecords =
      lfhBlocks64 t params blockSize n (u64 (address + u32 (blockSize * 16)))
        (lfhRecords ++ [record]) := by
  conv_lhs => unfold lfhBlocks64
  rw [hraw]
  simp only []
  rw [if_pos hust, if_pos hsig, hrec]

/-- A busy LFH block of a 64-bit target with UST set and HPA clear whose
record cannot be parsed: the block loop returns `FALSE`. -/
theorem lfhBlocks64_unparsed (t : Target) (params : CommonParams) (blockSize n address : Nat)
    (lfhRecords : List HeapRecord) (raw : List Nat)
    (hust : params.ntGlobalFlag &&& NT_GLOBAL_FLAG_UST ≠ 0)
    (hraw : readBytes t address 16 = some raw)
    (hsig : (Heap64Entry.ofBytes raw).ExtendedBlockSignature = 0xc2)
    (hrec : ParseHeapRecord64 t address { Heap64Entry.ofBytes raw with Size := blockSize }
      params.ntGlobalFlag = none) :
    lfhBlocks64 t params blockSize (n + 1) address lfhRecords = (false, lfhRecords) := by
  conv_lhs => unfold lfhBlocks64
  rw [hraw]
  simp only []
  rw [if_pos hust, if_pos hsig, hrec]

/-- The record of a busy LFH block of 64 bytes at `B` on a 64-bit target with
UST set and HPA clear. -/
theorem parse64_lfh_block (t : Target) (flag B : Nat) (entry : Heap64Entry) (ust extra : Nat)
    (hust : flag &&& NT_GLOBAL_FLAG_UST ≠ 0) (hhpa : flag &&& NT_GLOBAL_FLAG_HPA = 0)
    (hsize : entry.Size = 4) (hB : B + 0x30 < 2 ^ 64)
    (h1 : READMEMORY t (B + 0x10) 8 = some ust)
    (h2 : READMEMORY t (B + 0x2c) 2 = some extra) :
    ParseHeapRecord64 t B entry flag =
      if extra ≤ 64 then some ⟨ust, 64, B, 64 - extra, B + 0x30⟩ else none := by
  have h1' : READMEMORY t (B + 16) 8 = some ust := h1
  have h2' : READMEMORY t (B + 16 + 0x1c) 2 = some extra := by
    rw [Nat.add_assoc]; exact h2
  rw [ParseHeapRecord64_ust t B flag entry ust extra hust hhpa h1' h2', hsize]
  have hs : u32 (4 * 16) = 64 := by decide
  have ha : u64 (B + 16 + 0x20) = B + 0x30 := by
    rw [Nat.add_assoc]; exact u64_eq_self hB
  rw [hs, ha]
  by_cases hle : extra ≤ 64
  · rw [if_pos hle, if_pos hle, sub32_of_le (by decide) hle]
  · rw [if_neg hle, if_neg hle]

/-- C14, amended: on a 64-bit target with UST set and HPA clear, for a busy LFH
block (`ExtendedBlockSignature` 0xc2) at address `B` in a subsegment with
`BlockSize` 4, the offsets of the parser count from the end of the 16-byte
header: the LFH walker collects the record with `ustAddress` the 64-bit value
at `B + 0x10`, `size` 64, `address` `B`, `userSize = 64 - extra` and
`userAddress = B + 0x30`, where `extra` is the 16-bit value at `B + 0x2c`,
and goes on to the block at `B + 64`; when `extra > 64` it returns `FALSE`.  A
subsegment with `BlockCount` 2 whose two blocks are such blocks yields exactly
these two records. -/
theorem C14_lfh_block_record_64 :
    (∀ (t : Target) (params : CommonParams) (B n : Nat) (lfhRecords : List HeapRecord)
        (raw : List Nat) (ust extra : Nat),
      params.ntGlobalFlag &&& NT_GLOBAL_FLAG_UST ≠ 0 →
      params.ntGlobalFlag &&& NT_GLOBAL_FLAG_HPA = 0 →
      B + 64 < 2 ^ 64 →
      readBytes t B 16 = some raw →
      (Heap64Entry.ofBytes raw).ExtendedBlockSignature = 0xc2 →
      READMEMORY t (B + 0x10) 8 = some ust →
      READMEMORY t (B + 0x2c) 2 = some extra →
      (extra ≤ 64 →
        lfhBlocks64 t params 4 (n + 1) B lfhRecords =
          lfhBlocks64 t params 4 n (B + 64)
            (lfhRecords ++ [⟨ust, 64, B, 64 - extra, B + 0x30⟩])) ∧
      (64 < extra → lfhBlocks64 t params 4 (n + 1) B lfhRecords = (false, lfhRecords))) ∧
    (∀ (t : Target) (params : CommonParams) (B : Nat) (raw1 raw2 : List Nat)
        (ust1 extra1 ust2 extra2 : Nat),
      params.ntGlobalFlag &&& NT_GLOBAL_FLAG_UST ≠ 0 →
      params.ntGlobalFlag &&& NT_GLOBAL_FLAG_HPA = 0 →
      B + 64 + 64 < 2 ^ 64 →
      readBytes t B 16 = some raw1 →
      (Heap64Entry.ofBytes raw1).ExtendedBlockSignature = 0xc2 →
      READMEMORY t (B + 0x10) 8 = some ust1 →
      READMEMORY t (B + 0x2c) 2 = some extra1 → extra1 ≤ 64 →
      readBytes t (B + 64) 16 = some raw2 →
      (Heap64Entry.ofBytes raw2).ExtendedBlockSignature = 0xc2 →
      READMEMORY t (B + 64 + 0x10) 8 = some ust2 →
      READMEMORY t (B + 64 + 0x2c) 2 = some extra2 → extra2 ≤ 64 →
      lfhBlocks64 t params 4 2 B [] =
        (true, [⟨ust1, 64, B, 64 - extra1, B + 0x30⟩,
          ⟨ust2, 64, B + 64, 64 - extra2, B + 64 + 0x30⟩])) := by
  have step : ∀ (t : Target) (params : CommonParams) (B n : Nat) (lfhRecords : List HeapRecord)
      (raw : List Nat) (ust extra : Nat),
      params.ntGlobalFlag &&& NT_GLOBAL_FLAG_UST ≠ 0 →
      params.ntGlobalFlag &&& NT_GLOBAL_FLAG_HPA = 0 →
      B + 64 < 2 ^ 64 →
      readBytes t B 16 = some raw →
      (Heap64Entry.ofBytes raw).ExtendedBlockSignature = 0xc2 →
      READMEMORY t (B + 0x10) 8 = some ust →
      READMEMORY t (B + 0x2c) 2 = some extra →
      (extra ≤ 64 →
        lfhBlocks64 t params 4 (n + 1) B lfhRecords =
          lfhBlocks64 t params 4 n (B + 64)
            (lfhRecords ++ [⟨ust, 64, B, 64 - extra, B + 0x30⟩])) ∧
      (64 < extra → lfhBlocks64 t params 4 (n + 1) B lfhRecords = (false, lfhRecords)) := by
    intro t params B n lfhRecords raw ust extra hust hhpa hB hraw hsig h1 h2
    have hp := parse64_lfh_block t params.ntGlobalFlag B
      { Heap64Entry.ofBytes raw with Size := 4 } ust extra hust hhpa rfl (by omega) h1 h2
    have hnext : u64 (B + u32 (4 * 16)) = B + 64 := by
      have hs : u32 (4 * 16) = 64 := by decide
      rw [hs]; exact u64_eq_self hB
    constructor
    · intro hle
      rw [if_pos hle] at hp
      rw [lfhBlocks64_busy t params 4 n B lfhRecords raw _ hust hraw hsig hp, hnext]
    · intro hlt
      rw [if_neg (by omega)] at hp
      exact lfhBlocks64_unparsed t params 4 n B lfhRecords raw hust hraw hsig hp
  refine ⟨step, ?_⟩
  intro t params B raw1 raw2 ust1 extra1 ust2 extra2 hust hhpa hB hraw1 hsig1 h11 h12 hle1
    hraw2 hsig2 h21 h22 hle2
  rw [(step t params B 1 [] raw1 ust1 extra1 hust hhpa (by omega) hraw1 hsig1 h11 h12).1 hle1,
    (step t params (B + 64) 0 _ raw2 ust2 extra2 hust hhpa hB hraw2 hsig2 h21 h22).1 hle2]
  rfl

set_option maxRecDepth 100000 in
/-- C14, witness: the two busy blocks of the subsegment of `lfh64Target`, at
0x3000 and 0x3040, give exactly two records, with the values read at `B +
0x10` and `B + 0x2c`. -/
theorem C14_lfh_block_record_64_witness :
    lfhBlocks64 lfh64Target lfh64Params 4 2 0x3000 [] =
      (true, [⟨0xabcd, 64, 0x3000, 64 - 16, 0x3000 + 0x30⟩,
        ⟨0xbcde, 64, 0x3000 + 64, 64 - 24, 0x3000 + 64 + 0x30⟩]) :=
  C14_lfh_block_record_64.2 lfh64Target lfh64Params 0x3000
    ((lfhBlockBytes64 0x1111 0xabcd 7 16).take 16) ((lfhBlockBytes64 0x2222 0xbcde 9 24).take 16)
    0xabcd 16 0xbcde 24 (by decide) (by decide) (by decide) (by rfl) (by rfl) (by rfl) (by rfl)
    (by decide) (by rfl) (by rfl) (by rfl) (by rfl) (by decide)

/-! ## C15 -/

set_option maxRecDepth 100000 in
/-- C15, as the claim states it, fails: in `hpaTarget` (32-bit, HPA set, UST
clear) the list of VirtualAlloc blocks has the one element 0x40000, of size
0x20000 and `extra` 0x10; `AnalyzeVirtualAllocd32` gives one record, with user
address `0x40000 + 0x20`, not `0x40000 + 0x30`, and the walk of the heap
registers it so. -/
theorem C15_counterexample :
    hpaTarget.isTarget64 = false ∧
    NT_GLOBAL_FLAG_HPA &&& NT_GLOBAL_FLAG_HPA ≠ 0 ∧
    AnalyzeVirtualAllocd32 10 hpaTarget 0x10000 testKey (testParams NT_GLOBAL_FLAG_HPA) [] =
      some (true, [⟨0, 0x20000, 0x40000, 0x1fff0, 0x40000 + 0x20⟩]) ∧
    AnalyzeHeap32 10 hpaTarget 0x10000 (testParams NT_GLOBAL_FLAG_HPA) =
      ⟨Status.ok,
        [Call.StartSegment 0x10000 0x3000,
         Call.FinishSegment 0x10000 0x3000,
         Call.Register ⟨0, 0x20000, 0x40000, 0x1fff0, 0x40020⟩]⟩ ∧
    (0x40020 : Nat) ≠ 0x40000 + 0x30 :=
  ⟨by rfl, by decide, by rfl, by rfl, by decide⟩

/-- C15, amended: on a 32-bit target, for a list of VirtualAlloc blocks with
the single element `A` whose size field is 0x20000 and whose decoded `extra`
is 0x10, `AnalyzeVirtualAllocd32` returns `TRUE` with exactly one record, of
size 0x20000 and user size 0x1fff0; the flag HPA is not looked at: the user
address is `A + 0x20` and the stack trace 0 when UST is clear, and the user
address is `A + 0x30` and the stack trace the 32-bit value at `A + 0x20` when
UST is set. -/
theorem C15_single_valloc_block (fuel : Nat) (t : Target) (heapAddress : Nat)
    (encoding : List Nat) (params : CommonParams) (A : Nat)
    (listEntry raw next : List Nat)
    (hhead : readBytes t
      (heapAddress + (if params.osVersion ≥ t.OS_VERSION_WIN8 then 0x9c else 0xa0)) 8 =
        some listEntry)
    (hfirst : field listEntry 0 4 = A)
    (hne : A ≠ u64 (heapAddress + (if params.osVersion ≥ t.OS_VERSION_WIN8 then 0x9c else 0xa0)))
    (hsize : READMEMORY t (A + 0x10) 4 = some 0x20000)
    (hraw : readBytes t (A + 0x18) 8 = some raw)
    (hsum : (DecodeHeapEntry raw encoding).2 = true)
    (hextra : field (DecodeHeapEntry raw encoding).1 0 2 = 0x10)
    (hnext : readBytes t A 8 = some next)
    (hlast : field next 0 4 =
      u64 (heapAddress + (if params.osVersion ≥ t.OS_VERSION_WIN8 then 0x9c else 0xa0)))
    (hA : A + 0x30 < 2 ^ 64) :
    (params.ntGlobalFlag &&& NT_GLOBAL_FLAG_UST = 0 →
      AnalyzeVirtualAllocd32 (fuel + 2) t heapAddress encoding params [] =
        some (true, [⟨0, 0x20000, A, 0x1fff0, A + 0x20⟩])) ∧
    (params.ntGlobalFlag &&& NT_GLOBAL_FLAG_UST ≠ 0 →
      ∀ ust, READMEMORY t (A + 0x20) 4 = some ust →
        AnalyzeVirtualAllocd32 (fuel + 2) t heapAddress encoding params [] =
          some (true, [⟨ust, 0x20000, A, 0x1fff0, A + 0x30⟩])) := by
  have hsub : sub64 0x20000 0x10 = 0x1fff0 := by decide
  have hloop : ∀ record, vallocRecord32 t params A 0x20000 0x10 = some record →
      AnalyzeVirtualAllocd32 (fuel + 2) t heapAddress encoding params [] =
        some (true, [record]) := by
    intro record hrec
    unfold AnalyzeVirtualAllocd32
    simp only []
    rw [hhead]
    simp only []
    rw [hfirst]
    unfold vallocLoop32
    rw [if_pos hne, hsize]
    simp only []
    rw [hraw]
    simp only []
    rw [hsum, hextra]
    simp only [Bool.true_eq_false, if_false]
    rw [if_neg (by decide), hrec]
    simp only []
    rw [hnext]
    simp only []
    rw [hlast]
    unfold vallocLoop32
    rw [if_neg (not_not.2 rfl)]
    rfl
  constructor
  · intro hust
    apply hloop
    unfold vallocRecord32
    rw [if_neg (not_not.2 hust), hsub, u64_eq_self (by omega)]
  · intro hust ust hread
    apply hloop
    unfold vallocRecord32
    rw [if_pos hust, hread]
    simp only []
    rw [hsub, u64_eq_self hA]

set_option maxRecDepth 100000 in
/-- C15, witness: the VirtualAlloc block of `hpaTarget`, with HPA alone and
with HPA and UST. -/
theorem C15_single_valloc_block_witness :
    AnalyzeVirtualAllocd32 (8 + 2) hpaTarget 0x10000 testKey (testParams NT_GLOBAL_FLAG_HPA) [] =
      some (true, [⟨0, 0x20000, 0x40000, 0x1fff0, 0x40000 + 0x20⟩]) ∧
    AnalyzeVirtualAllocd32 (8 + 2) hpaTarget 0x10000 testKey
        (testParams (NT_GLOBAL_FLAG_HPA ||| NT_GLOBAL_FLAG_UST)) [] =
      some (true, [⟨0x7777, 0x20000, 0x40000, 0x1fff0, 0x40000 + 0x30⟩]) :=
  ⟨(C15_single_valloc_block 8 hpaTarget 0x10000 testKey (testParams NT_GLOBAL_FLAG_HPA) 0x40000
      (bytesLE 4 0x40000 ++ bytesLE 4 0x40000)
      (xorBytes 8 [0x10, 0, 0, 0x10, 0, 0, 0, 0] testKey)
      (bytesLE 4 0x100a0 ++ bytesLE 4 0x100a0)
      (by rfl) (by rfl) (by decide) (by rfl) (by rfl) (by rfl) (by rfl) (by rfl) (by rfl)
      (by decide)).1 (by decide),
    (C15_single_valloc_block 8 hpaTarget 0x10000 testKey
      (testParams (NT_GLOBAL_FLAG_HPA ||| NT_GLOBAL_FLAG_UST)) 0x40000
      (bytesLE 4 0x40000 ++ bytesLE 4 0x40000)
      (xorBytes 8 [0x10, 0, 0, 0x10, 0, 0, 0, 0] testKey)
      (bytesLE 4 0x100a0 ++ bytesLE 4 0x100a0)
      (by rfl) (by rfl) (by decide) (by rfl) (by rfl) (by rfl) (by rfl) (by rfl) (by rfl)
      (by decide)).2 (by decide) 0x7777 (by rfl)⟩

/-! ## C16: the heaps that `AnalyzeHeap` starts -/

theorem READMEMORY_lt {t : Target} {a n v : Nat} (h : READMEMORY t a n = some v) :
    v < 256 ^ n := by
  unfold READMEMORY at h
  cases hb : readBytes t a n with
  | none => simp [hb] at h
  | some bs =>
    simp only [hb, Option.map_some', Option.some.injEq] at h
    obtain ⟨hl, hall⟩ := readBytes_spec t n a bs hb
    have := leValue_lt bs hall
    rw [hl] at this
    rw [← h]; exact this

theorem sub64_of_lt {a b : Nat} (ha : a < 2 ^ 64) (h : b < a) : sub64 a b = a - b := by
  unfold sub64 u64
  omega

/-- C21: the VirtualAlloc walkers, element by element.  For an element at
`A`, other than the list head, whose reads succeed and whose header has a valid
checksum, with `size` the 32-bit value at `A + 0x10` and `extra` the first 16
bits of the entry at `A + 0x18` after XOR with the key: `AnalyzeVirtualAllocd32`
returns `FALSE` at this element when `extra ≥ size`, and otherwise appends the
record with `address = A`, `size`, `userSize = size - extra` and, with UST
clear, `ustAddress = 0` and `userAddress = A + 0x20`, with UST set,
`ustAddress` the 32-bit value at `A + 0x20` and `userAddress = A + 0x30`, and
goes on to the `Flink` of the element.  `AnalyzeVirtualAllocd64` does the same
with `size` the 64-bit value at `A + 0x20`, the entry at `A + 0x30`, `extra`
its decoded bytes 8 and 9, the stack trace at `A + 0x40` and the user address
`A + 0x60` or `A + 0x40`.  The walk starts at the `Flink` of the list head and
returns `TRUE` when it is back at the address of the list head. -/
theorem C21_valloc_walk_by_element :
    (∀ (t : Target) (encoding : List Nat) (params : CommonParams) (head fuel A : Nat)
        (records : List HeapRecord) (size : Nat) (raw next : List Nat),
      A ≠ head → A + 0x30 < 2 ^ 64 →
      READMEMORY t (A + 0x10) 4 = some size →
      readBytes t (A + 0x18) 8 = some raw →
      (DecodeHeapEntry raw encoding).2 = true →
      readBytes t A 8 = some next →
      (size ≤ field (xorBytes 8 raw encoding) 0 2 →
        vallocLoop32 t encoding params head (fuel + 1) A records = some (false, records)) ∧
      (field (xorBytes 8 raw encoding) 0 2 < size →
        params.ntGlobalFlag &&& NT_GLOBAL_FLAG_UST = 0 →
        vallocLoop32 t encoding params head (fuel + 1) A records =
          vallocLoop32 t encoding params head fuel (field next 0 4)
            (records ++ [⟨0, size, A, size - field (xorBytes 8 raw encoding) 0 2, A + 0x20⟩])) ∧
      (field (xorBytes 8 raw encoding) 0 2 < size →
        params.ntGlobalFlag &&& NT_GLOBAL_FLAG_UST ≠ 0 →
        ∀ ust, READMEMORY t (A + 0x20) 4 = some ust →
        vallocLoop32 t encoding params head (fuel + 1) A records =
          vallocLoop32 t encoding params head fuel (field next 0 4)
            (records ++
              [⟨ust, size, A, size - field (xorBytes 8 raw encoding) 0 2, A + 0x30⟩]))) ∧
    (∀ (t : Target) (encoding : List Nat) (params : CommonParams) (head fuel A : Nat)
        (records : List HeapRecord) (size : Nat) (raw : List Nat) (next : Nat),
      A ≠ head → A + 0x60 < 2 ^ 64 →
      READMEMORY t (A + 0x20) 8 = some size →
      readBytes t (A + 0x30) 16 = some raw →
      (DecodeHeap64Entry raw encoding).2 = true →
      GetFieldValue t A FieldName.LIST_ENTRY_Flink 8 = some next →
      (size ≤ field (xorBytes 16 raw encoding) 8 2 →
        vallocLoop64 t encoding params head (fuel + 1) A records = some (false, records)) ∧
      (field (xorBytes 16 raw encoding) 8 2 < size →
        params.ntGlobalFlag &&& NT_GLOBAL_FLAG_UST = 0 →
        vallocLoop64 t encoding params head (fuel + 1) A records =
          vallocLoop64 t encoding params head fuel next
            (records ++ [⟨0, size, A, size - field (xorBytes 16 raw encoding) 8 2, A + 0x40⟩])) ∧
      (field (xorBytes 16 raw encoding) 8 2 < size →
        params.ntGlobalFlag &&& NT_GLOBAL_FLAG_UST ≠ 0 →
        ∀ ust, READMEMORY t (A + 0x40) 8 = some ust →
        vallocLoop64 t encoding params head (fuel + 1) A records =
          vallocLoop64 t encoding params head fuel next
            (records ++
              [⟨ust, size, A, size - field (xorBytes 16 raw encoding) 8 2, A + 0x60⟩]))) ∧
    (∀ (t : Target) (encoding : List Nat) (params : CommonParams) (head fuel : Nat)
        (records : List HeapRecord),
      vallocLoop32 t encoding params head (fuel + 1) head records = some (true, records) ∧
      vallocLoop64 t encoding params head (fuel + 1) head records = some (true, records)) ∧
    (∀ (fuel : Nat) (t : Target) (heapAddress : Nat) (encoding : List Nat)
        (params : CommonParams) (records : List HeapRecord) (listEntry : List Nat),
      readBytes t
          (heapAddress + (if params.osVersion ≥ t.OS_VERSION_WIN8 then 0x9c else 0xa0)) 8 =
        some listEntry →
      AnalyzeVirtualAllocd32 fuel t heapAddress encoding params records =
        vallocLoop32 t encoding params
          (u64 (heapAddress + (if params.osVersion ≥ t.OS_VERSION_WIN8 then 0x9c else 0xa0)))
          fuel (field listEntry 0 4) records) ∧
    (∀ (fuel : Nat) (t : Target) (heapAddress : Nat) (encoding : List Nat)
        (params : CommonParams) (records : List HeapRecord) (offset : Nat) (listEntry : List Nat),
      t.fieldOffset FieldName.HEAP_VirtualAllocdBlocks = some offset →
      readBytes t (heapAddress + offset) 16 = some listEntry →
      AnalyzeVirtualAllocd64 fuel t heapAddress encoding params records =
        vallocLoop64 t encoding params (u64 (heapAddress + u32 offset)) fuel
          (field listEntry 0 8) records) := by
  refine ⟨?_, ?_, ?_, ?_, ?_⟩
  · intro t encoding params head fuel A records size raw next hne hA hsize hraw hsum hnext
    have hs32 : size < 2 ^ 32 := by
      have := READMEMORY_lt hsize
      norm_num at this ⊢
      exact this
    have hdec : (DecodeHeapEntry raw encoding).1 = xorBytes 8 raw encoding := rfl
    have hpre : ∀ r, vallocLoop32 t encoding params head (fuel + 1) A records = r ↔
        (if field (xorBytes 8 raw encoding) 0 2 ≥ size then some (false, records)
          else
            match vallocRecord32 t params A size (field (xorBytes 8 raw encoding) 0 2) with
            | none => some (false, records)
            | some record =>
              vallocLoop32 t encoding params head fuel (field next 0 4) (records ++ [record])) =
          r := by
      intro r
      conv_lhs => unfold vallocLoop32
      rw [if_pos hne, hsize]
      simp only []
      rw [hraw]
      simp only []
      rw [hsum, hdec]
      simp only [Bool.true_eq_false, if_false]
      by_cases hge : field (xorBytes 8 raw encoding) 0 2 ≥ size
      · rw [if_pos hge, if_pos hge]
      · rw [if_neg hge, if_neg hge]
        cases hrec : vallocRecord32 t params A size (field (xorBytes 8 raw encoding) 0 2) with
        | none => simp only []
        | some record =>
          simp only []
          rw [hnext]
    refine ⟨?_, ?_, ?_⟩
    · intro hge
      rw [hpre, if_pos hge]
    · intro hlt hust
      rw [hpre, if_neg (by omega)]
      have hrec : vallocRecord32 t params A size (field (xorBytes 8 raw encoding) 0 2) =
          some ⟨0, size, A, size - field (xorBytes 8 raw encoding) 0 2, A + 0x20⟩ := by
        unfold vallocRecord32
        rw [if_neg (not_not.2 hust), sub64_of_lt (by omega) hlt, u64_eq_self (by omega)]
      rw [hrec]
    · intro hlt hust ust hread
      rw [hpre, if_neg (by omega)]
      have hrec : vallocRecord32 t params A size (field (xorBytes 8 raw encoding) 0 2) =
          some ⟨ust, size, A, size - field (xorBytes 8 raw encoding) 0 2, A + 0x30⟩ := by
        unfold vallocRecord32
        rw [if_pos hust, hread]
        simp only []
        rw [sub64_of_lt (by omega) hlt, u64_eq_self hA]
      rw [hrec]
  · intro t encoding params head fuel A records size raw next hne hA hsize hraw hsum hnext
    have hs64 : size < 2 ^ 64 := by
      have := READMEMORY_lt hsize
      norm_num at this ⊢
      exact this
    have hdec : (DecodeHeap64Entry raw encoding).1 = xorBytes 16 raw encoding := rfl
    have hpre : ∀ r, vallocLoop64 t encoding params head (fuel + 1) A records = r ↔
        (if field (xorBytes 16 raw encoding) 8 2 ≥ size then some (false, records)
          else
            match vallocRecord64 t params A size (field (xorBytes 16 raw encoding) 8 2) with
            | none => some (false, records)
            | some record =>
              vallocLoop64 t encoding params head fuel next (records ++ [record])) =
          r := by
      intro r
      conv_lhs => unfold vallocLoop64
      rw [if_pos hne, hsize]
      simp only []
      rw [hraw]
      simp only []
      rw [hsum, hdec]
      simp only [Bool.true_eq_false, if_false]
      by_cases hge : field (xorBytes 16 raw encoding) 8 2 ≥ size
      · rw [if_pos hge, if_pos hge]
      · rw [if_neg hge, if_neg hge]
        cases hrec : vallocRecord64 t params A size (field (xorBytes 16 raw encoding) 8 2) with
        | none => simp only []
        | some record =>
          simp only []
          rw [hnext]
    refine ⟨?_, ?_, ?_⟩
    · intro hge
      rw [hpre, if_pos hge]
    · intro hlt hust
      rw [hpre, if_neg (by omega)]
      have hrec : vallocRecord64 t params A size (field (xorBytes 16 raw encoding) 8 2) =
          some ⟨0, size, A, size - field (xorBytes 16 raw encoding) 8 2, A + 0x40⟩ := by
        unfold vallocRecord64
        rw [if_neg (not_not.2 hust), sub64_of_lt hs64 hlt, u64_eq_self (by omega)]
      rw [hrec]
    · intro hlt hust ust hread
      rw [hpre, if_neg (by omega)]
      have hrec : vallocRecord64 t params A size (field (xorBytes 16 raw encoding) 8 2) =
          some ⟨ust, size, A, size - field (xorBytes 16 raw encoding) 8 2, A + 0x60⟩ := by
        unfold vallocRecord64
        rw [if_pos hust, hread]
        simp only []
        rw [sub64_of_lt hs64 hlt, u64_eq_self hA]
      rw [hrec]
  · intro t encoding params head fuel records
    constructor
    · unfold vallocLoop32
      rw [if_neg (not_not.2 rfl)]
    · unfold vallocLoop64
      rw [if_neg (not_not.2 rfl)]
  · intro fuel t heapAddress encoding params records listEntry h
    unfold AnalyzeVirtualAllocd32
    simp only []
    rw [h]
  · intro fuel t heapAddress encoding params records offset listEntry ho h
    unfold AnalyzeVirtualAllocd64
    rw [ho]
    simp only []
    rw [h]

set_option maxRecDepth 100000 in
/-- C21, witness: the first VirtualAlloc block of `twoVallocTarget`, at
0x50000, has size 0x30000 and `extra` 0x20; with UST clear the walker appends
its record, with user size 0x2ffe0 and user address 0x50020, and goes on to
its `Flink`, 0x40000; the whole walk gives the two records. -/
theorem C21_valloc_walk_by_element_witness :
    vallocLoop32 twoVallocTarget testKey (testParams 0) 0x100a0 (8 + 1) 0x50000 [] =
      vallocLoop32 twoVallocTarget testKey (testParams 0) 0x100a0 8
        (field (bytesLE 4 0x40000 ++ bytesLE 4 0x100a0) 0 4)
        ([] ++ [⟨0, 0x30000, 0x50000,
          0x30000 - field (xorBytes 8 (xorBytes 8 [0x20, 0, 0, 0x20, 0, 0, 0, 0] testKey) testKey) 0 2,
          0x50000 + 0x20⟩]) ∧
    field (xorBytes 8 (xorBytes 8 [0x20, 0, 0, 0x20, 0, 0, 0, 0] testKey) testKey) 0 2 = 0x20 ∧
    AnalyzeVirtualAllocd32 10 twoVallocTarget 0x10000 testKey (testParams 0) [] =
      some (true, [⟨0, 0x30000, 0x50000, 0x2ffe0, 0x50020⟩,
        ⟨0, 0x20000, 0x40000, 0x1fff0, 0x40020⟩]) :=
  ⟨(C21_valloc_walk_by_element.1 twoVallocTarget testKey (testParams 0) 0x100a0 8 0x50000 []
      0x30000 (xorBytes 8 [0x20, 0, 0, 0x20, 0, 0, 0, 0] testKey)
      (bytesLE 4 0x40000 ++ bytesLE 4 0x100a0)
      (by decide) (by decide) (by rfl) (by rfl) (by rfl) (by rfl)).2.1 (by decide) (by decide),
    by rfl, by rfl⟩

/-! ## The blocks of an LFH subsegment -/

/-- One turn of the block loop of `AnalyzeLFHZone32` at a block whose header
can be read. -/
theorem lfhBlocks32_step (t : Target) (params : CommonParams) (blockSize m address : Nat)
    (recs : List HeapRecord) (raw : List Nat) (next : Nat)
    (hraw : readBytes t address 8 = some raw)
    (hnext : u64 (address + u32 (blockSize * 8)) = next) :
    lfhBlocks32 t params blockSize (m + 1) address recs =
      if (HeapEntry.ofBytes raw).ExtendedBlockSignature =
          (if params.ntGlobalFlag &&& NT_GLOBAL_FLAG_UST ≠ 0 then 0xc2 else 0x88) then
        (ParseHeapRecord32 t address { HeapEntry.ofBytes raw with Size := blockSize }
            params.ntGlobalFlag).elim (false, recs)
          (fun record => lfhBlocks32 t params blockSize m next (recs ++ [record]))
      else lfhBlocks32 t params blockSize m next recs := by
  conv_lhs => unfold lfhBlocks32
  rw [hraw]
  simp only []
  rw [hnext]
  by_cases hb : (HeapEntry.ofBytes raw).ExtendedBlockSignature =
      (if params.ntGlobalFlag &&& NT_GLOBAL_FLAG_UST ≠ 0 then 0xc2 else 0x88)
  · rw [if_pos hb, if_pos hb]
    cases ParseHeapRecord32 t address { HeapEntry.ofBytes raw with Size := blockSize }
      params.ntGlobalFlag <;> rfl
  · rw [if_neg hb, if_neg hb]

/-- The record that the specification gives for a block is at the address of
the block, has the size of the blocks of the subsegment, and the raw header of
the block holds the signature of a busy block. -/
theorem lfhBlockRecord32_some {t : Target} {params : CommonParams} {blockSize first i : Nat}
    {r : HeapRecord} (h : lfhBlockRecord32 t params blockSize first i = some r) :
    r.address = first + i * (blockSize * 8) ∧ r.size = u32 (blockSize * 8) ∧
    ∃ raw, readBytes t (first + i * (blockSize * 8)) 8 = some raw ∧
      (HeapEntry.ofBytes raw).ExtendedBlockSignature =
        (if params.ntGlobalFlag &&& NT_GLOBAL_FLAG_UST ≠ 0 then 0xc2 else 0x88) := by
  unfold lfhBlockRecord32 at h
  cases hraw : readBytes t (first + i * (blockSize * 8)) 8 with
  | none => rw [hraw] at h; simp at h
  | some raw =>
    rw [hraw] at h
    simp only [] at h
    by_cases hb : (HeapEntry.ofBytes raw).ExtendedBlockSignature =
        (if params.ntGlobalFlag &&& NT_GLOBAL_FLAG_UST ≠ 0 then 0xc2 else 0x88)
    · rw [if_pos hb] at h
      have ha := ParseHeapRecord32_address h
      have hs := ParseHeapRecord32_size h
      exact ⟨ha, hs, raw, rfl, hb⟩
    · rw [if_neg hb] at h
      simp at h

/-- The block loop of `AnalyzeLFHZone32` over the first `j` blocks of a
subsegment, when their headers can be read and the records of the busy ones
can be parsed: it collects the records that the specification gives for them
and goes on with block `j`. -/
theorem lfhBlocks32_collected (t : Target) (params : CommonParams) (blockSize first : Nat)
    (hbs : blockSize < 2 ^ 16) :
    ∀ (j m : Nat) (recs : List HeapRecord), first + j * (blockSize * 8) < 2 ^ 64 →
      (∀ i, i < j → ∃ raw, readBytes t (first + i * (blockSize * 8)) 8 = some raw) →
      (∀ i, i < j → ∀ raw, readBytes t (first + i * (blockSize * 8)) 8 = some raw →
        (HeapEntry.ofBytes raw).ExtendedBlockSignature =
          (if params.ntGlobalFlag &&& NT_GLOBAL_FLAG_UST ≠ 0 then 0xc2 else 0x88) →
        ParseHeapRecord32 t (first + i * (blockSize * 8))
          { HeapEntry.ofBytes raw with Size := blockSize } params.ntGlobalFlag ≠ none) →
      lfhBlocks32 t params blockSize (j + m) first recs =
        lfhBlocks32 t params blockSize m (first + j * (blockSize * 8))
          (recs ++ (List.range j).filterMap (lfhBlockRecord32 t params blockSize first)) := by
  intro j
  induction j with
  | zero =>
    intro m recs _ _ _
    simp
  | succ j ih =>
    intro m recs hlt hread hparse
    have hlt' : first + j * (blockSize * 8) < 2 ^ 64 := by
      have : j * (blockSize * 8) ≤ (j + 1) * (blockSize * 8) :=
        Nat.mul_le_mul_right _ (Nat.le_succ j)
      omega
    have e : j + 1 + m = j + (m + 1) := by omega
    rw [e, ih (m + 1) recs hlt' (fun i hi => hread i (by omega))
      (fun i hi => hparse i (by omega))]
    obtain ⟨raw, hraw⟩ := hread j (by omega)
    have hu : u32 (blockSize * 8) = blockSize * 8 := u32_eq_self (by omega)
    have hsucc : first + (j + 1) * (blockSize * 8) =
        first + j * (blockSize * 8) + blockSize * 8 := by
      rw [Nat.succ_mul]; omega
    have hnext : u64 (first + j * (blockSize * 8) + u32 (blockSize * 8)) =
        first + (j + 1) * (blockSize * 8) := by
      rw [hu, ← hsucc]; exact u64_eq_self hlt
    rw [lfhBlocks32_step t params blockSize m _ _ raw _ hraw hnext]
    have hrec : lfhBlockRecord32 t params blockSize first j =
        if (HeapEntry.ofBytes raw).ExtendedBlockSignature =
            (if params.ntGlobalFlag &&& NT_GLOBAL_FLAG_UST ≠ 0 then 0xc2 else 0x88) then
          ParseHeapRecord32 t (first + j * (blockSize * 8))
            { HeapEntry.ofBytes raw with Size := blockSize } params.ntGlobalFlag
        else none := by
      unfold lfhBlockRecord32
      rw [hraw]
    rw [List.range_succ, List.filterMap_append]
    by_cases hb : (HeapEntry.ofBytes raw).ExtendedBlockSignature =
        (if params.ntGlobalFlag &&& NT_GLOBAL_FLAG_UST ≠ 0 then 0xc2 else 0x88)
    · rw [if_pos hb] at hrec ⊢
      cases hp : ParseHeapRecord32 t (first + j * (blockSize * 8))
          { HeapEntry.ofBytes raw with Size := blockSize } params.ntGlobalFlag with
      | none => exact absurd hp (hparse j (by omega) raw hraw hb)
      | some r =>
        rw [hp] at hrec
        simp only [List.filterMap_cons, List.filterMap_nil, hrec, List.append_assoc, Option.elim]
    · rw [if_neg hb] at hrec ⊢
      simp only [List.filterMap_cons, List.filterMap_nil, hrec, List.append_nil]

/-- The block loop of `AnalyzeLFHZone32` returns `FALSE` at the first block
whose header cannot be read or whose record, the block being busy, cannot be
parsed; the records collected before are kept. -/
theorem lfhBlocks32_fails (t : Target) (params : CommonParams) (blockSize first : Nat)
    (hbs : blockSize < 2 ^ 16) (j m : Nat) (recs : List HeapRecord)
    (hlt : first + j * (blockSize * 8) < 2 ^ 64)
    (hread : ∀ i, i < j → ∃ raw, readBytes t (first + i * (blockSize * 8)) 8 = some raw)
    (hparse : ∀ i, i < j → ∀ raw, readBytes t (first + i * (blockSize * 8)) 8 = some raw →
      (HeapEntry.ofBytes raw).ExtendedBlockSignature =
        (if params.ntGlobalFlag &&& NT_GLOBAL_FLAG_UST ≠ 0 then 0xc2 else 0x88) →
      ParseHeapRecord32 t (first + i * (blockSize * 8))
        { HeapEntry.ofBytes raw with Size := blockSize } params.ntGlobalFlag ≠ none)
    (hbad : readBytes t (first + j * (blockSize * 8)) 8 = none ∨
      ∃ raw, readBytes t (first + j * (blockSize * 8)) 8 = some raw ∧
        (HeapEntry.ofBytes raw).ExtendedBlockSignature =
          (if params.ntGlobalFlag &&& NT_GLOBAL_FLAG_UST ≠ 0 then 0xc2 else 0x88) ∧
        ParseHeapRecord32 t (first + j * (blockSize * 8))
          { HeapEntry.ofBytes raw with Size := blockSize } params.ntGlobalFlag = none) :
    lfhBlocks32 t params blockSize (j + (m + 1)) first recs =
      (false, recs ++ (List.range j).filterMap (lfhBlockRecord32 t params blockSize first)) := by
  rw [lfhBlocks32_collected t params blockSize first hbs j (m + 1) recs hlt hread hparse]
  rcases hbad with hnone | ⟨raw, hraw, hb, hp⟩
  · unfold lfhBlocks32
    rw [hnone]
  · rw [lfhBlocks32_step t params blockSize m _ _ raw _ hraw rfl, if_pos hb, hp]
    rfl

/-- One turn of the block loop of `AnalyzeLFHZone64` at a block whose header
can be read. -/
theorem lfhBlocks64_step (t : Target) (params : CommonParams) (blockSize m address : Nat)
    (recs : List HeapRecord) (raw : List Nat) (next : Nat)
    (hraw : readBytes t address 16 = some raw)
    (hnext : u64 (address + u32 (blockSize * 16)) = next) :
    lfhBlocks64 t params blockSize (m + 1) address recs =
      if (Heap64Entry.ofBytes raw).ExtendedBlockSignature =
          (if params.ntGlobalFlag &&& NT_GLOBAL_FLAG_UST ≠ 0 then 0xc2 else 0x88) then
        (ParseHeapRecord64 t address { Heap64Entry.ofBytes raw with Size := blockSize }
            params.ntGlobalFlag).elim (false, recs)
          (fun record => lfhBlocks64 t params blockSize m next (recs ++ [record]))
      else lfhBlocks64 t params blockSize m next recs := by
  conv_lhs => unfold lfhBlocks64
  rw [hraw]
  simp only []
  rw [hnext]
  by_cases hb : (Heap64Entry.ofBytes raw).ExtendedBlockSignature =
      (if params.ntGlobalFlag &&& NT_GLOBAL_FLAG_UST ≠ 0 then 0xc2 else 0x88)
  · rw [if_pos hb, if_pos hb]
    cases ParseHeapRecord64 t address { Heap64Entry.ofBytes raw with Size := blockSize }
      params.ntGlobalFlag <;> rfl
  · rw [if_neg hb, if_neg hb]

/-- The record that the specification gives for a block is at the address of
the block, has the size of the blocks of the subsegment, and the raw header of
the block holds the signature of a busy block. -/
theorem lfhBlockRecord64_some {t : Target} {params : CommonParams} {blockSize first i : Nat}
    {r : HeapRecord} (h : lfhBlockRecord64 t params blockSize first i = some r) :
    r.address = first + i * (blockSize * 16) ∧ r.size = u32 (blockSize * 16) ∧
    ∃ raw, readBytes t (first + i * (blockSize * 16)) 16 = some raw ∧
      (Heap64Entry.ofBytes raw).ExtendedBlockSignature =
        (if params.ntGlobalFlag &&& NT_GLOBAL_FLAG_UST ≠ 0 then 0xc2 else 0x88) := by
  unfold lfhBlockRecord64 at h
  cases hraw : readBytes t (first + i * (blockSize * 16)) 16 with
  | none => rw [hraw] at h; simp at h
  | some raw =>
    rw [hraw] at h
    simp only [] at h
    by_cases hb : (Heap64Entry.ofBytes raw).ExtendedBlockSignature =
        (if params.ntGlobalFlag &&& NT_GLOBAL_FLAG_UST ≠ 0 then 0xc2 else 0x88)
    · rw [if_pos hb] at h
      have ha := ParseHeapRecord64_address h
      have hs := ParseHeapRecord64_size h
      exact ⟨ha, hs, raw, rfl, hb⟩
    · rw [if_neg hb] at h
      simp at h

/-- The block loop of `AnalyzeLFHZone64` over the first `j` blocks of a
subsegment, when their headers can be read and the records of the busy ones
can be parsed: it collects the records that the specification gives for them
and goes on with block `j`. -/
theorem lfhBlocks64_collected (t : Target) (params : CommonParams) (blockSize first : Nat)
    (hbs : blockSize < 2 ^ 16) :
    ∀ (j m : Nat) (recs : List HeapRecord), first + j * (blockSize * 16) < 2 ^ 64 →
      (∀ i, i < j → ∃ raw, readBytes t (first + i * (blockSize * 16)) 16 = some raw) →
      (∀ i, i < j → ∀ raw, readBytes t (first + i * (blockSize * 16)) 16 = some raw →
        (Heap64Entry.ofBytes raw).ExtendedBlockSignature =
          (if params.ntGlobalFlag &&& NT_GLOBAL_FLAG_UST ≠ 0 then 0xc2 else 0x88) →
        ParseHeapRecord64 t (first + i * (blockSize * 16))
          { Heap64Entry.ofBytes raw with Size := blockSize } params.ntGlobalFlag ≠ none) →
      lfhBlocks64 t params blockSize (j + m) first recs =
        lfhBlocks64 t params blockSize m (first + j * (blockSize * 16))
          (recs ++ (List.range j).filterMap (lfhBlockRecord64 t params blockSize first)) := by
  intro j
  induction j with
  | zero =>
    intro m recs _ _ _
    simp
  | succ j ih =>
    intro m recs hlt hread hparse
    have hlt' : first + j * (blockSize * 16) < 2 ^ 64 := by
      have : j * (blockSize * 16) ≤ (j + 1) * (blockSize * 16) :=
        Nat.mul_le_mul_right _ (Nat.le_succ j)
      omega
    have e : j + 1 + m = j + (m + 1) := by omega
    rw [e, ih (m + 1) recs hlt' (fun i hi => hread i (by omega))
      (fun i hi => hparse i (by omega))]
    obtain ⟨raw, hraw⟩ := hread j (by omega)
    have hu : u32 (blockSize * 16) = blockSize * 16 := u32_eq_self (by omega)
    have hsucc : first + (j + 1) * (blockSize * 16) =
        first + j * (blockSize * 16) + blockSize * 16 := by
      rw [Nat.succ_mul]; omega
    have hnext : u64 (first + j * (blockSize * 16) + u32 (blockSize * 16)) =
        first + (j + 1) * (blockSize * 16) := by
      rw [hu, ← hsucc]; exact u64_eq_self hlt
    rw [lfhBlocks64_step t params blockSize m _ _ raw _ hraw hnext]
    have hrec : lfhBlockRecord64 t params blockSize first j =
        if (Heap64Entry.ofBytes raw).ExtendedBlockSignature =
            (if params.ntGlobalFlag &&& NT_GLOBAL_FLAG_UST ≠ 0 then 0xc2 else 0x88) then
          ParseHeapRecord64 t (first + j * (blockSize * 16))
            { Heap64Entry.ofBytes raw with Size := blockSize } params.ntGlobalFlag
        else none := by
      unfold lfhBlockRecord64
      rw [hraw]
    rw [List.range_succ, List.filterMap_append]
    by_cases hb : (Heap64Entry.ofBytes raw).ExtendedBlockSignature =
        (if params.ntGlobalFlag &&& NT_GLOBAL_FLAG_UST ≠ 0 then 0xc2 else 0x88)
    · rw [if_pos hb] at hrec ⊢
      cases hp : ParseHeapRecord64 t (first + j * (blockSize * 16))
          { Heap64Entry.ofBytes raw with Size := blockSize } params.ntGlobalFlag with
      | none => exact absurd hp (hparse j (by omega) raw hraw hb)
      | some r =>
        rw [hp] at hrec
        simp only [List.filterMap_cons, List.filterMap_nil, hrec, List.append_assoc, Option.elim]
    · rw [if_neg hb] at hrec ⊢
      simp only [List.filterMap_cons, List.filterMap_nil, hrec, List.append_nil]

/-- The block loop of `AnalyzeLFHZone64` returns `FALSE` at the first block
whose header cannot be read or whose record, the block being busy, cannot be
parsed; the records collected before are kept. -/
theorem lfhBlocks64_fails (t : Target) (params : CommonParams) (blockSize first : Nat)
    (hbs : blockSize < 2 ^ 16) (j m : Nat) (recs : List HeapRecord)
    (hlt : first + j * (blockSize * 16) < 2 ^ 64)
    (hread : ∀ i, i < j → ∃ raw, readBytes t (first + i * (blockSize * 16)) 16 = some raw)
    (hparse : ∀ i, i < j → ∀ raw, readBytes t (first + i * (blockSize * 16)) 16 = some raw →
      (Heap64Entry.ofBytes raw).ExtendedBlockSignature =
        (if params.ntGlobalFlag &&& NT_GLOBAL_FLAG_UST ≠ 0 then 0xc2 else 0x88) →
      ParseHeapRecord64 t (first + i * (blockSize * 16))
        { Heap64Entry.ofBytes raw with Size := blockSize } params.ntGlobalFlag ≠ none)
    (hbad : readBytes t (first + j * (blockSize * 16)) 16 = none ∨
      ∃ raw, readBytes t (first + j * (blockSize * 16)) 16 = some raw ∧
        (Heap64Entry.ofBytes raw).ExtendedBlockSignature =
          (if params.ntGlobalFlag &&& NT_GLOBAL_FLAG_UST ≠ 0 then 0xc2 else 0x88) ∧
        ParseHeapRecord64 t (first + j * (blockSize * 16))
          { Heap64Entry.ofBytes raw with Size := blockSize } params.ntGlobalFlag = none) :
    lfhBlocks64 t params blockSize (j + (m + 1)) first recs =
      (false, recs ++ (List.range j).filterMap (lfhBlockRecord64 t params blockSize first)) := by
  rw [lfhBlocks64_collected t params blockSize first hbs j (m + 1) recs hlt hread hparse]
  rcases hbad with hnone | ⟨raw, hraw, hb, hp⟩
  · unfold lfhBlocks64
    rw [hnone]
  · rw [lfhBlocks64_step t params blockSize m _ _ raw _ hraw rfl, if_pos hb, hp]
    rfl

/-! ## The subsegments of an LFH zone -/

/-- A subsegment of a zone of a 32-bit target before Windows 8, with blocks:
the blocks start at `UserBlocks + 0x10`. -/
theorem lfhSubsegments32_blocks_old (t : Target) (params : CommonParams)
    (freePointer fuel s : Nat) (recs : List HeapRecord) (bs bc ub : Nat)
    (hos : ¬ params.osVersion ≥ t.OS_VERSION_WIN8)
    (hin : u64 (s + 0x20) ≤ freePointer)
    (hbs : READMEMORY t (s + 0x10) 2 = some bs) (hbs0 : bs ≠ 0)
    (hbc : READMEMORY t (s + 0x14) 2 = some bc)
    (hub : READMEMORY t (s + 0x4) 4 = some ub) (hub0 : ub ≠ 0)
    (hfirst : ub + 0x10 < 2 ^ 32) (b : Bool) (r : List HeapRecord)
    (hblocks : lfhBlocks32 t params bs bc (ub + 0x10) recs = (b, r)) :
    lfhSubsegments32 t params freePointer (fuel + 1) s recs =
      if b then lfhSubsegments32 t params freePointer fuel (u64 (s + 0x20)) r
      else some (false, r) := by
  conv_lhs => unfold lfhSubsegments32
  simp only [if_neg hos]
  rw [if_pos hin, hbs]
  simp only []
  rw [if_neg hbs0, hbc]
  simp only []
  rw [hub]
  simp only []
  rw [if_pos hub0, u32_eq_self hfirst, hblocks]
  cases b <;> rfl

/-- A subsegment of a zone of a 32-bit target on Windows 8 and later, with
blocks: the blocks start at `UserBlocks` plus the 16-bit value at
`UserBlocks + 0x10`. -/
theorem lfhSubsegments32_blocks_new (t : Target) (params : CommonParams)
    (freePointer fuel s : Nat) (recs : List HeapRecord) (bs bc ub fao : Nat)
    (hos : params.osVersion ≥ t.OS_VERSION_WIN8)
    (hin : u64 (s + 0x28) ≤ freePointer)
    (hbs : READMEMORY t (s + 0x14) 2 = some bs) (hbs0 : bs ≠ 0)
    (hbc : READMEMORY t (s + 0x18) 2 = some bc)
    (hub : READMEMORY t (s + 0x4) 4 = some ub) (hub0 : ub ≠ 0)
    (hoff : ub + 0x10 < 2 ^ 32)
    (hfao : READMEMORY t (ub + 0x10) 2 = some fao)
    (hfirst : ub + fao < 2 ^ 32) (b : Bool) (r : List HeapRecord)
    (hblocks : lfhBlocks32 t params bs bc (ub + fao) recs = (b, r)) :
    lfhSubsegments32 t params freePointer (fuel + 1) s recs =
      if b then lfhSubsegments32 t params freePointer fuel (u64 (s + 0x28)) r
      else some (false, r) := by
  conv_lhs => unfold lfhSubsegments32
  simp only [if_pos hos]
  rw [if_pos hin, hbs]
  simp only []
  rw [if_neg hbs0, hbc]
  simp only []
  rw [hub]
  simp only []
  rw [if_pos hub0, u32_eq_self hoff, hfao]
  simp only []
  rw [u32_eq_self hfirst, hblocks]
  cases b <;> rfl

/-- A subsegment of a zone of a 64-bit target before Windows 8, with blocks:
the blocks start at `UserBlocks` plus the size of `_LFH_BLOCK_ZONE`. -/
theorem lfhSubsegments64_blocks_old (t : Target) (params : CommonParams)
    (freePointer fuel s : Nat) (recs : List HeapRecord) (bs bc ub : Nat)
    (hos : ¬ params.osVersion ≥ t.OS_VERSION_WIN8)
    (hin : u64 (s + u32 (t.typeSize TypeName.HEAP_SUBSEGMENT)) ≤ freePointer)
    (hbs : GetFieldValue t s FieldName.HEAP_SUBSEGMENT_BlockSize 2 = some bs) (hbs0 : bs ≠ 0)
    (hbc : GetFieldValue t s FieldName.HEAP_SUBSEGMENT_BlockCount 2 = some bc)
    (hub : GetFieldValue t s FieldName.HEAP_SUBSEGMENT_UserBlocks 8 = some ub) (hub0 : ub ≠ 0)
    (b : Bool) (r : List HeapRecord)
    (hblocks : lfhBlocks64 t params bs bc
      (u64 (ub + u32 (t.typeSize TypeName.LFH_BLOCK_ZONE))) recs = (b, r)) :
    lfhSubsegments64 t params freePointer (fuel + 1) s recs =
      if b then lfhSubsegments64 t params freePointer fuel
          (u64 (s + u32 (t.typeSize TypeName.HEAP_SUBSEGMENT))) r
      else some (false, r) := by
  conv_lhs => unfold lfhSubsegments64
  simp only [if_neg hos]
  rw [if_pos hin, hbs]
  simp only []
  rw [if_neg hbs0, hbc]
  simp only []
  rw [hub]
  simp only []
  rw [if_pos hub0, hblocks]
  cases b <;> rfl

/-- A subsegment of a zone of a 64-bit target on Windows 8 and later, with
blocks: the blocks start at `UserBlocks` plus its `FirstAllocationOffset`. -/
theorem lfhSubsegments64_blocks_new (t : Target) (params : CommonParams)
    (freePointer fuel s : Nat) (recs : List HeapRecord) (bs bc ub fao : Nat)
    (hos : params.osVersion ≥ t.OS_VERSION_WIN8)
    (hin : u64 (s + u32 (t.typeSize TypeName.HEAP_SUBSEGMENT)) ≤ freePointer)
    (hbs : GetFieldValue t s FieldName.HEAP_SUBSEGMENT_BlockSize 2 = some bs) (hbs0 : bs ≠ 0)
    (hbc : GetFieldValue t s FieldName.HEAP_SUBSEGMENT_BlockCount 2 = some bc)
    (hub : GetFieldValue t s FieldName.HEAP_SUBSEGMENT_UserBlocks 8 = some ub) (hub0 : ub ≠ 0)
    (hfao : GetFieldValue t ub FieldName.HEAP_USERDATA_HEADER_FirstAllocationOffset 2 = some fao)
    (b : Bool) (r : List HeapRecord)
    (hblocks : lfhBlocks64 t params bs bc (u64 (ub + fao)) recs = (b, r)) :
    lfhSubsegments64 t params freePointer (fuel + 1) s recs =
      if b then lfhSubsegments64 t params freePointer fuel
          (u64 (s + u32 (t.typeSize TypeName.HEAP_SUBSEGMENT))) r
      else some (false, r) := by
  conv_lhs => unfold lfhSubsegments64
  simp only [if_pos hos]
  rw [if_pos hin, hbs]
  simp only []
  rw [if_neg hbs0, hbc]
  simp only []
  rw [hub]
  simp only []
  rw [if_pos hub0, hfao]
  simp only []
  rw [hblocks]
  cases b <;> rfl

/-- A subsegment whose `BlockSize` is 0 ends the zone of a 32-bit target. -/
theorem lfhSubsegments32_unused (t : Target) (params : CommonParams)
    (freePointer fuel s : Nat) (recs : List HeapRecord)
    (hin : u64 (s + (if params.osVersion ≥ t.OS_VERSION_WIN8 then 0x28 else 0x20)) ≤
      freePointer)
    (hbs : READMEMORY t
      (s + (if params.osVersion ≥ t.OS_VERSION_WIN8 then 0x14 else 0x10)) 2 = some 0) :
    lfhSubsegments32 t params freePointer (fuel + 1) s recs = some (true, recs) := by
  unfold lfhSubsegments32
  simp only []
  rw [if_pos hin, hbs]
  simp only []
  exact if_pos trivial

/-- A subsegment whose `BlockSize` is 0 ends the zone of a 64-bit target. -/
theorem lfhSubsegments64_unused (t : Target) (params : CommonParams)
    (freePointer fuel s : Nat) (recs : List HeapRecord)
    (hin : u64 (s + u32 (t.typeSize TypeName.HEAP_SUBSEGMENT)) ≤ freePointer)
    (hbs : GetFieldValue t s FieldName.HEAP_SUBSEGMENT_BlockSize 2 = some 0) :
    lfhSubsegments64 t params freePointer (fuel + 1) s recs = some (true, recs) := by
  unfold lfhSubsegments64
  simp only []
  rw [if_pos hin, hbs]
  simp only []
  exact if_pos trivial

/-! ## C22 -/

set_option maxRecDepth 100000 in
/-- C22, as the claim states it, fails: in `lfhUnparsedTarget` (32-bit, before
Windows 8, UST set) the subsegment at 0x21010 has `BlockSize` 8, `BlockCount` 3
and user blocks at 0x11f0, so that block 2 lies at `0x1200 + 2 * 64`; its raw
header holds the signature 0xc2, but its `extra`, 0xffff, is more than its 64
bytes: the parser fails, `AnalyzeLFHZone32` returns `FALSE` and no record is
collected for the block. -/
theorem C22_counterexample :
    READMEMORY lfhUnparsedTarget (0x21010 + 0x10) 2 = some 8 ∧
    READMEMORY lfhUnparsedTarget (0x21010 + 0x14) 2 = some 3 ∧
    READMEMORY lfhUnparsedTarget (0x21010 + 0x4) 4 = some 0x11f0 ∧
    (readBytes lfhUnparsedTarget (0x11f0 + 0x10 + 2 * (8 * 8)) 8).map
        (fun raw => (HeapEntry.ofBytes raw).ExtendedBlockSignature) = some 0xc2 ∧
    AnalyzeLFHZone32 10 lfhUnparsedTarget 0x21000 (testParams NT_GLOBAL_FLAG_UST) [] =
      some (false, [⟨0xaaaa, 64, 0x1200, 56, 0x1218⟩]) :=
  ⟨by rfl, by rfl, by rfl, by rfl, by rfl⟩

/-- C22, amended.  In `AnalyzeLFHZone32`, for a subsegment with non-zero
`BlockSize` and non-zero `UserBlocks`, the blocks start at `first =
UserBlocks + 0x10` before Windows 8 and at `first = UserBlocks +` (the 16-bit
value at `UserBlocks + 0x10`) on Windows 8 and later, and block `i` lies at
`first + i * BlockSize * 8`.  As long as the header of every block can be read
and the record of every busy block can be parsed, the records collected are
those of the blocks whose raw header holds the signature 0xc2 (UST set) or
0x88 (UST clear), one each, in the order of the blocks; every such record has
the address of its block and `size = BlockSize * 8`, whatever `Size` the raw
header holds.  At the first block whose header cannot be read, or that is busy
and whose record cannot be parsed, the walker returns `FALSE` and collects
nothing more; with neither UST nor HPA set the parser never fails.
`AnalyzeLFHZone64` does the same with units and headers of 16 bytes, the
fields read by symbol, and `first = UserBlocks + sizeof(_LFH_BLOCK_ZONE)` before
Windows 8, `first = UserBlocks + FirstAllocationOffset` on Windows 8 and
later. -/
theorem C22_lfh_blocks_of_subsegment :
    (∀ (t : Target) (params : CommonParams) (blockSize first n : Nat) (recs : List HeapRecord),
      blockSize < 2 ^ 16 → first + n * (blockSize * 8) < 2 ^ 64 →
      (∀ i, i < n → ∃ raw, readBytes t (first + i * (blockSize * 8)) 8 = some raw) →
      (∀ i, i < n → ∀ raw, readBytes t (first + i * (blockSize * 8)) 8 = some raw →
        (HeapEntry.ofBytes raw).ExtendedBlockSignature =
          (if params.ntGlobalFlag &&& NT_GLOBAL_FLAG_UST ≠ 0 then 0xc2 else 0x88) →
        ParseHeapRecord32 t (first + i * (blockSize * 8))
          { HeapEntry.ofBytes raw with Size := blockSize } params.ntGlobalFlag ≠ none) →
      lfhBlocks32 t params blockSize n first recs =
        (true, recs ++ (List.range n).filterMap (lfhBlockRecord32 t params blockSize first))) ∧
    (∀ (t : Target) (params : CommonParams) (blockSize first j m : Nat)
        (recs : List HeapRecord),
      blockSize < 2 ^ 16 → first + j * (blockSize * 8) < 2 ^ 64 →
      (∀ i, i < j → ∃ raw, readBytes t (first + i * (blockSize * 8)) 8 = some raw) →
      (∀ i, i < j → ∀ raw, readBytes t (first + i * (blockSize * 8)) 8 = some raw →
        (HeapEntry.ofBytes raw).ExtendedBlockSignature =
          (if params.ntGlobalFlag &&& NT_GLOBAL_FLAG_UST ≠ 0 then 0xc2 else 0x88) →
        ParseHeapRecord32 t (first + i * (blockSize * 8))
          { HeapEntry.ofBytes raw with Size := blockSize } params.ntGlobalFlag ≠ none) →
      (readBytes t (first + j * (blockSize * 8)) 8 = none ∨
        ∃ raw, readBytes t (first + j * (blockSize * 8)) 8 = some raw ∧
          (HeapEntry.ofBytes raw).ExtendedBlockSignature =
            (if params.ntGlobalFlag &&& NT_GLOBAL_FLAG_UST ≠ 0 then 0xc2 else 0x88) ∧
          ParseHeapRecord32 t (first + j * (blockSize * 8))
            { HeapEntry.ofBytes raw with Size := blockSize } params.ntGlobalFlag = none) →
      lfhBlocks32 t params blockSize (j + (m + 1)) first recs =
        (false, recs ++ (List.range j).filterMap (lfhBlockRecord32 t params blockSize first))) ∧
    (∀ (t : Target) (params : CommonParams) (blockSize first i : Nat) (r : HeapRecord),
      blockSize < 2 ^ 16 → lfhBlockRecord32 t params blockSize first i = some r →
      r.address = first + i * (blockSize * 8) ∧ r.size = blockSize * 8 ∧
      ∃ raw, readBytes t (first + i * (blockSize * 8)) 8 = some raw ∧
        (HeapEntry.ofBytes raw).ExtendedBlockSignature =
          (if params.ntGlobalFlag &&& NT_GLOBAL_FLAG_UST ≠ 0 then 0xc2 else 0x88)) ∧
    (∀ (t : Target) (address flag : Nat) (entry : HeapEntry) (entry64 : Heap64Entry),
      flag &&& (NT_GLOBAL_FLAG_UST ||| NT_GLOBAL_FLAG_HPA) = 0 →
      ParseHeapRecord32 t address entry flag ≠ none ∧
      ParseHeapRecord64 t address entry64 flag ≠ none) ∧
    (∀ (t : Target) (params : CommonParams) (freePointer fuel s : Nat) (recs : List HeapRecord)
        (bs bc ub : Nat),
      ¬ params.osVersion ≥ t.OS_VERSION_WIN8 → u64 (s + 0x20) ≤ freePointer →
      READMEMORY t (s + 0x10) 2 = some bs → bs ≠ 0 →
      READMEMORY t (s + 0x14) 2 = some bc →
      READMEMORY t (s + 0x4) 4 = some ub → ub ≠ 0 → ub + 0x10 < 2 ^ 32 →
      ∀ (b : Bool) (r : List HeapRecord),
        lfhBlocks32 t params bs bc (ub + 0x10) recs = (b, r) →
        lfhSubsegments32 t params freePointer (fuel + 1) s recs =
          if b then lfhSubsegments32 t params freePointer fuel (u64 (s + 0x20)) r
          else some (false, r)) ∧
    (∀ (t : Target) (params : CommonParams) (freePointer fuel s : Nat) (recs : List HeapRecord)
        (bs bc ub fao : Nat),
      params.osVersion ≥ t.OS_VERSION_WIN8 → u64 (s + 0x28) ≤ freePointer →
      READMEMORY t (s + 0x14) 2 = some bs → bs ≠ 0 →
      READMEMORY t (s + 0x18) 2 = some bc →
      READMEMORY t (s + 0x4) 4 = some ub → ub ≠ 0 → ub + 0x10 < 2 ^ 32 →
      READMEMORY t (ub + 0x10) 2 = some fao → ub + fao < 2 ^ 32 →
      ∀ (b : Bool) (r : List HeapRecord),
        lfhBlocks32 t params bs bc (ub + fao) recs = (b, r) →
        lfhSubsegments32 t params freePointer (fuel + 1) s recs =
          if b then lfhSubsegments32 t params freePointer fuel (u64 (s + 0x28)) r
          else some (false, r)) ∧
    (∀ (t : Target) (params : CommonParams) (blockSize first n : Nat) (recs : List HeapRecord),
      blockSize < 2 ^ 16 → first + n * (blockSize * 16) < 2 ^ 64 →
      (∀ i, i < n → ∃ raw, readBytes t (first + i * (blockSize * 16)) 16 = some raw) →
      (∀ i, i < n → ∀ raw, readBytes t (first + i * (blockSize * 16)) 16 = some raw →
        (Heap64Entry.ofBytes raw).ExtendedBlockSignature =
          (if params.ntGlobalFlag &&& NT_GLOBAL_FLAG_UST ≠ 0 then 0xc2 else 0x88) →
        ParseHeapRecord64 t (first + i * (blockSize * 16))
          { Heap64Entry.ofBytes raw with Size := blockSize } params.ntGlobalFlag ≠ none) →
      lfhBlocks64 t params blockSize n first recs =
        (true, recs ++ (List.range n).filterMap (lfhBlockRecord64 t params blockSize first))) ∧
    (∀ (t : Target) (params : CommonParams) (blockSize first j m : Nat)
        (recs : List HeapRecord),
      blockSize < 2 ^ 16 → first + j * (blockSize * 16) < 2 ^ 64 →
      (∀ i, i < j → ∃ raw, readBytes t (first + i * (blockSize * 16)) 16 = some raw) →
      (∀ i, i < j → ∀ raw, readBytes t (first + i * (blockSize * 16)) 16 = some raw →
        (Heap64Entry.ofBytes raw).ExtendedBlockSignature =
          (if params.ntGlobalFlag &&& NT_GLOBAL_FLAG_UST ≠ 0 then 0xc2 else 0x88) →
        ParseHeapRecord64 t (first + i * (blockSize * 16))
          { Heap64Entry.ofBytes raw with Size := blockSize } params.ntGlobalFlag ≠ none) →
      (readBytes t (first + j * (blockSize * 16)) 16 = none ∨
        ∃ raw, readBytes t (first + j * (blockSize * 16)) 16 = some raw ∧
          (Heap64Entry.ofBytes raw).ExtendedBlockSignature =
            (if params.ntGlobalFlag &&& NT_GLOBAL_FLAG_UST ≠ 0 then 0xc2 else 0x88) ∧
          ParseHeapRecord64 t (first + j * (blockSize * 16))
            { Heap64Entry.ofBytes raw with Size := blockSize } params.ntGlobalFlag = none) →
      lfhBlocks64 t params blockSize (j + (m + 1)) first recs =
        (false, recs ++ (List.range j).filterMap (lfhBlockRecord64 t params blockSize first))) ∧
    (∀ (t : Target) (params : CommonParams) (blockSize first i : Nat) (r : HeapRecord),
      blockSize < 2 ^ 16 → lfhBlockRecord64 t params blockSize first i = some r →
      r.address = first + i * (blockSize * 16) ∧ r.size = blockSize * 16 ∧
      ∃ raw, readBytes t (first + i * (blockSize * 16)) 16 = some raw ∧
        (Heap64Entry.ofBytes raw).ExtendedBlockSignature =
          (if params.ntGlobalFlag &&& NT_GLOBAL_FLAG_UST ≠ 0 then 0xc2 else 0x88)) ∧
    (∀ (t : Target) (params : CommonParams) (freePointer fuel s : Nat) (recs : List HeapRecord)
        (bs bc ub : Nat),
      ¬ params.osVersion ≥ t.OS_VERSION_WIN8 →
      u64 (s + u32 (t.typeSize TypeName.HEAP_SUBSEGMENT)) ≤ freePointer →
      GetFieldValue t s FieldName.HEAP_SUBSEGMENT_BlockSize 2 = some bs → bs ≠ 0 →
      GetFieldValue t s FieldName.HEAP_SUBSEGMENT_BlockCount 2 = some bc →
      GetFieldValue t s FieldName.HEAP_SUBSEGMENT_UserBlocks 8 = some ub → ub ≠ 0 →
      ∀ (b : Bool) (r : List HeapRecord),
        lfhBlocks64 t params bs bc (u64 (ub + u32 (t.typeSize TypeName.LFH_BLOCK_ZONE))) recs =
          (b, r) →
        lfhSubsegments64 t params freePointer (fuel + 1) s recs =
          if b then lfhSubsegments64 t params freePointer fuel
              (u64 (s + u32 (t.typeSize TypeName.HEAP_SUBSEGMENT))) r
          else some (false, r)) ∧
    (∀ (t : Target) (params : CommonParams) (freePointer fuel s : Nat) (recs : List HeapRecord)
        (bs bc ub fao : Nat),
      params.osVersion ≥ t.OS_VERSION_WIN8 →
      u64 (s + u32 (t.typeSize TypeName.HEAP_SUBSEGMENT)) ≤ freePointer →
      GetFieldValue t s FieldName.HEAP_SUBSEGMENT_BlockSize 2 = some bs → bs ≠ 0 →
      GetFieldValue t s FieldName.HEAP_SUBSEGMENT_BlockCount 2 = some bc →
      GetFieldValue t s FieldName.HEAP_SUBSEGMENT_UserBlocks 8 = some ub → ub ≠ 0 →
      GetFieldValue t ub FieldName.HEAP_USERDATA_HEADER_FirstAllocationOffset 2 = some fao →
      ∀ (b : Bool) (r : List HeapRecord),
        lfhBlocks64 t params bs bc (u64 (ub + fao)) recs = (b, r) →
        lfhSubsegments64 t params freePointer (fuel + 1) s recs =
          if b then lfhSubsegments64 t params freePointer fuel
              (u64 (s + u32 (t.typeSize TypeName.HEAP_SUBSEGMENT))) r
          else some (false, r)) := by
  refine ⟨?_, ?_, ?_, ?_, ?_, ?_, ?_, ?_, ?_, ?_, ?_⟩
  · intro t params blockSize first n recs hbs hlt hread hparse
    have h := lfhBlocks32_collected t params blockSize first hbs n 0 recs hlt hread hparse
    rw [Nat.add_zero] at h
    rw [h]
    rfl
  · intro t params blockSize first j m recs hbs hlt hread hparse hbad
    exact lfhBlocks32_fails t params blockSize first hbs j m recs hlt hread hparse hbad
  · intro t params blockSize first i r hbs h
    obtain ⟨h1, h2, h3⟩ := lfhBlockRecord32_some h
    exact ⟨h1, by rw [h2]; exact u32_eq_self (by omega), h3⟩
  · intro t address flag entry entry64 hflag
    constructor
    · rw [ParseHeapRecord32_neither t address flag entry hflag]; simp
    · rw [ParseHeapRecord64_neither t address flag entry64 hflag]; simp
  · intro t params freePointer fuel s recs bs bc ub hos hin hbs hbs0 hbc hub hub0 hfirst b r hb
    exact lfhSubsegments32_blocks_old t params freePointer fuel s recs bs bc ub hos hin hbs hbs0
      hbc hub hub0 hfirst b r hb
  · intro t params freePointer fuel s recs bs bc ub fao hos hin hbs hbs0 hbc hub hub0 hoff hfao
      hfirst b r hb
    exact lfhSubsegments32_blocks_new t params freePointer fuel s recs bs bc ub fao hos hin hbs
      hbs0 hbc hub hub0 hoff hfao hfirst b r hb
  · intro t params blockSize first n recs hbs hlt hread hparse
    have h := lfhBlocks64_collected t params blockSize first hbs n 0 recs hlt hread hparse
    rw [Nat.add_zero] at h
    rw [h]
    rfl
  · intro t params blockSize first j m recs hbs hlt hread hparse hbad
    exact lfhBlocks64_fails t params blockSize first hbs j m recs hlt hread hparse hbad
  · intro t params blockSize first i r hbs h
    obtain ⟨h1, h2, h3⟩ := lfhBlockRecord64_some h
    exact ⟨h1, by rw [h2]; exact u32_eq_self (by omega), h3⟩
  · intro t params freePointer fuel s recs bs bc ub hos hin hbs hbs0 hbc hub hub0 b r hb
    exact lfhSubsegments64_blocks_old t params freePointer fuel s recs bs bc ub hos hin hbs hbs0
      hbc hub hub0 b r hb
  · intro t params freePointer fuel s recs bs bc ub fao hos hin hbs hbs0 hbc hub hub0 hfao b r hb
    exact lfhSubsegments64_blocks_new t params freePointer fuel s recs bs bc ub fao hos hin hbs
      hbs0 hbc hub hub0 hfao b r hb

set_option maxRecDepth 100000 in
/-- C22, witness: the subsegment of the overlap scenario (no flag set,
`BlockSize` 8, `BlockCount` 2, blocks from 0x1200): both raw headers hold the
signature 0x88 and the walker collects the records of the blocks at 0x1200 and
0x1240, both of size 64. -/
theorem C22_lfh_blocks_of_subsegment_witness :
    lfhBlocks32 overlapTarget (testParams 0) 8 2 0x1200 [] =
      (true, [] ++ (List.range 2).filterMap (lfhBlockRecord32 overlapTarget (testParams 0) 8 0x1200)) ∧
    (List.range 2).filterMap (lfhBlockRecord32 overlapTarget (testParams 0) 8 0x1200) =
      [⟨0, 64, 0x1200, 4294967224, 0x1208⟩, ⟨0, 64, 0x1240, 4294967224, 0x1248⟩] :=
  ⟨C22_lfh_blocks_of_subsegment.1 overlapTarget (testParams 0) 8 0x1200 2 [] (by decide)
      (by decide)
      (fun i hi => by
        have h : i = 0 ∨ i = 1 := by omega
        rcases h with rfl | rfl
        · exact ⟨[0, 0, 0, 0, 0, 0, 0, 0x88], by rfl⟩
        · exact ⟨[0, 0, 0, 0, 0, 0, 0, 0x88], by rfl⟩)
      (fun i _ raw _ _ =>
        (C22_lfh_blocks_of_subsegment.2.2.2.1 overlapTarget _ 0 _
          ⟨0, 0, 0, 0, 0, 0, 0⟩ (by decide)).1),
    by rfl⟩

/-! ## C23 -/

/-- The body of the scan loop of `AnalyzeHeap32` at an entry that decodes with
`ExtendedBlockSignature` 0x03 when UST or HPA is set: the loop is left. -/
theorem entryStep32_sentinel (t : Target) (params : CommonParams) (encoding : List Nat)
    (segment : HeapSegment) (address : Nat) (e : List Nat)
    (hflag : params.ntGlobalFlag &&& (NT_GLOBAL_FLAG_UST ||| NT_GLOBAL_FLAG_HPA) ≠ 0)
    (he : readBytes t address 8 = some e)
    (hsum : (DecodeHeapEntry e encoding).2 = true)
    (hsig : (HeapEntry.ofBytes (DecodeHeapEntry e encoding).1).ExtendedBlockSignature = 0x03) :
    entryStep32 t params encoding segment address = EntryStep.stop Status.ok := by
  unfold entryStep32
  rw [he]
  simp only []
  rw [hsum]
  simp only [Bool.true_eq_false, if_false]
  split
  · rfl
  · rw [if_pos ⟨hflag, hsig⟩]

/-- The walk of a segment of a 32-bit target whose first entry is the
sentinel. -/
theorem segment32_sentinel (t : Target) (params : CommonParams) (encoding : List Nat)
    (lfh : List HeapRecord) (fuel heapAddress : Nat) (raw : List Nat) (segment : HeapSegment)
    (e : List Nat) (hraw : readBytes t heapAddress 64 = some raw)
    (hseg : HeapSegment.ofBytes raw = segment)
    (hlt : segment.FirstEntry < segment.LastValidEntry)
    (hflag : params.ntGlobalFlag &&& (NT_GLOBAL_FLAG_UST ||| NT_GLOBAL_FLAG_HPA) ≠ 0)
    (he : readBytes t segment.FirstEntry 8 = some e)
    (hsum : (DecodeHeapEntry e encoding).2 = true)
    (hsig : (HeapEntry.ofBytes (DecodeHeapEntry e encoding).1).ExtendedBlockSignature = 0x03) :
    backendRecords32 t params encoding segment (fuel + 1) segment.FirstEntry = (Status.ok, []) ∧
    scanReads32 t params encoding segment (fuel + 1) segment.FirstEntry = [segment.FirstEntry] ∧
    segment32 t params encoding (sortRecords lfh) (fuel + 1) heapAddress =
      ⟨Status.ok,
        Call.StartSegment heapAddress segment.LastValidEntry ::
          ((lfhInSegment segment.FirstEntry segment.LastValidEntry (sortRecords lfh)).map
            Call.Register ++ [Call.FinishSegment heapAddress segment.LastValidEntry]),
        sub32 segment.Flink 0x10⟩ ∧
    (lfhInSegment segment.FirstEntry segment.LastValidEntry (sortRecords lfh)).Pairwise
      (fun x y => x.address ≤ y.address) ∧
    (∀ r, r ∈ lfhInSegment segment.FirstEntry segment.LastValidEntry (sortRecords lfh) ↔
      r ∈ lfh ∧ segment.FirstEntry < r.address ∧ r.address < segment.LastValidEntry) := by
  have hstep := entryStep32_sentinel t params encoding segment segment.FirstEntry e hflag he
    hsum hsig
  have hback : backendRecords32 t params encoding segment (fuel + 1) segment.FirstEntry =
      (Status.ok, []) := by
    unfold backendRecords32 backendRecords
    rw [if_pos hlt, hstep]
  refine ⟨hback, ?_, ?_, lfhInSegment_sorted _ _ (sortRecords_sorted lfh), ?_⟩
  · unfold scanReads32 scanReads
    rw [if_pos hlt, hstep]
  · have h := (segment32_emits t params encoding lfh (fuel + 1) heapAddress raw segment []
      hraw hseg hback).1
    rw [h]
    rfl
  · intro r
    unfold lfhInSegment
    rw [List.mem_filter, mem_sortRecords]
    simp

/-- The body of the scan loop of `AnalyzeHeap64` at an entry that decodes with
`ExtendedBlockSignature` 0x03 when UST or HPA is set: the loop is left. -/
theorem entryStep64_sentinel (t : Target) (params : CommonParams) (encoding : List Nat)
    (segment : Heap64Segment) (address : Nat) (e : List Nat)
    (hflag : params.ntGlobalFlag &&& (NT_GLOBAL_FLAG_UST ||| NT_GLOBAL_FLAG_HPA) ≠ 0)
    (he : readBytes t address 16 = some e)
    (hsum : (DecodeHeap64Entry e encoding).2 = true)
    (hsig : (Heap64Entry.ofBytes (DecodeHeap64Entry e encoding).1).ExtendedBlockSignature = 0x03) :
    entryStep64 t params encoding segment address = EntryStep.stop Status.ok := by
  unfold entryStep64
  rw [he]
  simp only []
  rw [hsum]
  simp only [Bool.true_eq_false, if_false]
  split
  · rfl
  · rw [if_pos ⟨hflag, hsig⟩]

/-- The walk of a segment of a 64-bit target whose first entry is the
sentinel. -/
theorem segment64_sentinel (t : Target) (params : CommonParams) (encoding : List Nat)
    (lfh : List HeapRecord) (fuel heapAddress : Nat) (raw : List Nat) (segment : Heap64Segment)
    (e : List Nat) (hraw : readBytes t heapAddress 112 = some raw)
    (hseg : Heap64Segment.ofBytes raw = segment)
    (hlt : segment.FirstEntry < segment.LastValidEntry)
    (hflag : params.ntGlobalFlag &&& (NT_GLOBAL_FLAG_UST ||| NT_GLOBAL_FLAG_HPA) ≠ 0)
    (he : readBytes t segment.FirstEntry 16 = some e)
    (hsum : (DecodeHeap64Entry e encoding).2 = true)
    (hsig : (Heap64Entry.ofBytes (DecodeHeap64Entry e encoding).1).ExtendedBlockSignature = 0x03) :
    backendRecords64 t params encoding segment (fuel + 1) segment.FirstEntry = (Status.ok, []) ∧
    scanReads64 t params encoding segment (fuel + 1) segment.FirstEntry = [segment.FirstEntry] ∧
    segment64 t params encoding (sortRecords lfh) (fuel + 1) heapAddress =
      ⟨Status.ok,
        Call.StartSegment heapAddress segment.LastValidEntry ::
          ((lfhInSegment segment.FirstEntry segment.LastValidEntry (sortRecords lfh)).map
            Call.Register ++ [Call.FinishSegment heapAddress segment.LastValidEntry]),
        sub64 segment.Flink 0x18⟩ ∧
    (lfhInSegment segment.FirstEntry segment.LastValidEntry (sortRecords lfh)).Pairwise
      (fun x y => x.address ≤ y.address) ∧
    (∀ r, r ∈ lfhInSegment segment.FirstEntry segment.LastValidEntry (sortRecords lfh) ↔
      r ∈ lfh ∧ segment.FirstEntry < r.address ∧ r.address < segment.LastValidEntry) := by
  have hstep := entryStep64_sentinel t params encoding segment segment.FirstEntry e hflag he
    hsum hsig
  have hback : backendRecords64 t params encoding segment (fuel + 1) segment.FirstEntry =
      (Status.ok, []) := by
    unfold backendRecords64 backendRecords
    rw [if_pos hlt, hstep]
  refine ⟨hback, ?_, ?_, lfhInSegment_sorted _ _ (sortRecords_sorted lfh), ?_⟩
  · unfold scanReads64 scanReads
    rw [if_pos hlt, hstep]
  · have h := (segment64_emits t params encoding lfh (fuel + 1) heapAddress raw segment []
      hraw hseg hback).1
    rw [h]
    rfl
  · intro r
    unfold lfhInSegment
    rw [List.mem_filter, mem_sortRecords]
    simp

/-- C23: with UST or HPA set, when the first entry of a segment, at
`FirstEntry < LastValidEntry`, decodes (its checksum is valid) with
`ExtendedBlockSignature` 0x03, the scan of the segment stops at this entry (it
is the one header read) with no backend record, whether or not the entry also
reaches the uncommitted pages; the walk of the segment is `StartSegment`, a
`Register` for each LFH record of the heap with `FirstEntry < address <
LastValidEntry` (those and no other), in non-decreasing order of address, then
`FinishSegment`. -/
theorem C23_sentinel_first_entry :
    (∀ (t : Target) (params : CommonParams) (encoding : List Nat) (lfh : List HeapRecord)
        (fuel heapAddress : Nat) (raw : List Nat) (segment : HeapSegment) (e : List Nat),
      readBytes t heapAddress 64 = some raw → HeapSegment.ofBytes raw = segment →
      segment.FirstEntry < segment.LastValidEntry →
      params.ntGlobalFlag &&& (NT_GLOBAL_FLAG_UST ||| NT_GLOBAL_FLAG_HPA) ≠ 0 →
      readBytes t segment.FirstEntry 8 = some e →
      (DecodeHeapEntry e encoding).2 = true →
      (HeapEntry.ofBytes (DecodeHeapEntry e encoding).1).ExtendedBlockSignature = 0x03 →
      backendRecords32 t params encoding segment (fuel + 1) segment.FirstEntry =
        (Status.ok, []) ∧
      scanReads32 t params encoding segment (fuel + 1) segment.FirstEntry =
        [segment.FirstEntry] ∧
      segment32 t params encoding (sortRecords lfh) (fuel + 1) heapAddress =
        ⟨Status.ok,
          Call.StartSegment heapAddress segment.LastValidEntry ::
            ((lfhInSegment segment.FirstEntry segment.LastValidEntry (sortRecords lfh)).map
              Call.Register ++ [Call.FinishSegment heapAddress segment.LastValidEntry]),
          sub32 segment.Flink 0x10⟩ ∧
      (lfhInSegment segment.FirstEntry segment.LastValidEntry (sortRecords lfh)).Pairwise
        (fun x y => x.address ≤ y.address) ∧
      (∀ r, r ∈ lfhInSegment segment.FirstEntry segment.LastValidEntry (sortRecords lfh) ↔
        r ∈ lfh ∧ segment.FirstEntry < r.address ∧ r.address < segment.LastValidEntry)) ∧
    (∀ (t : Target) (params : CommonParams) (encoding : List Nat) (lfh : List HeapRecord)
        (fuel heapAddress : Nat) (raw : List Nat) (segment : Heap64Segment) (e : List Nat),
      readBytes t heapAddress 112 = some raw → Heap64Segment.ofBytes raw = segment →
      segment.FirstEntry < segment.LastValidEntry →
      params.ntGlobalFlag &&& (NT_GLOBAL_FLAG_UST ||| NT_GLOBAL_FLAG_HPA) ≠ 0 →
      readBytes t segment.FirstEntry 16 = some e →
      (DecodeHeap64Entry e encoding).2 = true →
      (Heap64Entry.ofBytes (DecodeHeap64Entry e encoding).1).ExtendedBlockSignature = 0x03 →
      backendRecords64 t params encoding segment (fuel + 1) segment.FirstEntry =
        (Status.ok, []) ∧
      scanReads64 t params encoding segment (fuel + 1) segment.FirstEntry =
        [segment.FirstEntry] ∧
      segment64 t params encoding (sortRecords lfh) (fuel + 1) heapAddress =
        ⟨Status.ok,
          Call.StartSegment heapAddress segment.LastValidEntry ::
            ((lfhInSegment segment.FirstEntry segment.LastValidEntry (sortRecords lfh)).map
              Call.Register ++ [Call.FinishSegment heapAddress segment.LastValidEntry]),
          sub64 segment.Flink 0x18⟩ ∧
      (lfhInSegment segment.FirstEntry segment.LastValidEntry (sortRecords lfh)).Pairwise
        (fun x y => x.address ≤ y.address) ∧
      (∀ r, r ∈ lfhInSegment segment.FirstEntry segment.LastValidEntry (sortRecords lfh) ↔
        r ∈ lfh ∧ segment.FirstEntry < r.address ∧ r.address < segment.LastValidEntry)) :=
  ⟨fun t params encoding lfh fuel heapAddress raw segment e h1 h2 h3 h4 h5 h6 h7 =>
      segment32_sentinel t params encoding lfh fuel heapAddress raw segment e h1 h2 h3 h4 h5 h6 h7,
    fun t params encoding lfh fuel heapAddress raw segment e h1 h2 h3 h4 h5 h6 h7 =>
      segment64_sentinel t params encoding lfh fuel heapAddress raw segment e h1 h2 h3 h4 h5 h6 h7⟩

set_option maxRecDepth 100000 in
/-- C23, witness: the sentinel scenario: the first entry of the segment of
`sentinelTarget` decodes with `ExtendedBlockSignature` 0x03, the LFH walk has
found the blocks at 0x1200 and 0x1240, and the walk of the heap registers these
two and no backend record. -/
theorem C23_sentinel_first_entry_witness :
    AnalyzeLFH32 10 sentinelTarget 0x10000 (testParams NT_GLOBAL_FLAG_UST) [] =
      some (true, [⟨0xaaaa, 64, 0x1200, 56, 0x1218⟩, ⟨0xbbbb, 64, 0x1240, 48, 0x1258⟩]) ∧
    segment32 sentinelTarget (testParams NT_GLOBAL_FLAG_UST) testKey
        (sortRecords [⟨0xaaaa, 64, 0x1200, 56, 0x1218⟩, ⟨0xbbbb, 64, 0x1240, 48, 0x1258⟩])
        (8 + 1) 0x10000 =
      ⟨Status.ok,
        Call.StartSegment 0x10000 0x3000 ::
          ((lfhInSegment 0x1000 0x3000
              (sortRecords [⟨0xaaaa, 64, 0x1200, 56, 0x1218⟩,
                ⟨0xbbbb, 64, 0x1240, 48, 0x1258⟩])).map Call.Register ++
            [Call.FinishSegment 0x10000 0x3000]),
        sub32 0x100a8 0x10⟩ ∧
    AnalyzeHeap32 10 sentinelTarget 0x10000 (testParams NT_GLOBAL_FLAG_UST) =
      ⟨Status.ok,
        [Call.StartSegment 0x10000 0x3000,
         Call.Register ⟨0xaaaa, 64, 0x1200, 56, 0x1218⟩,
         Call.Register ⟨0xbbbb, 64, 0x1240, 48, 0x1258⟩,
         Call.FinishSegment 0x10000 0x3000]⟩ :=
  ⟨by rfl,
    (C23_sentinel_first_entry.1 sentinelTarget (testParams NT_GLOBAL_FLAG_UST) testKey
      [⟨0xaaaa, 64, 0x1200, 56, 0x1218⟩, ⟨0xbbbb, 64, 0x1240, 48, 0x1258⟩] 8 0x10000
      (segmentBytes 0x100a8 0x1000 0x3000 1) ⟨0x100a8, 0x1000, 0x3000, 1⟩
      (xorBytes 8 (entryBytes 0x10 1 3) testKey)
      (by rfl) (by rfl) (by decide) (by decide) (by rfl) (by rfl) (by rfl)).2.2.1,
    by rfl⟩

/-! ## C24 -/

/-- C24: `AnalyzeLFH32` and `AnalyzeLFH64` return `TRUE` and leave the list of
LFH records as it is when `FrontEndHeapType` is not 0x02, and when it is 0x02
and `FrontEndHeap` is null.  On a 32-bit target `FrontEndHeapType` is the
byte at `heap + 0xda` (before Windows 8) or `heap + 0xd6` (Windows 8 and
later), and `FrontEndHeap` the 32-bit value at `heap + 0xd4` or `heap + 0xd0`;
on a 64-bit target both are read by symbol. -/
theorem C24_no_lfh_no_record :
    (∀ (fuel : Nat) (t : Target) (heapAddress : Nat) (params : CommonParams)
        (lfhRecords : List HeapRecord) (type : Nat),
      READMEMORY t
          (heapAddress + (if params.osVersion ≥ t.OS_VERSION_WIN8 then 0xd6 else 0xda)) 1 =
        some type →
      (type ≠ 0x02 →
        AnalyzeLFH32 fuel t heapAddress params lfhRecords = some (true, lfhRecords)) ∧
      (type = 0x02 →
        READMEMORY t
            (heapAddress + (if params.osVersion ≥ t.OS_VERSION_WIN8 then 0xd0 else 0xd4)) 4 =
          some 0 →
        AnalyzeLFH32 fuel t heapAddress params lfhRecords = some (true, lfhRecords))) ∧
    (∀ (fuel : Nat) (t : Target) (heapAddress : Nat) (params : CommonParams)
        (lfhRecords : List HeapRecord) (type : Nat),
      GetFieldValue t heapAddress FieldName.HEAP_FrontEndHeapType 1 = some type →
      (type ≠ 0x02 →
        AnalyzeLFH64 fuel t heapAddress params lfhRecords = some (true, lfhRecords)) ∧
      (type = 0x02 →
        GetFieldValue t heapAddress FieldName.HEAP_FrontEndHeap 8 = some 0 →
        AnalyzeLFH64 fuel t heapAddress params lfhRecords = some (true, lfhRecords))) := by
  constructor
  · intro fuel t heapAddress params lfhRecords type htype
    constructor
    · intro hne
      unfold AnalyzeLFH32
      rw [htype]
      simp only []
      rw [if_pos hne]
    · intro heq hfront
      unfold AnalyzeLFH32
      rw [htype]
      simp only []
      rw [if_neg (not_not.2 heq), hfront]
      simp only []
      exact if_pos trivial
  · intro fuel t heapAddress params lfhRecords type htype
    constructor
    · intro hne
      unfold AnalyzeLFH64
      rw [htype]
      simp only []
      rw [if_pos hne]
    · intro heq hfront
      unfold AnalyzeLFH64
      rw [htype]
      simp only []
      rw [if_neg (not_not.2 heq), hfront]
      simp only []
      exact if_pos trivial

set_option maxRecDepth 100000 in
/-- C24, witness: the heap of `ustTarget` (before Windows 8) has
`FrontEndHeapType` 0 at `heap + 0xda`: `AnalyzeLFH32` returns `TRUE` with no
record. -/
theorem C24_no_lfh_no_record_witness :
    READMEMORY ustTarget (0x10000 + 0xda) 1 = some 0 ∧
    AnalyzeLFH32 10 ustTarget 0x10000 (testParams NT_GLOBAL_FLAG_UST) [] = some (true, []) :=
  ⟨by rfl,
    ((C24_no_lfh_no_record.1 10 ustTarget 0x10000 (testParams NT_GLOBAL_FLAG_UST) [] 0
      (by rfl)).1 (by decide))⟩

/-! ## C25 -/

/-- C25: in `AnalyzeLFHZone32` and `AnalyzeLFHZone64`, at a subsegment that
lies below `FreePointer` and whose `BlockSize` is read as 0, the loop over the
subsegments is left and the function returns `TRUE` with the records collected
so far, whatever the rest of the memory holds: nothing else of this subsegment
is read and no later subsegment is looked at.  Hence a zone whose first
subsegment has `BlockSize` 0 gives no record. -/
theorem C25_unused_subsegment_ends_the_zone :
    (∀ (t : Target) (params : CommonParams) (freePointer fuel s : Nat)
        (lfhRecords : List HeapRecord),
      u64 (s + (if params.osVersion ≥ t.OS_VERSION_WIN8 then 0x28 else 0x20)) ≤ freePointer →
      READMEMORY t (s + (if params.osVersion ≥ t.OS_VERSION_WIN8 then 0x14 else 0x10)) 2 =
        some 0 →
      lfhSubsegments32 t params freePointer (fuel + 1) s lfhRecords =
        some (true, lfhRecords)) ∧
    (∀ (t : Target) (params : CommonParams) (freePointer fuel s : Nat)
        (lfhRecords : List HeapRecord),
      u64 (s + u32 (t.typeSize TypeName.HEAP_SUBSEGMENT)) ≤ freePointer →
      GetFieldValue t s FieldName.HEAP_SUBSEGMENT_BlockSize 2 = some 0 →
      lfhSubsegments64 t params freePointer (fuel + 1) s lfhRecords =
        some (true, lfhRecords)) ∧
    (∀ (fuel : Nat) (t : Target) (zone : Nat) (params : CommonParams)
        (lfhRecords : List HeapRecord) (freePointer : Nat),
      READMEMORY t (zone + 0x8) 4 = some freePointer →
      AnalyzeLFHZone32 fuel t zone params lfhRecords =
        lfhSubsegments32 t params freePointer fuel (u64 (zone + 0x10)) lfhRecords) ∧
    (∀ (fuel : Nat) (t : Target) (zone : Nat) (params : CommonParams)
        (lfhRecords : List HeapRecord) (freePointer : Nat),
      GetFieldValue t zone FieldName.LFH_BLOCK_ZONE_FreePointer 8 = some freePointer →
      AnalyzeLFHZone64 fuel t zone params lfhRecords =
        lfhSubsegments64 t params freePointer fuel
          (u64 (zone + u32 (t.typeSize TypeName.LFH_BLOCK_ZONE))) lfhRecords) := by
  refine ⟨?_, ?_, ?_, ?_⟩
  · intro t params freePointer fuel s lfhRecords hin hbs
    exact lfhSubsegments32_unused t params freePointer fuel s lfhRecords hin hbs
  · intro t params freePointer fuel s lfhRecords hin hbs
    exact lfhSubsegments64_unused t params freePointer fuel s lfhRecords hin hbs
  · intro fuel t zone params lfhRecords freePointer h
    unfold AnalyzeLFHZone32
    rw [h]
  · intro fuel t zone params lfhRecords freePointer h
    unfold AnalyzeLFHZone64
    rw [h]

set_option maxRecDepth 100000 in
/-- C25, witness: the zone of `unusedTarget` has three subsegments below its
`FreePointer`; the first has one busy block at 0x1200, the second, at 0x21030,
has `BlockSize` 0, and the third has one busy block at 0x1400.  At the second
the loop returns `TRUE` with the record of the first, and the walk of the zone
gives that record alone. -/
theorem C25_unused_subsegment_ends_the_zone_witness :
    lfhSubsegments32 unusedTarget (testParams 0) 0x21070 (8 + 1) 0x21030
        [⟨0, 64, 0x1200, 4294967224, 0x1208⟩] =
      some (true, [⟨0, 64, 0x1200, 4294967224, 0x1208⟩]) ∧
    READMEMORY unusedTarget (0x21050 + 0x10) 2 = some 8 ∧
    READMEMORY unusedTarget (0x21050 + 0x4) 4 = some 0x13f0 ∧
    readBytes unusedTarget 0x1400 8 = some [0, 0, 0, 0, 0, 0, 0, 0x88] ∧
    AnalyzeLFHZone32 10 unusedTarget 0x21000 (testParams 0) [] =
      some (true, [⟨0, 64, 0x1200, 4294967224, 0x1208⟩]) :=
  ⟨C25_unused_subsegment_ends_the_zone.1 unusedTarget (testParams 0) 0x21070 8 0x21030
      [⟨0, 64, 0x1200, 4294967224, 0x1208⟩] (by decide) (by rfl),
    by rfl, by rfl, by rfl, by rfl⟩

/-! ## C26: the segments that the walk of a heap starts -/

theorem startedSegments_append (a b : List Call) :
    startedSegments (a ++ b) = startedSegments a ++ startedSegments b := by
  induction a with
  | nil => rfl
  | cons c a ih => cases c <;> simp [startedSegments, ih]

theorem startedSegments_registers (regs : List HeapRecord) :
    startedSegments (regs.map Call.Register) = [] := by
  induction regs with
  | nil => rfl
  | cons r regs ih => simpa [startedSegments] using ih

/-- The walk of the segments from the candidate `heapAddress` on, for a body
`walk` of the loop that makes no call when the segment cannot be read and
otherwise starts the segment and, when it ends well, goes on to the candidate
`next heapAddress`: the segments started are the first `k` candidates, all of
them aligned and readable, and the loop ends well only at a candidate that is
not aligned. -/
theorem segmentsLoop_started (walk : Nat → Nat → SegmentOut) (next : Nat → Nat)
    (readable : Nat → Prop)
    (hbad : ∀ fuel h, ¬ readable h →
      (walk fuel h).calls = [] ∧ (walk fuel h).status ≠ Status.ok)
    (hgood : ∀ fuel h, readable h → startedSegments (walk fuel h).calls = [h] ∧
      ((walk fuel h).status = Status.ok → (walk fuel h).next = next h)) :
    ∀ (fuel heapAddress : Nat), ∃ k,
      startedSegments (segmentsLoop walk fuel heapAddress).trace =
        (List.range k).map (fun i => Nat.iterate next i heapAddress) ∧
      (∀ i, i < k → Nat.iterate next i heapAddress &&& 0xffff = 0 ∧
        readable (Nat.iterate next i heapAddress)) ∧
      ((segmentsLoop walk fuel heapAddress).status = Status.ok →
        Nat.iterate next k heapAddress &&& 0xffff ≠ 0) := by
  intro fuel
  induction fuel with
  | zero =>
    intro h
    exact ⟨0, by simp [segmentsLoop, startedSegments], by simp, by simp [segmentsLoop]⟩
  | succ fuel ih =>
    intro h
    unfold segmentsLoop
    by_cases halign : h &&& 0xffff = 0
    · rw [if_pos halign]
      simp only []
      by_cases hr : readable h
      · obtain ⟨hs, hn⟩ := hgood fuel h hr
        by_cases hst : (walk fuel h).status = Status.ok
        · rw [if_pos hst, hn hst]
          obtain ⟨k, hk1, hk2, hk3⟩ := ih (next h)
          refine ⟨k + 1, ?_, ?_, ?_⟩
          · simp only []
            rw [startedSegments_append, hs, hk1, List.range_succ_eq_map]
            simp only [List.map_cons, List.map_map, Function.iterate_zero, id_eq,
              List.singleton_append, List.cons.injEq, true_and]
            apply List.map_congr_left
            intro i _
            simp only [Function.comp, Nat.succ_eq_add_one, Function.iterate_succ_apply]
          · intro i hi
            cases i with
            | zero => exact ⟨halign, hr⟩
            | succ i =>
              rw [Function.iterate_succ_apply]
              exact hk2 i (by omega)
          · intro hok
            rw [Function.iterate_succ_apply]
            exact hk3 hok
        · rw [if_neg hst]
          refine ⟨1, ?_, ?_, fun hok => absurd hok hst⟩
          · simp only []
            rw [hs]
            simp [List.range_succ]
          · intro i hi
            have : i = 0 := by omega
            subst this
            exact ⟨halign, hr⟩
      · obtain ⟨hc, hst⟩ := hbad fuel h hr
        rw [if_neg hst]
        refine ⟨0, ?_, by simp, fun hok => absurd hok hst⟩
        simp only []
        rw [hc]
        rfl
    · rw [if_neg halign]
      exact ⟨0, by simp [startedSegments], by simp, fun _ => halign⟩

theorem segment32_started (t : Target) (params : CommonParams) (encoding : List Nat)
    (lfhRecords : List HeapRecord) (fuel heapAddress : Nat) :
    (¬ (∃ raw, readBytes t heapAddress 64 = some raw) →
      (segment32 t params encoding lfhRecords fuel heapAddress).calls = [] ∧
      (segment32 t params encoding lfhRecords fuel heapAddress).status ≠ Status.ok) ∧
    ((∃ raw, readBytes t heapAddress 64 = some raw) →
      startedSegments (segment32 t params encoding lfhRecords fuel heapAddress).calls =
        [heapAddress] ∧
      ((segment32 t params encoding lfhRecords fuel heapAddress).status = Status.ok →
        (segment32 t params encoding lfhRecords fuel heapAddress).next =
          nextSegment32 t heapAddress)) := by
  unfold segment32 nextSegment32
  cases hraw : readBytes t heapAddress 64 with
  | none => simp
  | some raw =>
    simp only []
    constructor
    · intro h; exact absurd ⟨raw, rfl⟩ h
    · intro _
      split
      · refine ⟨?_, fun _ => rfl⟩
        simp only [startedSegments, startedSegments_append, startedSegments_registers,
          List.nil_append]
      · rename_i hst
        refine ⟨?_, fun h => absurd h hst⟩
        simp only [startedSegments, startedSegments_registers]

theorem segment64_started (t : Target) (params : CommonParams) (encoding : List Nat)
    (lfhRecords : List HeapRecord) (fuel heapAddress : Nat) :
    (¬ (∃ raw, readBytes t heapAddress 112 = some raw) →
      (segment64 t params encoding lfhRecords fuel heapAddress).calls = [] ∧
      (segment64 t params encoding lfhRecords fuel heapAddress).status ≠ Status.ok) ∧
    ((∃ raw, readBytes t heapAddress 112 = some raw) →
      startedSegments (segment64 t params encoding lfhRecords fuel heapAddress).calls =
        [heapAddress] ∧
      ((segment64 t params encoding lfhRecords fuel heapAddress).status = Status.ok →
        (segment64 t params encoding lfhRecords fuel heapAddress).next =
          nextSegment64 t heapAddress)) := by
  unfold segment64 nextSegment64
  cases hraw : readBytes t heapAddress 112 with
  | none => simp
  | some raw =>
    simp only []
    constructor
    · intro h; exact absurd ⟨raw, rfl⟩ h
    · intro _
      split
      · refine ⟨?_, fun _ => rfl⟩
        simp only [startedSegments, startedSegments_append, startedSegments_registers,
          List.nil_append]
      · rename_i hst
        refine ⟨?_, fun h => absurd h hst⟩
        simp only [startedSegments, startedSegments_registers]

/-- The segments started by the walk of a heap are those started by its loop
over the segments, and the walk returns `TRUE` only when the loop ends well. -/
theorem heapWalk_started (walked : Run) (valloc : List HeapRecord) :
    startedSegments (if walked.status = Status.ok then
        (⟨Status.ok, walked.trace ++ valloc.map Call.Register⟩ : Run) else walked).trace =
      startedSegments walked.trace ∧
    ((if walked.status = Status.ok then
        (⟨Status.ok, walked.trace ++ valloc.map Call.Register⟩ : Run) else walked).status =
      Status.ok → walked.status = Status.ok) := by
  by_cases h : walked.status = Status.ok
  · rw [if_pos h]
    exact ⟨by simp [startedSegments_append, startedSegments_registers], fun _ => h⟩
  · rw [if_neg h]
    exact ⟨rfl, fun h' => h'⟩

theorem AnalyzeHeap32_started (fuel : Nat) (t : Target) (heapAddress : Nat)
    (params : CommonParams) : ∃ k,
      startedSegments (AnalyzeHeap32 fuel t heapAddress params).trace =
        (List.range k).map (fun i => Nat.iterate (nextSegment32 t) i heapAddress) ∧
      (∀ i, i < k → Nat.iterate (nextSegment32 t) i heapAddress &&& 0xffff = 0 ∧
        ∃ raw, readBytes t (Nat.iterate (nextSegment32 t) i heapAddress) 64 = some raw) ∧
      ((AnalyzeHeap32 fuel t heapAddress params).status = Status.ok →
        Nat.iterate (nextSegment32 t) k heapAddress &&& 0xffff ≠ 0) := by
  have hnil : ∀ s : Status, s ≠ Status.ok → ∃ k,
      startedSegments (⟨s, []⟩ : Run).trace =
        (List.range k).map (fun i => Nat.iterate (nextSegment32 t) i heapAddress) ∧
      (∀ i, i < k → Nat.iterate (nextSegment32 t) i heapAddress &&& 0xffff = 0 ∧
        ∃ raw, readBytes t (Nat.iterate (nextSegment32 t) i heapAddress) 64 = some raw) ∧
      ((⟨s, []⟩ : Run).status = Status.ok →
        Nat.iterate (nextSegment32 t) k heapAddress &&& 0xffff ≠ 0) :=
    fun s hs => ⟨0, by simp [startedSegments], by simp, fun h => absurd h hs⟩
  unfold AnalyzeHeap32
  split
  · exact hnil _ (by simp)
  · rename_i b lfh _
    simp only []
    split
    · exact hnil _ (by simp)
    · rename_i encoding _
      split
      · exact hnil _ (by simp)
      · rename_i b' valloc _
        obtain ⟨k, hk1, hk2, hk3⟩ := segmentsLoop_started
          (segment32 t params encoding (sortRecords lfh)) (nextSegment32 t)
          (fun h => ∃ raw, readBytes t h 64 = some raw)
          (fun f h => (segment32_started t params encoding (sortRecords lfh) f h).1)
          (fun f h => (segment32_started t params encoding (sortRecords lfh) f h).2)
          fuel heapAddress
        obtain ⟨h1, h2⟩ := heapWalk_started
          (segments32 t params encoding (sortRecords lfh) fuel heapAddress) (sortRecords valloc)
        exact ⟨k, h1.trans hk1, hk2, fun h => hk3 (h2 h)⟩

theorem AnalyzeHeap64_started (fuel : Nat) (t : Target) (heapAddress : Nat)
    (params : CommonParams) : ∃ k,
      startedSegments (AnalyzeHeap64 fuel t heapAddress params).trace =
        (List.range k).map (fun i => Nat.iterate (nextSegment64 t) i heapAddress) ∧
      (∀ i, i < k → Nat.iterate (nextSegment64 t) i heapAddress &&& 0xffff = 0 ∧
        ∃ raw, readBytes t (Nat.iterate (nextSegment64 t) i heapAddress) 112 = some raw) ∧
      ((AnalyzeHeap64 fuel t heapAddress params).status = Status.ok →
        Nat.iterate (nextSegment64 t) k heapAddress &&& 0xffff ≠ 0) := by
  have hnil : ∀ s : Status, s ≠ Status.ok → ∃ k,
      startedSegments (⟨s, []⟩ : Run).trace =
        (List.range k).map (fun i => Nat.iterate (nextSegment64 t) i heapAddress) ∧
      (∀ i, i < k → Nat.iterate (nextSegment64 t) i heapAddress &&& 0xffff = 0 ∧
        ∃ raw, readBytes t (Nat.iterate (nextSegment64 t) i heapAddress) 112 = some raw) ∧
      ((⟨s, []⟩ : Run).status = Status.ok →
        Nat.iterate (nextSegment64 t) k heapAddress &&& 0xffff ≠ 0) :=
    fun s hs => ⟨0, by simp [startedSegments], by simp, fun h => absurd h hs⟩
  unfold AnalyzeHeap64
  split
  · exact hnil _ (by simp)
  · rename_i b lfh _
    simp only []
    split
    · exact hnil _ (by simp)
    · rename_i encoding _
      split
      · exact hnil _ (by simp)
      · rename_i b' valloc _
        obtain ⟨k, hk1, hk2, hk3⟩ := segmentsLoop_started
          (segment64 t params encoding (sortRecords lfh)) (nextSegment64 t)
          (fun h => ∃ raw, readBytes t h 112 = some raw)
          (fun f h => (segment64_started t params encoding (sortRecords lfh) f h).1)
          (fun f h => (segment64_started t params encoding (sortRecords lfh) f h).2)
          fuel heapAddress
        obtain ⟨h1, h2⟩ := heapWalk_started
          (segments64 t params encoding (sortRecords lfh) fuel heapAddress) (sortRecords valloc)
        exact ⟨k, h1.trans hk1, hk2, fun h => hk3 (h2 h)⟩

/-! ## C26 -/

set_option maxRecDepth 100000 in
/-- C26, as the claim states it, fails: the segment at 0x10000 of
`danglingTarget` has `Flink` 0x20010, so that the next candidate is 0x20000,
whose low 16 bits are zero; nothing can be read there, `AnalyzeHeap32` returns
`FALSE` and no `StartSegment` is made for 0x20000. -/
theorem C26_counterexample :
    nextSegment32 danglingTarget 0x10000 = 0x20000 ∧
    0x20000 &&& 0xffff = 0 ∧
    readBytes danglingTarget 0x20000 64 = none ∧
    AnalyzeHeap32 10 danglingTarget 0x10000 (testParams 0) =
      ⟨Status.readSegmentFailed 0x20000,
        [Call.StartSegment 0x10000 0x3000,
         Call.Register ⟨0, 128, 0x1000, 120, 0x1008⟩,
         Call.FinishSegment 0x10000 0x3000]⟩ ∧
    startedSegments (AnalyzeHeap32 10 danglingTarget 0x10000 (testParams 0)).trace = [0x10000] :=
  ⟨by rfl, by decide, by rfl, by rfl, by rfl⟩

/-- C26, amended: `AnalyzeHeap32` takes the heap address as first candidate
and, after a segment whose walk ended well, `SegmentListEntry.Flink - 0x10` of
that segment as next candidate (`AnalyzeHeap64`: `Flink - 0x18`).  The
segments for which `StartSegment` is called are the first `k` candidates, in
order, for some `k`; each of them has its low 16 bits zero and a header that
can be read; and when the walk returns `TRUE`, candidate `k` is not
64-KiB-aligned.  So a heap address that is not 64-KiB-aligned gives no
`StartSegment`.  A candidate that is aligned but whose header cannot be read
is not started: the loop returns `FALSE` there without a call. -/
theorem C26_segments_started_by_alignment :
    (∀ (fuel : Nat) (t : Target) (heapAddress : Nat) (params : CommonParams), ∃ k,
      startedSegments (AnalyzeHeap32 fuel t heapAddress params).trace =
        (List.range k).map (fun i => Nat.iterate (nextSegment32 t) i heapAddress) ∧
      (∀ i, i < k → Nat.iterate (nextSegment32 t) i heapAddress &&& 0xffff = 0 ∧
        ∃ raw, readBytes t (Nat.iterate (nextSegment32 t) i heapAddress) 64 = some raw) ∧
      ((AnalyzeHeap32 fuel t heapAddress params).status = Status.ok →
        Nat.iterate (nextSegment32 t) k heapAddress &&& 0xffff ≠ 0)) ∧
    (∀ (fuel : Nat) (t : Target) (heapAddress : Nat) (params : CommonParams), ∃ k,
      startedSegments (AnalyzeHeap64 fuel t heapAddress params).trace =
        (List.range k).map (fun i => Nat.iterate (nextSegment64 t) i heapAddress) ∧
      (∀ i, i < k → Nat.iterate (nextSegment64 t) i heapAddress &&& 0xffff = 0 ∧
        ∃ raw, readBytes t (Nat.iterate (nextSegment64 t) i heapAddress) 112 = some raw) ∧
      ((AnalyzeHeap64 fuel t heapAddress params).status = Status.ok →
        Nat.iterate (nextSegment64 t) k heapAddress &&& 0xffff ≠ 0)) ∧
    (∀ (fuel : Nat) (t : Target) (heapAddress : Nat) (params : CommonParams),
      heapAddress &&& 0xffff ≠ 0 →
      startedSegments (AnalyzeHeap32 fuel t heapAddress params).trace = [] ∧
      startedSegments (AnalyzeHeap64 fuel t heapAddress params).trace = []) ∧
    (∀ (t : Target) (params : CommonParams) (encoding : List Nat) (lfhRecords : List HeapRecord)
        (fuel heapAddress : Nat), heapAddress &&& 0xffff = 0 →
      (readBytes t heapAddress 64 = none →
        segments32 t params encoding lfhRecords (fuel + 1) heapAddress =
          ⟨Status.readSegmentFailed heapAddress, []⟩) ∧
      (readBytes t heapAddress 112 = none →
        segments64 t params encoding lfhRecords (fuel + 1) heapAddress =
          ⟨Status.readSegmentFailed heapAddress, []⟩)) := by
  refine ⟨AnalyzeHeap32_started, AnalyzeHeap64_started, ?_, ?_⟩
  · intro fuel t heapAddress params hne
    constructor
    · obtain ⟨k, hk1, hk2, _⟩ := AnalyzeHeap32_started fuel t heapAddress params
      cases k with
      | zero => simpa using hk1
      | succ k => exact absurd (hk2 0 (by omega)).1 hne
    · obtain ⟨k, hk1, hk2, _⟩ := AnalyzeHeap64_started fuel t heapAddress params
      cases k with
      | zero => simpa using hk1
      | succ k => exact absurd (hk2 0 (by omega)).1 hne
  · intro t params encoding lfhRecords fuel heapAddress halign
    constructor
    · intro hnone
      unfold segments32 segmentsLoop
      rw [if_pos halign]
      simp only []
      have hseg : segment32 t params encoding lfhRecords fuel heapAddress =
          ⟨Status.readSegmentFailed heapAddress, [], heapAddress⟩ := by
        unfold segment32
        rw [hnone]
      rw [hseg]
      rfl
    · intro hnone
      unfold segments64 segmentsLoop
      rw [if_pos halign]
      simp only []
      have hseg : segment64 t params encoding lfhRecords fuel heapAddress =
          ⟨Status.readSegmentFailed heapAddress, [], heapAddress⟩ := by
        unfold segment64
        rw [hnone]
      rw [hseg]
      rfl

set_option maxRecDepth 100000 in
/-- C26, witness: the heap of `twoSegmentsTarget` has the candidates 0x10000,
0x20000 and 0x10098; the walk returns `TRUE` after `StartSegment` for the first
two, and the third is not 64-KiB-aligned. -/
theorem C26_segments_started_by_alignment_witness :
    (List.range 3).map (fun i => Nat.iterate (nextSegment32 twoSegmentsTarget) i 0x10000) =
      [0x10000, 0x20000, 0x10098] ∧
    startedSegments (AnalyzeHeap32 10 twoSegmentsTarget 0x10000 (testParams 0)).trace =
      [0x10000, 0x20000] ∧
    (AnalyzeHeap32 10 twoSegmentsTarget 0x10000 (testParams 0)).status = Status.ok ∧
    (∃ k, startedSegments (AnalyzeHeap32 10 twoSegmentsTarget 0x10000 (testParams 0)).trace =
        (List.range k).map (fun i => Nat.iterate (nextSegment32 twoSegmentsTarget) i 0x10000) ∧
      (∀ i, i < k → Nat.iterate (nextSegment32 twoSegmentsTarget) i 0x10000 &&& 0xffff = 0 ∧
        ∃ raw, readBytes twoSegmentsTarget
          (Nat.iterate (nextSegment32 twoSegmentsTarget) i 0x10000) 64 = some raw) ∧
      ((AnalyzeHeap32 10 twoSegmentsTarget 0x10000 (testParams 0)).status = Status.ok →
        Nat.iterate (nextSegment32 twoSegmentsTarget) k 0x10000 &&& 0xffff ≠ 0)) :=
  ⟨by rfl, by rfl, by rfl,
    C26_segments_started_by_alignment.1 10 twoSegmentsTarget 0x10000 (testParams 0)⟩

/-! ## C27: termination of the scan of a segment -/

/-- What the body of the scan loop of `AnalyzeHeap32` does with an entry: when
it goes on, the next address is the address plus `Size * 8`, 32 bits wide; and
it never ends the scan but by `break` or by `return FALSE`. -/
theorem entryStep32_next {t : Target} {params : CommonParams} {encoding : List Nat}
    {segment : HeapSegment} {address : Nat} :
    (∀ record next, entryStep32 t params encoding segment address =
        EntryStep.advance record next →
      ∃ raw, readBytes t address 8 = some raw ∧
        next = u64 (address +
          u32 ((HeapEntry.ofBytes (DecodeHeapEntry raw encoding).1).Size * 8))) ∧
    (∀ status, entryStep32 t params encoding segment address = EntryStep.stop status →
      status ≠ Status.outOfFuel) := by
  unfold entryStep32
  cases hraw : readBytes t address 8 with
  | none => simp
  | some raw =>
    simp only []
    constructor
    · intro record next h
      refine ⟨raw, rfl, ?_⟩
      repeat' split at h
      all_goals first
        | (simp at h; done)
        | (simp only [EntryStep.advance.injEq] at h; exact h.2.symm)
    · intro status h
      repeat' split at h
      all_goals first
        | (simp at h; done)
        | (simp only [EntryStep.stop.injEq] at h; rw [← h]; simp)

/-- The body of the scan loop of `AnalyzeHeap32` at an entry of `Size` 0 that
neither reaches the uncommitted pages nor is the sentinel: the scan goes on at
the same address, with the record of the entry if it is busy. -/
theorem entryStep32_size_zero (t : Target) (params : CommonParams) (encoding : List Nat)
    (segment : HeapSegment) (address : Nat) (raw : List Nat)
    (hraw : readBytes t address 8 = some raw)
    (hsum : (DecodeHeapEntry raw encoding).2 = true)
    (hzero : (HeapEntry.ofBytes (DecodeHeapEntry raw encoding).1).Size = 0)
    (ha : address < 2 ^ 64) (hlim : address < committedEnd32 t segment)
    (hsent : ¬ (params.ntGlobalFlag &&& (NT_GLOBAL_FLAG_UST ||| NT_GLOBAL_FLAG_HPA) ≠ 0 ∧
      (HeapEntry.ofBytes (DecodeHeapEntry raw encoding).1).ExtendedBlockSignature = 0x03)) :
    entryStep32 t params encoding segment address =
      EntryStep.advance
        (if (HeapEntry.ofBytes (DecodeHeapEntry raw encoding).1).Flags =
            (if params.ntGlobalFlag &&& NT_GLOBAL_FLAG_HPA ≠ 0 then 0x03 else 0x01) then
          ParseHeapRecord32 t address (HeapEntry.ofBytes (DecodeHeapEntry raw encoding).1)
            params.ntGlobalFlag
        else none) address := by
  have hnext : u64 (address +
      u32 ((HeapEntry.ofBytes (DecodeHeapEntry raw encoding).1).Size * 8)) = address := by
    rw [hzero]
    have : u32 (0 * 8) = 0 := by decide
    rw [this, Nat.add_zero]
    exact u64_eq_self ha
  unfold entryStep32
  rw [hraw]
  simp only []
  rw [hsum]
  simp only [Bool.true_eq_false, if_false]
  rw [hnext]
  have hlim' : ¬ (address ≥ sub32 segment.LastValidEntry
      (u32 (segment.NumberOfUnCommittedPages * t.PAGE_SIZE))) := by
    unfold committedEnd32 at hlim
    omega
  rw [if_neg hlim', if_neg hsent]
  split <;> split <;> simp_all

/-- When every entry that the scan of a segment of a 32-bit target decodes has
a `Size` of at least 1, the scan reads at most `⌈(LastValidEntry - address) /
8⌉` headers and returns when it has more fuel than that. -/
theorem scan32_terminates (t : Target) (params : CommonParams) (encoding : List Nat)
    (segment : HeapSegment) (hlast : segment.LastValidEntry < 2 ^ 32) :
    ∀ (fuel address : Nat) (lfh : List HeapRecord),
      (∀ x ∈ scanReads32 t params encoding segment fuel address,
        ∀ raw, readBytes t x 8 = some raw →
          1 ≤ (HeapEntry.ofBytes (DecodeHeapEntry raw encoding).1).Size ∧
          (HeapEntry.ofBytes (DecodeHeapEntry raw encoding).1).Size < 2 ^ 16) →
      (scanReads32 t params encoding segment fuel address).length ≤
        (segment.LastValidEntry - address + 7) / 8 ∧
      ((segment.LastValidEntry - address + 7) / 8 < fuel →
        (scan32 t params encoding segment fuel address lfh).status ≠ Status.outOfFuel) := by
  intro fuel
  induction fuel with
  | zero =>
    intro address lfh _
    exact ⟨by simp [scanReads32, scanReads], fun h => absurd h (Nat.not_lt_zero _)⟩
  | succ fuel ih =>
    intro address lfh hsize
    unfold scanReads32 scanReads at hsize ⊢
    unfold scan32 scanLoop
    by_cases hlt : address < segment.LastValidEntry
    · rw [if_pos hlt] at hsize ⊢
      rw [if_pos hlt]
      cases hstep : entryStep32 t params encoding segment address with
      | stop status =>
        simp only [hstep, List.length_cons, List.length_nil]
        exact ⟨by omega, fun _ => entryStep32_next.2 status hstep⟩
      | advance record next =>
        rw [hstep] at hsize
        simp only [] at hsize
        simp only [hstep, List.length_cons]
        obtain ⟨raw, hraw, hnext⟩ := entryStep32_next.1 record next hstep
        obtain ⟨h1, h2⟩ := hsize address (List.mem_cons_self _ _) raw hraw
        have hu : u32 ((HeapEntry.ofBytes (DecodeHeapEntry raw encoding).1).Size * 8) =
            (HeapEntry.ofBytes (DecodeHeapEntry raw encoding).1).Size * 8 :=
          u32_eq_self (by omega)
        rw [hu, u64_eq_self (by omega)] at hnext
        have hadv : address + 8 ≤ next := by omega
        have hrec := fun lfh' => ih next lfh'
          (fun x hx => hsize x (List.mem_cons_of_mem _ hx))
        unfold scanReads32 at hrec
        unfold scan32 at hrec
        constructor
        · have := (hrec lfh).1
          omega
        · intro hfuel
          have hfuel' : (segment.LastValidEntry - next + 7) / 8 < fuel := by omega
          cases record with
          | none => exact (hrec lfh).2 hfuel'
          | some r => exact (hrec _).2 hfuel'
    · rw [if_neg hlt, if_neg hlt]
      exact ⟨by simp, fun _ => by simp⟩

/-- A scan of a segment of a 32-bit target that is at an entry of `Size` 0
which neither reaches the uncommitted pages nor is the sentinel never returns,
and registers the entry, if it is busy, on every turn. -/
theorem scan32_stuck (t : Target) (params : CommonParams) (encoding : List Nat)
    (segment : HeapSegment) (address : Nat) (record : Option HeapRecord)
    (hlt : address < segment.LastValidEntry)
    (hstep : entryStep32 t params encoding segment address = EntryStep.advance record address) :
    ∀ (fuel : Nat) (lfh : List HeapRecord),
      (scan32 t params encoding segment fuel address lfh).status = Status.outOfFuel ∧
      (∀ r, record = some r →
        fuel ≤ ((scan32 t params encoding segment fuel address lfh).registered.filter
          (fun x => decide (x = r))).length) := by
  intro fuel
  induction fuel with
  | zero =>
    intro lfh
    exact ⟨rfl, fun r _ => Nat.zero_le _⟩
  | succ fuel ih =>
    intro lfh
    unfold scan32 scanLoop
    rw [if_pos hlt]
    simp only [hstep]
    cases record with
    | none =>
      simp only []
      have h := ih lfh
      unfold scan32 at h
      exact ⟨h.1, fun r hr => by simp at hr⟩
    | some rec =>
      simp only []
      have h := ih (Register rec lfh).2
      unfold scan32 at h
      refine ⟨h.1, ?_⟩
      intro r hr
      have hr' : rec = r := Option.some.inj hr
      have h2 := h.2 r (by rw [hr'])
      rw [Register_fst, List.filter_append, List.filter_append, List.length_append,
        List.length_append]
      have h3 : ([rec].filter (fun x => decide (x = r))).length = 1 := by
        rw [hr']; simp
      omega

/-- What the body of the scan loop of `AnalyzeHeap64` does with an entry: when
it goes on, the next address is the address plus `Size * 16`, 32 bits wide; and
it never ends the scan but by `break` or by `return FALSE`. -/
theorem entryStep64_next {t : Target} {params : CommonParams} {encoding : List Nat}
    {segment : Heap64Segment} {address : Nat} :
    (∀ record next, entryStep64 t params encoding segment address =
        EntryStep.advance record next →
      ∃ raw, readBytes t address 16 = some raw ∧
        next = u64 (address +
          u32 ((Heap64Entry.ofBytes (DecodeHeap64Entry raw encoding).1).Size * 16))) ∧
    (∀ status, entryStep64 t params encoding segment address = EntryStep.stop status →
      status ≠ Status.outOfFuel) := by
  unfold entryStep64
  cases hraw : readBytes t address 16 with
  | none => simp
  | some raw =>
    simp only []
    constructor
    · intro record next h
      refine ⟨raw, rfl, ?_⟩
      repeat' split at h
      all_goals first
        | (simp at h; done)
        | (simp only [EntryStep.advance.injEq] at h; exact h.2.symm)
    · intro status h
      repeat' split at h
      all_goals first
        | (simp at h; done)
        | (simp only [EntryStep.stop.injEq] at h; rw [← h]; simp)

/-- The body of the scan loop of `AnalyzeHeap64` at an entry of `Size` 0 that
neither reaches the uncommitted pages nor is the sentinel: the scan goes on at
the same address, with the record of the entry if it is busy. -/
theorem entryStep64_size_zero (t : Target) (params : CommonParams) (encoding : List Nat)
    (segment : Heap64Segment) (address : Nat) (raw : List Nat)
    (hraw : readBytes t address 16 = some raw)
    (hsum : (DecodeHeap64Entry raw encoding).2 = true)
    (hzero : (Heap64Entry.ofBytes (DecodeHeap64Entry raw encoding).1).Size = 0)
    (ha : address < 2 ^ 64) (hlim : address < committedEnd64 t segment)
    (hsent : ¬ (params.ntGlobalFlag &&& (NT_GLOBAL_FLAG_UST ||| NT_GLOBAL_FLAG_HPA) ≠ 0 ∧
      (Heap64Entry.ofBytes (DecodeHeap64Entry raw encoding).1).ExtendedBlockSignature = 0x03)) :
    entryStep64 t params encoding segment address =
      EntryStep.advance
        (if (Heap64Entry.ofBytes (DecodeHeap64Entry raw encoding).1).Flags =
            (if params.ntGlobalFlag &&& NT_GLOBAL_FLAG_HPA ≠ 0 then 0x03 else 0x01) then
          ParseHeapRecord64 t address (Heap64Entry.ofBytes (DecodeHeap64Entry raw encoding).1)
            params.ntGlobalFlag
        else none) address := by
  have hnext : u64 (address +
      u32 ((Heap64Entry.ofBytes (DecodeHeap64Entry raw encoding).1).Size * 16)) = address := by
    rw [hzero]
    have : u32 (0 * 16) = 0 := by decide
    rw [this, Nat.add_zero]
    exact u64_eq_self ha
  unfold entryStep64
  rw [hraw]
  simp only []
  rw [hsum]
  simp only [Bool.true_eq_false, if_false]
  rw [hnext]
  have hlim' : ¬ (address ≥ sub64 segment.LastValidEntry
      (u32 (segment.NumberOfUnCommittedPages * t.PAGE_SIZE))) := by
    unfold committedEnd64 at hlim
    omega
  rw [if_neg hlim', if_neg hsent]
  split <;> split <;> simp_all

/-- When every entry that the scan of a segment of a 64-bit target decodes has
a `Size` of at least 1, the scan reads at most `⌈(LastValidEntry - address) /
16⌉` headers and returns when it has more fuel than that. -/
theorem scan64_terminates (t : Target) (params : CommonParams) (encoding : List Nat)
    (segment : Heap64Segment) (hlast : segment.LastValidEntry + 2 ^ 20 ≤ 2 ^ 64) :
    ∀ (fuel address : Nat) (lfh : List HeapRecord),
      (∀ x ∈ scanReads64 t params encoding segment fuel address,
        ∀ raw, readBytes t x 16 = some raw →
          1 ≤ (Heap64Entry.ofBytes (DecodeHeap64Entry raw encoding).1).Size ∧
          (Heap64Entry.ofBytes (DecodeHeap64Entry raw encoding).1).Size < 2 ^ 16) →
      (scanReads64 t params encoding segment fuel address).length ≤
        (segment.LastValidEntry - address + 15) / 16 ∧
      ((segment.LastValidEntry - address + 15) / 16 < fuel →
        (scan64 t params encoding segment fuel address lfh).status ≠ Status.outOfFuel) := by
  intro fuel
  induction fuel with
  | zero =>
    intro address lfh _
    exact ⟨by simp [scanReads64, scanReads], fun h => absurd h (Nat.not_lt_zero _)⟩
  | succ fuel ih =>
    intro address lfh hsize
    unfold scanReads64 scanReads at hsize ⊢
    unfold scan64 scanLoop
    by_cases hlt : address < segment.LastValidEntry
    · rw [if_pos hlt] at hsize ⊢
      rw [if_pos hlt]
      cases hstep : entryStep64 t params encoding segment address with
      | stop status =>
        simp only [hstep, List.length_cons, List.length_nil]
        exact ⟨by omega, fun _ => entryStep64_next.2 status hstep⟩
      | advance record next =>
        rw [hstep] at hsize
        simp only [] at hsize
        simp only [hstep, List.length_cons]
        obtain ⟨raw, hraw, hnext⟩ := entryStep64_next.1 record next hstep
        obtain ⟨h1, h2⟩ := hsize address (List.mem_cons_self _ _) raw hraw
        have hu : u32 ((Heap64Entry.ofBytes (DecodeHeap64Entry raw encoding).1).Size * 16) =
            (Heap64Entry.ofBytes (DecodeHeap64Entry raw encoding).1).Size * 16 :=
          u32_eq_self (by omega)
        rw [hu, u64_eq_self (by omega)] at hnext
        have hadv : address + 16 ≤ next := by omega
        have hrec := fun lfh' => ih next lfh'
          (fun x hx => hsize x (List.mem_cons_of_mem _ hx))
        unfold scanReads64 at hrec
        unfold scan64 at hrec
        constructor
        · have := (hrec lfh).1
          omega
        · intro hfuel
          have hfuel' : (segment.LastValidEntry - next + 15) / 16 < fuel := by omega
          cases record with
          | none => exact (hrec lfh).2 hfuel'
          | some r => exact (hrec _).2 hfuel'
    · rw [if_neg hlt, if_neg hlt]
      exact ⟨by simp, fun _ => by simp⟩

/-- A scan of a segment of a 64-bit target that is at an entry of `Size` 0
which neither reaches the uncommitted pages nor is the sentinel never returns,
and registers the entry, if it is busy, on every turn. -/
theorem scan64_stuck (t : Target) (params : CommonParams) (encoding : List Nat)
    (segment : Heap64Segment) (address : Nat) (record : Option HeapRecord)
    (hlt : address < segment.LastValidEntry)
    (hstep : entryStep64 t params encoding segment address = EntryStep.advance record address) :
    ∀ (fuel : Nat) (lfh : List HeapRecord),
      (scan64 t params encoding segment fuel address lfh).status = Status.outOfFuel ∧
      (∀ r, record = some r →
        fuel ≤ ((scan64 t params encoding segment fuel address lfh).registered.filter
          (fun x => decide (x = r))).length) := by
  intro fuel
  induction fuel with
  | zero =>
    intro lfh
    exact ⟨rfl, fun r _ => Nat.zero_le _⟩
  | succ fuel ih =>
    intro lfh
    unfold scan64 scanLoop
    rw [if_pos hlt]
    simp only [hstep]
    cases record with
    | none =>
      simp only []
      have h := ih lfh
      unfold scan64 at h
      exact ⟨h.1, fun r hr => by simp at hr⟩
    | some rec =>
      simp only []
      have h := ih (Register rec lfh).2
      unfold scan64 at h
      refine ⟨h.1, ?_⟩
      intro r hr
      have hr' : rec = r := Option.some.inj hr
      have h2 := h.2 r (by rw [hr'])
      rw [Register_fst, List.filter_append, List.filter_append, List.length_append,
        List.length_append]
      have h3 : ([rec].filter (fun x => decide (x = r))).length = 1 := by
        rw [hr']; simp
      omega

set_option maxRecDepth 100000 in
/-- C27, counterexample: the segment of the heap of `raggedTarget` runs from
0x1000 to 0x100c, and both entries that the scan decodes, at 0x1000 and at
0x1008, have a `Size` of 1.  The scan makes two iterations, while
`(LastValidEntry - FirstEntry) / 8` is 1: two steps of 8 bytes do not fit in
the 12 bytes of the segment. -/
theorem C27_counterexample :
    (∃ raw, readBytes raggedTarget 0x10000 64 = some raw ∧
      HeapSegment.ofBytes raw = ⟨0x100a8, 0x1000, 0x100c, 0⟩) ∧
    scanReads32 raggedTarget (testParams 0) testKey ⟨0x100a8, 0x1000, 0x100c, 0⟩ 10 0x1000 =
      [0x1000, 0x1008] ∧
    (∀ x ∈ [0x1000, 0x1008], ∃ raw, readBytes raggedTarget x 8 = some raw ∧
      (HeapEntry.ofBytes (DecodeHeapEntry raw testKey).1).Size = 1) ∧
    (scan32 raggedTarget (testParams 0) testKey ⟨0x100a8, 0x1000, 0x100c, 0⟩ 10 0x1000
      []).status = Status.ok ∧
    (AnalyzeHeap32 10 raggedTarget 0x10000 (testParams 0)).status = Status.ok ∧
    (0x100c - 0x1000) / 8 = 1 ∧
    ¬ ((scanReads32 raggedTarget (testParams 0) testKey ⟨0x100a8, 0x1000, 0x100c, 0⟩ 10
      0x1000).length * 8 ≤ 0x100c - 0x1000) :=
  ⟨⟨_, by rfl, by rfl⟩, by rfl,
    by
      intro x hx
      simp only [List.mem_cons, List.mem_singleton, List.mem_nil_iff, or_false] at hx
      rcases hx with rfl | rfl
      · exact ⟨_, by rfl, by rfl⟩
      · exact ⟨_, by rfl, by rfl⟩,
    by rfl, by rfl, by decide, by decide⟩

/-- C27, amended: the scan of one segment by `AnalyzeHeap32` / `AnalyzeHeap64`
is the loop `scan32` / `scan64`, which reads one header per iteration
(`scanReads32` / `scanReads64`).  If every entry that the scan decodes has a
`Size` (a `USHORT`) of at least 1, the scan started at `address` makes at most
`(LastValidEntry - address + U - 1) / U` iterations, the quotient rounded up (U
= 8 or 16), and returns with any fuel above that number; on a 64-bit target this
is for a segment that ends at least 2^20 bytes below 2^64, so that the cursor
cannot wrap.  An entry with `Size` 0 below `LastValidEntry` that triggers
neither the stop at the uncommitted pages nor the sentinel leaves the cursor
where it is: the scan does not return with any fuel and, if the entry is busy
and has a record, registers that record once in every iteration. -/
theorem C27_scan_terminates_unless_size_zero :
    (∀ (t : Target) (params : CommonParams) (encoding : List Nat) (segment : HeapSegment)
        (fuel address : Nat) (lfh : List HeapRecord),
      segment.LastValidEntry < 2 ^ 32 →
      (∀ x ∈ scanReads32 t params encoding segment fuel address,
        ∀ raw, readBytes t x 8 = some raw →
          1 ≤ (HeapEntry.ofBytes (DecodeHeapEntry raw encoding).1).Size ∧
          (HeapEntry.ofBytes (DecodeHeapEntry raw encoding).1).Size < 2 ^ 16) →
      (scanReads32 t params encoding segment fuel address).length ≤
        (segment.LastValidEntry - address + 7) / 8 ∧
      ((segment.LastValidEntry - address + 7) / 8 < fuel →
        (scan32 t params encoding segment fuel address lfh).status ≠ Status.outOfFuel)) ∧
    (∀ (t : Target) (params : CommonParams) (encoding : List Nat) (segment : Heap64Segment)
        (fuel address : Nat) (lfh : List HeapRecord),
      segment.LastValidEntry + 2 ^ 20 ≤ 2 ^ 64 →
      (∀ x ∈ scanReads64 t params encoding segment fuel address,
        ∀ raw, readBytes t x 16 = some raw →
          1 ≤ (Heap64Entry.ofBytes (DecodeHeap64Entry raw encoding).1).Size ∧
          (Heap64Entry.ofBytes (DecodeHeap64Entry raw encoding).1).Size < 2 ^ 16) →
      (scanReads64 t params encoding segment fuel address).length ≤
        (segment.LastValidEntry - address + 15) / 16 ∧
      ((segment.LastValidEntry - address + 15) / 16 < fuel →
        (scan64 t params encoding segment fuel address lfh).status ≠ Status.outOfFuel)) ∧
    (∀ (t : Target) (params : CommonParams) (encoding : List Nat) (segment : HeapSegment)
        (address : Nat) (raw : List Nat),
      readBytes t address 8 = some raw →
      (DecodeHeapEntry raw encoding).2 = true →
      (HeapEntry.ofBytes (DecodeHeapEntry raw encoding).1).Size = 0 →
      address < segment.LastValidEntry → address < 2 ^ 64 →
      address < committedEnd32 t segment →
      ¬ (params.ntGlobalFlag &&& (NT_GLOBAL_FLAG_UST ||| NT_GLOBAL_FLAG_HPA) ≠ 0 ∧
        (HeapEntry.ofBytes (DecodeHeapEntry raw encoding).1).ExtendedBlockSignature = 0x03) →
      ∀ (fuel : Nat) (lfh : List HeapRecord),
        (scan32 t params encoding segment fuel address lfh).status = Status.outOfFuel ∧
        (∀ r, (HeapEntry.ofBytes (DecodeHeapEntry raw encoding).1).Flags =
            (if params.ntGlobalFlag &&& NT_GLOBAL_FLAG_HPA ≠ 0 then 0x03 else 0x01) →
          ParseHeapRecord32 t address (HeapEntry.ofBytes (DecodeHeapEntry raw encoding).1)
            params.ntGlobalFlag = some r →
          fuel ≤ ((scan32 t params encoding segment fuel address lfh).registered.filter
            (fun x => decide (x = r))).length)) ∧
    (∀ (t : Target) (params : CommonParams) (encoding : List Nat) (segment : Heap64Segment)
        (address : Nat) (raw : List Nat),
      readBytes t address 16 = some raw →
      (DecodeHeap64Entry raw encoding).2 = true →
      (Heap64Entry.ofBytes (DecodeHeap64Entry raw encoding).1).Size = 0 →
      address < segment.LastValidEntry → address < 2 ^ 64 →
      address < committedEnd64 t segment →
      ¬ (params.ntGlobalFlag &&& (NT_GLOBAL_FLAG_UST ||| NT_GLOBAL_FLAG_HPA) ≠ 0 ∧
        (Heap64Entry.ofBytes (DecodeHeap64Entry raw encoding).1).ExtendedBlockSignature = 0x03) →
      ∀ (fuel : Nat) (lfh : List HeapRecord),
        (scan64 t params encoding segment fuel address lfh).status = Status.outOfFuel ∧
        (∀ r, (Heap64Entry.ofBytes (DecodeHeap64Entry raw encoding).1).Flags =
            (if params.ntGlobalFlag &&& NT_GLOBAL_FLAG_HPA ≠ 0 then 0x03 else 0x01) →
          ParseHeapRecord64 t address (Heap64Entry.ofBytes (DecodeHeap64Entry raw encoding).1)
            params.ntGlobalFlag = some r →
          fuel ≤ ((scan64 t params encoding segment fuel address lfh).registered.filter
            (fun x => decide (x = r))).length)) := by
  refine ⟨?_, ?_, ?_, ?_⟩
  · intro t params encoding segment fuel address lfh hlast hsize
    exact scan32_terminates t params encoding segment hlast fuel address lfh hsize
  · intro t params encoding segment fuel address lfh hlast hsize
    exact scan64_terminates t params encoding segment hlast fuel address lfh hsize
  · intro t params encoding segment address raw hraw hsum hzero hlt ha hlim hsent fuel lfh
    have hstep := entryStep32_size_zero t params encoding segment address raw hraw hsum hzero
      ha hlim hsent
    have h := scan32_stuck t params encoding segment address _ hlt hstep fuel lfh
    refine ⟨h.1, ?_⟩
    intro r hbusy hparse
    exact h.2 r (by rw [if_pos hbusy, hparse])
  · intro t params encoding segment address raw hraw hsum hzero hlt ha hlim hsent fuel lfh
    have hstep := entryStep64_size_zero t params encoding segment address raw hraw hsum hzero
      ha hlim hsent
    have h := scan64_stuck t params encoding segment address _ hlt hstep fuel lfh
    refine ⟨h.1, ?_⟩
    intro r hbusy hparse
    exact h.2 r (by rw [if_pos hbusy, hparse])

set_option maxRecDepth 100000 in
/-- C27, witness: the two entries that the scan of the segment of
`raggedTarget` decodes have a `Size` of 1, and the scan makes 2 iterations,
which is `(0x100c - 0x1000 + 7) / 8`; the busy entry of `Size` 0 at 0x1000 of
`stuckTarget` is registered 5 times by a scan with fuel 5, which does not
return. -/
theorem C27_scan_terminates_unless_size_zero_witness :
    ((scanReads32 raggedTarget (testParams 0) testKey ⟨0x100a8, 0x1000, 0x100c, 0⟩ 10
        0x1000).length ≤ (0x100c - 0x1000 + 7) / 8 ∧
      ((0x100c - 0x1000 + 7) / 8 < 10 →
        (scan32 raggedTarget (testParams 0) testKey ⟨0x100a8, 0x1000, 0x100c, 0⟩ 10 0x1000
          []).status ≠ Status.outOfFuel)) ∧
    (scanReads32 raggedTarget (testParams 0) testKey ⟨0x100a8, 0x1000, 0x100c, 0⟩ 10
        0x1000).length = 2 ∧
    ((scan32 stuckTarget (testParams 0) testKey ⟨0x100a8, 0x1000, 0x3000, 1⟩ 5 0x1000
        []).status = Status.outOfFuel ∧
      (∀ r, (HeapEntry.ofBytes (DecodeHeapEntry (xorBytes 8 (entryBytes 0 1 0) testKey)
            testKey).1).Flags =
          (if (testParams 0).ntGlobalFlag &&& NT_GLOBAL_FLAG_HPA ≠ 0 then 0x03 else 0x01) →
        ParseHeapRecord32 stuckTarget 0x1000
          (HeapEntry.ofBytes (DecodeHeapEntry (xorBytes 8 (entryBytes 0 1 0) testKey) testKey).1)
          (testParams 0).ntGlobalFlag = some r →
        5 ≤ ((scan32 stuckTarget (testParams 0) testKey ⟨0x100a8, 0x1000, 0x3000, 1⟩ 5 0x1000
          []).registered.filter (fun x => decide (x = r))).length)) ∧
    ParseHeapRecord32 stuckTarget 0x1000
      (HeapEntry.ofBytes (DecodeHeapEntry (xorBytes 8 (entryBytes 0 1 0) testKey) testKey).1)
      (testParams 0).ntGlobalFlag = some ⟨0, 0, 0x1000, 0, 0x1008⟩ :=
  ⟨C27_scan_terminates_unless_size_zero.1 raggedTarget (testParams 0) testKey
      ⟨0x100a8, 0x1000, 0x100c, 0⟩ 10 0x1000 [] (by decide)
      (by
        intro x hx raw hraw
        have hreads : scanReads32 raggedTarget (testParams 0) testKey
            ⟨0x100a8, 0x1000, 0x100c, 0⟩ 10 0x1000 = [0x1000, 0x1008] := by rfl
        rw [hreads] at hx
        simp only [List.mem_cons, List.mem_singleton, List.mem_nil_iff, or_false] at hx
        rcases hx with rfl | rfl
        · have h0 : readBytes raggedTarget 0x1000 8 = some (xorBytes 8 (entryBytes 1 0 0) testKey) :=
            by rfl
          rw [h0] at hraw
          cases hraw
          exact ⟨by decide, by decide⟩
        · have h0 : readBytes raggedTarget 0x1008 8 = some (xorBytes 8 (entryBytes 1 0 0) testKey) :=
            by rfl
          rw [h0] at hraw
          cases hraw
          exact ⟨by decide, by decide⟩),
    by rfl,
    C27_scan_terminates_unless_size_zero.2.2.1 stuckTarget (testParams 0) testKey
      ⟨0x100a8, 0x1000, 0x3000, 1⟩ 0x1000 (xorBytes 8 (entryBytes 0 1 0) testKey)
      (by rfl) (by rfl) (by rfl) (by decide) (by decide) (by decide) (by decide) 5 [],
    by rfl⟩

/-! ## C7: a header whose checksum fails, from the scan to the command -/

end HeapStat
